import Mathlib

/-!
# simple_sid: a shallow embedding of the sample-generation engine

The definitions below follow `simple_sid.c` / `simple_sid.h` function by function.

Conventions of the embedding

* `uint8_t`, `uint16_t` and `unsigned` fields are natural numbers; every store into
  such a field that can leave the range is written with an explicit `% 2^w`.
* `int` values (cycle counts, loop counters) are integers.
* `x & (2^k - 1)` on a two's-complement `int` is written `x % 2^k`; masks on unsigned
  values are kept as `&&&`.
* `float` values are modelled by exact rational arithmetic (`ℚ`).  The transcendental
  part of the cutoff mapping (`sinf`, `powf`) is a parameter `curve`.
* The pointers `syncTarget` / `syncSource` are `Option (Fin 3)`: `none` is `NULL`,
  `some j` points at `channels[j]`.  The channel-level functions receive the value read
  through the pointer as an `Option`; reading through `NULL` yields `none`.
* `while` loops are recursive functions over a fuel counter and return `none` when the
  fuel runs out; each entry point supplies a fuel that is proved sufficient.
* `expTargetTable` has 89 entries and is indexed with levels up to 92; what the read past
  its end returns is the parameter `PastTable` of the engine, so that every general
  theorem holds whatever bytes follow the table.  Concrete runs use `zeroPast`.
-/

namespace SimpleSid

/-! ## Tables -/

/-- The table `adsrRateTable`. -/
def adsrRateTable : List Nat :=
  [9, 32, 63, 95, 149, 220, 267, 313,
   392, 977, 1954, 3126, 3907, 11720, 19532, 31251]

/-- The table `sustainLevels`. -/
def sustainLevels : List Nat :=
  [0x00, 0x11, 0x22, 0x33, 0x44, 0x55, 0x66, 0x77,
   0x88, 0x99, 0xaa, 0xbb, 0xcc, 0xdd, 0xee, 0xff]

/-- The table `expTargetTable`. -/
def expTargetTable : List Nat :=
  [1, 30, 30, 30, 30, 30, 16, 16, 16, 16, 16, 16, 16, 16, 8, 8, 8, 8, 8, 8, 8, 8, 8, 8, 8, 8, 4, 4, 4, 4,
   4, 4, 4, 4, 4, 4, 4, 4, 4, 4, 4, 4, 4, 4, 4, 4, 4, 4, 4, 4, 4, 4, 2, 2, 2, 2, 2, 2, 2, 2, 2, 2, 2, 2, 2, 2,
   2, 2, 2, 2, 2, 2, 2, 2, 2, 2, 2, 2, 2, 2, 2, 2, 2, 2, 2, 2, 2, 2, 2]

/-- What a read past the end of `expTargetTable` returns.  The table has 89 entries but
`clockSidChannel` indexes it with every level below `0x5d`, so for the levels 89..92 the C
code reads the bytes that follow the table in memory.  `byte k` is the byte at offset `k`
past the end of the table; it is a parameter of the whole development. -/
class PastTable where
  byte : Nat → Nat

/-! ## Data model (`simple_sid.h`) -/

/-- The enum `adsrState_t`. -/
inductive adsrState_t where
  | ATTACK
  | DECAY
  | RELEASE
  deriving DecidableEq, Repr

open adsrState_t

/-- The struct `filterState_t`. -/
structure filterState_t where
  low : ℚ
  band : ℚ
  deriving DecidableEq

/-- The struct `sidChannel_t`. -/
structure sidChannel_t where
  frequency : Nat
  ad : Nat
  sr : Nat
  pulse : Nat
  waveform : Nat
  doSync : Bool
  state : adsrState_t
  accumulator : Nat
  noiseGenerator : Nat
  adsrCounter : Nat
  adsrExpCounter : Nat
  volumeLevel : Nat
  syncTarget : Option (Fin 3)
  syncSource : Option (Fin 3)
  deriving DecidableEq

/-- The struct `sid_t`; `ch0`, `ch1`, `ch2` are `channels[0..2]`. -/
structure sid_t where
  ch0 : sidChannel_t
  ch1 : sidChannel_t
  ch2 : sidChannel_t
  cyclesPerSample : ℚ
  cycleAccumulator : ℚ
  filter : filterState_t
  deriving DecidableEq

/-- The struct `sidRegs_t`: `int16_t` and `int8_t` fields, as integers. -/
structure sidRegs_t where
  freq0 : Int
  pulse0 : Int
  waveform0 : Int
  ad0 : Int
  sr0 : Int
  freq1 : Int
  pulse1 : Int
  waveform1 : Int
  ad1 : Int
  sr1 : Int
  freq2 : Int
  pulse2 : Int
  waveform2 : Int
  ad2 : Int
  sr2 : Int
  cutoff : Int
  filterCtrl : Int
  volume : Int
  deriving DecidableEq

/-- Read `sid->channels[i]`. -/
def sid_t.channel (sid : sid_t) (i : Fin 3) : sidChannel_t :=
  match i with
  | 0 => sid.ch0
  | 1 => sid.ch1
  | 2 => sid.ch2

/-- Store into `sid->channels[i]`. -/
def sid_t.setChannel (sid : sid_t) (i : Fin 3) (ch : sidChannel_t) : sid_t :=
  match i with
  | 0 => { sid with ch0 := ch }
  | 1 => { sid with ch1 := ch }
  | 2 => { sid with ch2 := ch }

/-! ## Initialisation -/

/-- The function `sidChannelInit`. -/
def sidChannelInit (_ch : sidChannel_t) : sidChannel_t :=
  { frequency := 0, ad := 0, sr := 0, pulse := 0, waveform := 0, doSync := false,
    state := RELEASE, accumulator := 0, noiseGenerator := 0x7ffff8,
    adsrCounter := 0, adsrExpCounter := 0, volumeLevel := 0,
    syncTarget := none, syncSource := none }

/-- The function `sidInit`. -/
def sidInit (sid : sid_t) : sid_t :=
  { ch0 := { sidChannelInit sid.ch0 with syncTarget := some 1, syncSource := some 2 },
    ch1 := { sidChannelInit sid.ch1 with syncTarget := some 2, syncSource := some 0 },
    ch2 := { sidChannelInit sid.ch2 with syncTarget := some 0, syncSource := some 1 },
    cyclesPerSample := (63 * 312 * 50 : ℚ) / 44100,
    cycleAccumulator := 0,
    filter := { low := 0, band := 0 } }

/-! ## Waveform helpers -/

/-- The function `triangleSidChannel`; `src` is `ch->syncSource->accumulator`. -/
def triangleSidChannel (ch : sidChannel_t) (src : Option Nat) : Option Nat :=
  let fold : Nat → Nat := fun t =>
    let t1 := if t ≥ 0x800000 then ch.accumulator ^^^ 0xffffff else t
    (t1 >>> 7) &&& 0xffff
  if ch.waveform &&& 0x04 ≠ 0 then
    match src with
    | none => none
    | some a => some (fold (ch.accumulator ^^^ a))
  else some (fold ch.accumulator)

/-- The function `noiseSidChannel`. -/
def noiseSidChannel (ch : sidChannel_t) : Nat :=
  let tmp := 0
  let tmp := tmp + ((ch.noiseGenerator &&& 0x100000) >>> 5)
  let tmp := tmp + ((ch.noiseGenerator &&& 0x40000) >>> 4)
  let tmp := tmp + ((ch.noiseGenerator &&& 0x4000) >>> 1)
  let tmp := tmp + (((ch.noiseGenerator &&& 0x800) <<< 1) % 2 ^ 32)
  let tmp := tmp + (((ch.noiseGenerator &&& 0x200) <<< 2) % 2 ^ 32)
  let tmp := tmp + (((ch.noiseGenerator &&& 0x20) <<< 5) % 2 ^ 32)
  let tmp := tmp + (((ch.noiseGenerator &&& 0x04) <<< 7) % 2 ^ 32)
  let tmp := tmp + (((ch.noiseGenerator &&& 0x01) <<< 8) % 2 ^ 32)
  tmp % 2 ^ 32

section Engine

variable [PastTable]

/-! ## Clocking a channel -/

/-- The gate-bit prologue of `clockSidChannel` (lines 101-110). -/
def gateUpdate (ch : sidChannel_t) : sidChannel_t :=
  if ch.waveform &&& 0x01 ≠ 0 then
    (if ch.state = RELEASE then { ch with state := ATTACK } else ch)
  else { ch with state := RELEASE }

/-- The rate selected by the first `switch (ch->state)` of the ADSR loop. -/
def adsrRate (ch : sidChannel_t) : Nat :=
  match ch.state with
  | ATTACK => adsrRateTable.getD (ch.ad >>> 4) 0
  | DECAY => adsrRateTable.getD (ch.ad &&& 0x0f) 0
  | RELEASE => adsrRateTable.getD (ch.sr &&& 0x0f) 0

/-- The value `expTarget` of the DECAY and RELEASE cases. -/
def expTarget (ch : sidChannel_t) : Nat :=
  if ch.volumeLevel < 0x5d then
    match expTargetTable[ch.volumeLevel]? with
    | some target => target
    | none => PastTable.byte (ch.volumeLevel - expTargetTable.length) % 256
  else 1

/-- The second `switch (ch->state)` of the ADSR loop: one envelope step. -/
def envelopeStep (ch : sidChannel_t) : sidChannel_t :=
  match ch.state with
  | ATTACK =>
    let ch1 := { ch with adsrExpCounter := 0, volumeLevel := (ch.volumeLevel + 1) % 256 }
    if ch1.volumeLevel = 0xff then { ch1 with state := DECAY } else ch1
  | DECAY =>
    let target := expTarget ch
    let ch1 := { ch with adsrExpCounter := (ch.adsrExpCounter + 1) % 256 }
    if ch1.adsrExpCounter ≥ target then
      let ch2 := { ch1 with adsrExpCounter := 0 }
      if ch2.volumeLevel > sustainLevels.getD (ch2.sr >>> 4) 0 then
        { ch2 with volumeLevel := (ch2.volumeLevel + 255) % 256 }
      else ch2
    else ch1
  | RELEASE =>
    if ch.volumeLevel > 0 then
      let target := expTarget ch
      let ch1 := { ch with adsrExpCounter := (ch.adsrExpCounter + 1) % 256 }
      if ch1.adsrExpCounter ≥ target then
        { ch1 with adsrExpCounter := 0, volumeLevel := (ch1.volumeLevel + 255) % 256 }
      else ch1
    else ch

/-- One iteration of `while (adsrCycles > 0)`: the new channel and the new `adsrCycles`. -/
def adsrIter (ch : sidChannel_t) (adsrCycles : Int) : sidChannel_t × Int :=
  let rate : Nat := adsrRate ch
  let needed : Int :=
    if ch.adsrCounter < rate then (rate : Int) - ch.adsrCounter
    else 0x8000 + (rate : Int) - ch.adsrCounter
  let stepNow : Int := if adsrCycles < needed then adsrCycles else needed
  let ch1 := { ch with adsrCounter := ((((ch.adsrCounter : Int) + stepNow) % 0x8000).toNat) % 2 ^ 16 }
  let ch2 :=
    if ch1.adsrCounter = rate then envelopeStep { ch1 with adsrCounter := 0 } else ch1
  (ch2, adsrCycles - stepNow)

/-- The loop `while (adsrCycles > 0)`. -/
def adsrLoop : Nat → sidChannel_t → Int → Option sidChannel_t
  | 0, ch, adsrCycles => if adsrCycles > 0 then none else some ch
  | fuel + 1, ch, adsrCycles =>
    if adsrCycles > 0 then adsrLoop fuel (adsrIter ch adsrCycles).1 (adsrIter ch adsrCycles).2
    else some ch

/-- Conversion of an `unsigned` value to `int` (two's complement). -/
def toInt32 (n : Nat) : Int :=
  if n % 2 ^ 32 < 2 ^ 31 then ((n % 2 ^ 32 : Nat) : Int) else ((n % 2 ^ 32 : Nat) : Int) - 2 ^ 32

/-- Conversion of an `int` value to `unsigned`. -/
def toUInt32 (i : Int) : Nat := (i % 2 ^ 32).toNat

/-- The LFSR update of lines 259-265. -/
def lfsrStep (lfsr : Nat) : Nat :=
  let tmp := lfsr
  let step := (tmp &&& 0x400000) ^^^ (((tmp &&& 0x20000) <<< 5) % 2 ^ 32)
  let tmp := (tmp <<< 1) % 2 ^ 32
  let tmp := if step ≠ 0 then tmp ||| 1 else tmp
  tmp &&& 0x7fffff

/-- The value `needed` of the noise block (lines 214-229): cycles until the next
crossing of accumulator bit 19. -/
def noiseNeeded (ch : sidChannel_t) : Int :=
  let mask20 := ch.accumulator &&& 0xfffff
  if mask20 < 0x80000 then
    toInt32 (((0x80000 + 2 ^ 32 - mask20) % 2 ^ 32) / ch.frequency) + 1
  else
    toInt32 (((0x180000 + 2 ^ 32 - mask20) % 2 ^ 32) / ch.frequency) + 1

/-- The value `needed` of the sync block (lines 231-246): cycles until the next
crossing of accumulator bit 23. -/
def syncNeeded (ch : sidChannel_t) : Int :=
  if ch.accumulator < 0x800000 then
    toInt32 (((0x800000 + 2 ^ 32 - ch.accumulator % 2 ^ 32) % 2 ^ 32) / ch.frequency) + 1
  else
    toInt32 (((0x1800000 + 2 ^ 32 - ch.accumulator % 2 ^ 32) % 2 ^ 32) / ch.frequency) + 1

/-- The value of `stepNow` after lines 210-246; `tw` is `ch->syncTarget->waveform`. -/
def slowStepNow (ch : sidChannel_t) (tw : Nat) (left : Int) : Int :=
  let stepNow : Int := left
  let stepNow : Int :=
    if ch.waveform &&& 0x80 ≠ 0 then
      (if noiseNeeded ch < stepNow then noiseNeeded ch else stepNow)
    else stepNow
  let stepNow : Int :=
    if tw &&& 0x02 ≠ 0 then
      (if syncNeeded ch < stepNow then syncNeeded ch else stepNow)
    else stepNow
  stepNow

/-- Lines 248-276: advance the accumulator by `stepNow` cycles, clock the LFSR on a
0->1 crossing of bit 19, set `doSync` on a 0->1 crossing of bit 23. -/
def slowAdvance (ch : sidChannel_t) (stepNow : Int) : sidChannel_t :=
  let lastAcc := ch.accumulator
  let acc := ((ch.accumulator + (ch.frequency * toUInt32 stepNow) % 2 ^ 32) % 2 ^ 32) &&& 0xffffff
  let noiseGenerator :=
    if ch.waveform &&& 0x80 ≠ 0 then
      let wasLow : Bool := decide ((lastAcc &&& 0x80000) = 0)
      let nowHigh : Bool := decide ((acc &&& 0x80000) ≠ 0)
      if wasLow && nowHigh then lfsrStep ch.noiseGenerator else ch.noiseGenerator
    else ch.noiseGenerator
  let wasLow : Bool := decide ((lastAcc &&& 0x800000) = 0)
  let nowHigh : Bool := decide ((acc &&& 0x800000) ≠ 0)
  let doSync : Bool := if wasLow && nowHigh then true else false
  { ch with accumulator := acc, noiseGenerator := noiseGenerator, doSync := doSync }

/-- One iteration of `while (left > 0)` on the slow path; `tw` is
`ch->syncTarget->waveform`.  Returns the new channel and the new `left`. -/
def slowIter (ch : sidChannel_t) (tw : Nat) (left : Int) : sidChannel_t × Int :=
  (slowAdvance ch (slowStepNow ch tw left), left - slowStepNow ch tw left)

/-- The loop `while (left > 0)` of the slow path. -/
def slowLoop : Nat → sidChannel_t → Nat → Int → Option sidChannel_t
  | 0, ch, _, left => if left > 0 then none else some ch
  | fuel + 1, ch, tw, left =>
    if left > 0 then slowLoop fuel (slowIter ch tw left).1 tw (slowIter ch tw left).2
    else some ch

/-- The accumulator part of `clockSidChannel` (lines 186-280); `tw` is the value read
through `ch->syncTarget`. -/
def clockAccumulator (ch : sidChannel_t) (tw : Option Nat) (cycles : Int) :
    Option sidChannel_t :=
  if ch.waveform &&& 0x08 ≠ 0 then some { ch with accumulator := 0 }
  else if ch.frequency = 0 then some ch
  else
    match tw with
    | none => none
    | some w =>
      if (ch.waveform &&& 0x80) = 0 ∧ (w &&& 0x02) = 0 then
        let inc := (ch.frequency * toUInt32 cycles) % 2 ^ 32
        some { ch with accumulator := ((ch.accumulator + inc) % 2 ^ 32) &&& 0xffffff }
      else slowLoop cycles.toNat ch w cycles

/-- The function `clockSidChannel`; `tw` is the value read through `ch->syncTarget`. -/
def clockSidChannel (ch : sidChannel_t) (tw : Option Nat) (cycles : Int) :
    Option sidChannel_t :=
  match adsrLoop (cycles.toNat + 0x8000) (gateUpdate ch) cycles with
  | none => none
  | some ch1 => clockAccumulator ch1 tw cycles

/-! ## Channel output -/

/-- The value `waveOut` computed by the `switch (ch->waveform & 0xf0)` of
`getOutputSidChannel`; `src` is the value read through `ch->syncSource`. -/
def waveOutSidChannel (ch : sidChannel_t) (src : Option Nat) : Option Nat :=
  let top12 := ch.accumulator >>> 12
  let sq : Nat := if top12 ≥ (ch.pulse &&& 0x0fff) then 0xffff else 0x0000
  let combine : Nat → Nat := fun base =>
    let combo := (sq &&& base &&& (base >>> 1)) &&& ((base <<< 1) % 2 ^ 32)
    let w := (combo <<< 1) % 2 ^ 32
    if w > 0xffff then 0xffff else w
  let sel := ch.waveform &&& 0xf0
  if sel = 0x10 then triangleSidChannel ch src
  else if sel = 0x20 then some (ch.accumulator >>> 8)
  else if sel = 0x40 then some sq
  else if sel = 0x50 then
    match triangleSidChannel ch src with
    | none => none
    | some tri => some (combine tri)
  else if sel = 0x60 then some (combine (ch.accumulator >>> 8))
  else if sel = 0x70 then
    match triangleSidChannel ch src with
    | none => none
    | some tri => some (combine (tri &&& (ch.accumulator >>> 8)))
  else if sel = 0x80 then some (noiseSidChannel ch)
  else some 0

/-- The value `centered` of `getOutputSidChannel`. -/
def centered (waveOut : Nat) : Int := toInt32 waveOut - 0x8000

/-- The function `getOutputSidChannel`. -/
def getOutputSidChannel (ch : sidChannel_t) (src : Option Nat) : Option ℚ :=
  if ch.volumeLevel = 0 then some 0
  else
    match waveOutSidChannel ch src with
    | none => none
    | some waveOut =>
      let env : ℚ := (ch.volumeLevel : ℚ) / 255
      some (((centered waveOut : ℚ) * env) / 32768)

/-! ## Filter -/

/-- The function `saturate`. -/
def saturate (x : ℚ) : ℚ :=
  let alpha : ℚ := 1666667 / 10000000
  x - (x * x * x) * alpha

/-- The function `sidFilterStep`: the new filter state and the value stored in `*out`. -/
def sidFilterStep (inp cutoff resonance : ℚ) (filterSel : Nat) (st : filterState_t) :
    filterState_t × ℚ :=
  let input := inp - (resonance * st.band)
  let low := st.low + saturate (cutoff * st.band)
  let band := st.band + saturate (cutoff * (input - low))
  let high := input - low - band
  let mix : ℚ := 0
  let mix := if filterSel &&& 0x10 ≠ 0 then mix + low else mix
  let mix := if filterSel &&& 0x20 ≠ 0 then mix + band else mix
  let mix := if filterSel &&& 0x40 ≠ 0 then mix + high else mix
  ({ low := low, band := band }, mix)

/-! ## The sample engine -/

/-- The value read by `ch->syncTarget->waveform`. -/
def targetWaveform (sid : sid_t) (ch : sidChannel_t) : Option Nat :=
  match ch.syncTarget with
  | none => none
  | some j => some (sid.channel j).waveform

/-- The value read by `ch->syncSource->accumulator`. -/
def sourceAccumulator (sid : sid_t) (ch : sidChannel_t) : Option Nat :=
  match ch.syncSource with
  | none => none
  | some j => some (sid.channel j).accumulator

/-- Step 1 of `bufferSamplesSid`: copy the register snapshot into the channels. -/
def applyRegs (sid : sid_t) (regs : sidRegs_t) : sid_t :=
  { sid with
    ch0 := { sid.ch0 with
      frequency := (regs.freq0 % 2 ^ 16).toNat, pulse := (regs.pulse0 % 2 ^ 16).toNat,
      waveform := (regs.waveform0 % 2 ^ 8).toNat, ad := (regs.ad0 % 2 ^ 8).toNat,
      sr := (regs.sr0 % 2 ^ 8).toNat },
    ch1 := { sid.ch1 with
      frequency := (regs.freq1 % 2 ^ 16).toNat, pulse := (regs.pulse1 % 2 ^ 16).toNat,
      waveform := (regs.waveform1 % 2 ^ 8).toNat, ad := (regs.ad1 % 2 ^ 8).toNat,
      sr := (regs.sr1 % 2 ^ 8).toNat },
    ch2 := { sid.ch2 with
      frequency := (regs.freq2 % 2 ^ 16).toNat, pulse := (regs.pulse2 % 2 ^ 16).toNat,
      waveform := (regs.waveform2 % 2 ^ 8).toNat, ad := (regs.ad2 % 2 ^ 8).toNat,
      sr := (regs.sr2 % 2 ^ 8).toNat } }

/-- The locals of `bufferSamplesSid` computed from the register snapshot before the loop. -/
structure mixParams where
  masterVol : ℚ
  filterSel : Nat
  filterCtrl : Nat
  cutoff : ℚ
  resonance : ℚ

/-- The locals `masterVol`, `filterSel`, `filterCtrl`, `cutoff`, `resonance`.  The
parameter `curve` stands for `x ↦ powf(0.05 + 0.85 * (sinf(x * M_PI) * 0.5 + 0.5), 1.3)`. -/
def regParams (curve : ℚ → ℚ) (regs : sidRegs_t) : mixParams :=
  let filterCtrl : Nat := (regs.filterCtrl % 2 ^ 8).toNat
  { masterVol := ((regs.volume % 16 : Int) : ℚ) / (45 / 2),
    filterSel := (regs.volume % 2 ^ 8).toNat &&& 0x70,
    filterCtrl := filterCtrl,
    cutoff := curve ((regs.cutoff : ℚ) / 255 - 1 / 2),
    resonance :=
      if filterCtrl > 0x3f then
        (if filterCtrl >>> 4 > 0 then 7 / ((filterCtrl >>> 4 : Nat) : ℚ) else 7 / 4)
      else 7 / 4 }

/-- Call `clockSidChannel(&sid->channels[i], stepNow)`. -/
def clockAt (sid : sid_t) (i : Fin 3) (stepNow : Int) : Option sid_t :=
  match clockSidChannel (sid.channel i) (targetWaveform sid (sid.channel i)) stepNow with
  | none => none
  | some ch => some (sid.setChannel i ch)

/-- One iteration of the sync loop `for (int i = 0; i < 3; i++)` (lines 472-480). -/
def applySync (sid : sid_t) (i : Fin 3) : Option sid_t :=
  if (sid.channel i).doSync then
    match (sid.channel i).syncTarget with
    | none => none
    | some j =>
      if (sid.channel j).waveform &&& 0x02 ≠ 0 then
        some (sid.setChannel j { sid.channel j with accumulator := 0 })
      else some sid
  else some sid

/-- Conversion `(int16_t)x` of a float within the `int16_t` range: truncation toward 0. -/
def truncToInt (x : ℚ) : Int := if 0 ≤ x then ⌊x⌋ else ⌈x⌉

/-- The mixing block (lines 488-529): the new filter state and the sample stored. -/
def mixSample (sid : sid_t) (p : mixParams) : Option (filterState_t × Int) :=
  match getOutputSidChannel sid.ch0 (sourceAccumulator sid sid.ch0),
        getOutputSidChannel sid.ch1 (sourceAccumulator sid sid.ch1),
        getOutputSidChannel sid.ch2 (sourceAccumulator sid sid.ch2) with
  | some c0, some c1, some c2 =>
    let out : ℚ := 0
    let fin : ℚ := 0
    let fin := if p.filterCtrl &&& 0x01 ≠ 0 then fin + c0 else fin
    let out := if p.filterCtrl &&& 0x01 ≠ 0 then out else out + c0
    let fin := if p.filterCtrl &&& 0x02 ≠ 0 then fin + c1 else fin
    let out := if p.filterCtrl &&& 0x02 ≠ 0 then out else out + c1
    let fin := if p.filterCtrl &&& 0x04 ≠ 0 then fin + c2 else fin
    let out := if p.filterCtrl &&& 0x04 ≠ 0 then out else out + c2
    let r := sidFilterStep fin p.cutoff p.resonance p.filterSel sid.filter
    let out := out + r.2
    let out := out * p.masterVol
    let out := if out < -1 then -1 else out
    let out := if out > 1 then 1 else out
    some (r.1, truncToInt (out * 32767))
  | _, _, _ => none

/-- The loop state of `bufferSamplesSid`: the chip, the output buffer (indexed from
`outSamples`), `outIndex`, `cpuCycles`, and the list of indices stored so far. -/
structure bufState where
  sid : sid_t
  out : Int → Int
  outIndex : Int
  cpuCycles : Int
  written : List Int

/-- The value `stepNow` of the outer loop (lines 460-463). -/
def outerStep (sid : sid_t) (cpuCycles : Int) : Int :=
  let needed : ℚ := sid.cyclesPerSample - sid.cycleAccumulator
  let needed : ℚ := if needed < 0 then 0 else needed
  if cpuCycles < ⌈needed⌉ then cpuCycles else ⌈needed⌉

/-- Lines 465-481: clock the three channels by `stepNow`, then run the sync loop. -/
def clockAll (sid : sid_t) (stepNow : Int) : Option sid_t :=
  (clockAt sid 0 stepNow).bind (fun a => (clockAt a 1 stepNow).bind
    (fun b => (clockAt b 2 stepNow).bind
    (fun c => (applySync c 0).bind (fun d => (applySync d 1).bind
    (fun e => applySync e 2)))))

/-- The body of `while (cpuCycles > 0 && outIndex < maxSamples)`. -/
def bufferIter (p : mixParams) (s : bufState) : Option bufState :=
  let stepNow := outerStep s.sid s.cpuCycles
  match clockAll s.sid stepNow with
  | none => none
  | some sid1 =>
    let sid2 : sid_t := { sid1 with cycleAccumulator := sid1.cycleAccumulator + stepNow }
    if sid2.cycleAccumulator ≥ sid2.cyclesPerSample then
      let sid3 : sid_t :=
        { sid2 with cycleAccumulator := sid2.cycleAccumulator - sid2.cyclesPerSample }
      match mixSample sid3 p with
      | none => none
      | some (fs, sample) =>
        some { sid := { sid3 with filter := fs },
               out := fun j => if j = s.outIndex then sample else s.out j,
               outIndex := s.outIndex + 1,
               cpuCycles := s.cpuCycles - stepNow,
               written := s.written ++ [s.outIndex] }
    else
      some { s with sid := sid2, cpuCycles := s.cpuCycles - stepNow }

/-- The loop `while (cpuCycles > 0 && outIndex < maxSamples)`. -/
def bufferLoop (p : mixParams) (maxSamples : Int) : Nat → bufState → Option bufState
  | 0, s => if s.cpuCycles > 0 ∧ s.outIndex < maxSamples then none else some s
  | fuel + 1, s =>
    if s.cpuCycles > 0 ∧ s.outIndex < maxSamples then
      (bufferIter p s).bind (bufferLoop p maxSamples fuel)
    else some s

/-- The function `bufferSamplesSid`.  The result holds the returned count in `outIndex`,
the chip after the call in `sid` and the buffer after the call in `out`. -/
def bufferSamplesSid (curve : ℚ → ℚ) (sid : sid_t) (cpuCycles : Int) (regs : sidRegs_t)
    (outSamples : Int → Int) (maxSamples : Int) : Option bufState :=
  if cpuCycles ≤ 0 ∨ maxSamples ≤ 0 then
    some { sid := sid, out := outSamples, outIndex := 0, cpuCycles := cpuCycles, written := [] }
  else
    bufferLoop (regParams curve regs) maxSamples (cpuCycles.toNat + maxSamples.toNat)
      { sid := applyRegs sid regs, out := outSamples, outIndex := 0, cpuCycles := cpuCycles,
        written := [] }

/-! ## Projections used to state frame properties -/

/-- The fields of a channel that the ADSR loop does not write. -/
def oscPart (ch : sidChannel_t) :
    Nat × Nat × Nat × Nat × Nat × Bool × Nat × Nat × Option (Fin 3) × Option (Fin 3) :=
  (ch.frequency, ch.ad, ch.sr, ch.pulse, ch.waveform, ch.doSync, ch.accumulator,
   ch.noiseGenerator, ch.syncTarget, ch.syncSource)

/-- The fields of a channel that the accumulator part of `clockSidChannel` does not write. -/
def envPart (ch : sidChannel_t) :
    Nat × Nat × Nat × Nat × Nat × adsrState_t × Nat × Nat × Nat × Option (Fin 3) × Option (Fin 3) :=
  (ch.frequency, ch.ad, ch.sr, ch.pulse, ch.waveform, ch.state, ch.adsrCounter,
   ch.adsrExpCounter, ch.volumeLevel, ch.syncTarget, ch.syncSource)

/-- The register image and the sync pointers of a channel. -/
def regPart (ch : sidChannel_t) :
    Nat × Nat × Nat × Nat × Nat × Option (Fin 3) × Option (Fin 3) :=
  (ch.frequency, ch.ad, ch.sr, ch.pulse, ch.waveform, ch.syncTarget, ch.syncSource)

/-! ## Well-formedness predicates -/

/-- Channel `i` of a chip is well formed: its accumulator is a 24-bit value, its ADSR
counter fits `uint16_t`, and its sync pointers are wired as `sidInit` wires them. -/
def ringOK (i : Fin 3) (ch : sidChannel_t) : Prop :=
  ch.accumulator < 2 ^ 24 ∧ ch.adsrCounter < 2 ^ 16 ∧
    ch.syncTarget = some (i + 1) ∧ ch.syncSource = some (i + 2)

/-- A chip is well formed when its three channels are. -/
def sidOK (sid : sid_t) : Prop := ∀ i : Fin 3, ringOK i (sid.channel i)

instance (i : Fin 3) (ch : sidChannel_t) : Decidable (ringOK i ch) := by
  unfold ringOK; infer_instance

instance (sid : sid_t) : Decidable (sidOK sid) := by
  unfold sidOK; infer_instance

/-- A silent channel: waveform register 0, frequency 0 and envelope level 0. -/
def silentOK (_i : Fin 3) (ch : sidChannel_t) : Prop :=
  ch.waveform = 0 ∧ ch.frequency = 0 ∧ ch.volumeLevel = 0

/-- The LFSR of a channel is a non-zero 23-bit value. -/
def lfsrOK (_i : Fin 3) (ch : sidChannel_t) : Prop :=
  0 < ch.noiseGenerator ∧ ch.noiseGenerator < 2 ^ 23

/-- The chip-level fields outside the three channels. -/
def pacePart (sid : sid_t) : ℚ × ℚ × filterState_t :=
  (sid.cyclesPerSample, sid.cycleAccumulator, sid.filter)

/-! ## Sequences of calls and reference definitions -/

/-- A sequence of `bufferSamplesSid` calls on one chip; each call is given as
`(cpuCycles, regs, maxSamples)` and writes into a buffer holding `out`. -/
def runCalls (curve : ℚ → ℚ) (out : Int → Int) :
    sid_t → List (Int × sidRegs_t × Int) → Option sid_t
  | sid, [] => some sid
  | sid, call :: rest =>
    (bufferSamplesSid curve sid call.1 call.2.1 out call.2.2).bind
      (fun r => runCalls curve out r.sid rest)

/-- `n` successive calls `clockSidChannel(ch, 1)`. -/
def clockRepeat : Nat → sidChannel_t → Option Nat → Option sidChannel_t
  | 0, ch, _ => some ch
  | n + 1, ch, tw => (clockSidChannel ch tw 1).bind (fun r => clockRepeat n r tw)

/-- The number of 0->1 transitions of accumulator bit 19 in the per-cycle sequence
`acc_k = (acc + k * freq) mod 2^24`, `k = 1..cycles`: the per-cycle reading of the noise
clock, to be compared with what `clockSidChannel` does. -/
def bit19Crossings (acc freq : Nat) : Nat → Nat
  | 0 => 0
  | k + 1 =>
    bit19Crossings acc freq k +
      (if ((acc + k * freq) % 2 ^ 24) &&& 0x80000 = 0 ∧
          ((acc + (k + 1) * freq) % 2 ^ 24) &&& 0x80000 ≠ 0 then 1 else 0)

/-- The eight LFSR bits that the noise waveform reads, packed in output order. -/
def noiseBits (l : Nat) : Nat :=
  (l.testBit 20).toNat * 128 + (l.testBit 18).toNat * 64 + (l.testBit 14).toNat * 32 +
    (l.testBit 11).toNat * 16 + (l.testBit 9).toNat * 8 + (l.testBit 5).toNat * 4 +
    (l.testBit 2).toNat * 2 + (l.testBit 0).toNat

/-- The indices `0, 1, ..., n - 1` as `int` values. -/
def indicesUpTo (n : Int) : List Int := (List.range n.toNat).map Int.ofNat

/-- Successive calls `clockSidChannel(ch, c)` for the cycle counts `c` of a list, the
register image being left alone between the calls. -/
def clockSeq : sidChannel_t → Option Nat → List Int → Option sidChannel_t
  | ch, _, [] => some ch
  | ch, tw, c :: rest => (clockSidChannel ch tw c).bind (fun r => clockSeq r tw rest)

/-- The channel at the entry of each iteration of `while (adsrCycles > 0)`. -/
def adsrTrace : Nat → sidChannel_t → Int → List sidChannel_t
  | 0, _, _ => []
  | fuel + 1, ch, adsrCycles =>
    if adsrCycles > 0 then
      ch :: adsrTrace fuel (adsrIter ch adsrCycles).1 (adsrIter ch adsrCycles).2
    else []

/-- The channel at the entry of each iteration of `while (adsrCycles > 0)`, followed by the
channel at the exit of the loop. -/
def adsrStates : Nat → sidChannel_t → Int → List sidChannel_t
  | 0, ch, _ => [ch]
  | fuel + 1, ch, adsrCycles =>
    if adsrCycles > 0 then
      ch :: adsrStates fuel (adsrIter ch adsrCycles).1 (adsrIter ch adsrCycles).2
    else [ch]

/-- The values of `stepNow` in the successive iterations of `while (left > 0)`. -/
def slowSteps : Nat → sidChannel_t → Nat → Int → List Int
  | 0, _, _, _ => []
  | fuel + 1, ch, tw, left =>
    if left > 0 then
      slowStepNow ch tw left :: slowSteps fuel (slowIter ch tw left).1 tw (slowIter ch tw left).2
    else []

/-- The value `needed` of the ADSR loop: the cycles until `adsrCounter == rate`. -/
def adsrNeeded (ch : sidChannel_t) : Int :=
  if ch.adsrCounter < adsrRate ch then (adsrRate ch : Int) - ch.adsrCounter
  else 0x8000 + (adsrRate ch : Int) - ch.adsrCounter

end Engine

/-! ## Concrete inputs -/

/-- A channel whose storage is all zero. -/
def blankChannel : sidChannel_t :=
  { frequency := 0, ad := 0, sr := 0, pulse := 0, waveform := 0, doSync := false,
    state := ATTACK, accumulator := 0, noiseGenerator := 0, adsrCounter := 0,
    adsrExpCounter := 0, volumeLevel := 0, syncTarget := none, syncSource := none }

/-- A chip whose storage is all zero, as before `sidInit`. -/
def blankSid : sid_t :=
  { ch0 := blankChannel, ch1 := blankChannel, ch2 := blankChannel,
    cyclesPerSample := 0, cycleAccumulator := 0, filter := { low := 0, band := 0 } }

/-- The register snapshot with every register 0. -/
def zeroRegs : sidRegs_t :=
  { freq0 := 0, pulse0 := 0, waveform0 := 0, ad0 := 0, sr0 := 0,
    freq1 := 0, pulse1 := 0, waveform1 := 0, ad1 := 0, sr1 := 0,
    freq2 := 0, pulse2 := 0, waveform2 := 0, ad2 := 0, sr2 := 0,
    cutoff := 0, filterCtrl := 0, volume := 0 }

/-- The voice 0 of the chip after `sidInit` and one 23-cycle call with `freq0 = 0xFFFF`
and `waveform0 = 0x80` (noise): the accumulator is `23 * 0xFFFF`, bit 19 is low. -/
def noiseVoice : sidChannel_t :=
  { sidChannelInit blankChannel with
    frequency := 0xffff, waveform := 0x80, accumulator := 0x16ffe9, noiseGenerator := 0x7ffff0,
    adsrCounter := 5, syncTarget := some 1, syncSource := some 2 }

/-- The register snapshot with `freq0 = 0xFFFF`, `waveform0 = 0x80`, everything else 0. -/
def noiseRegs : sidRegs_t := { zeroRegs with freq0 := -1, waveform0 := -128 }

/-- The register snapshot with `freq0 = 0xFFFF`, `freq1 = 1`, `waveform1 = 0x02` (sync bit of
voice 1, the sync target of voice 0), everything else 0. -/
def syncRegs : sidRegs_t := { zeroRegs with freq0 := -1, freq1 := 1, waveform1 := 0x02 }

/-- The memory in which every byte past the table is 0, used for concrete runs. -/
def zeroPast : PastTable := { byte := fun _ => 0 }

/-! ## Accessors and predicates used in the statements -/

/-- The register `waveform0`, `waveform1` or `waveform2` of a snapshot. -/
def sidRegs_t.waveform (regs : sidRegs_t) (i : Fin 3) : Int :=
  match i with
  | 0 => regs.waveform0
  | 1 => regs.waveform1
  | 2 => regs.waveform2

/-- The envelope fields of a channel. -/
def adsrPart (ch : sidChannel_t) : adsrState_t × Nat × Nat × Nat :=
  (ch.state, ch.adsrCounter, ch.adsrExpCounter, ch.volumeLevel)

/-- The envelope of a voice with the gate bit set and attack rate index 0 that has attacked
from level 0 for `m` cycles: the ADSR counter and the level count the cycles (9 per level),
the state is ATTACK before cycle 2295 and DECAY at cycle 2295. -/
def attackOK (m : Int) (x : sidChannel_t) : Prop :=
  x.waveform &&& 0x01 ≠ 0 ∧ x.ad >>> 4 = 0 ∧ x.adsrCounter < 9 ∧
    (x.adsrCounter : Int) + 9 * x.volumeLevel = m ∧
    ((m < 2295 ∧ x.state = ATTACK) ∨ (m = 2295 ∧ x.state = DECAY))

/-- The 16-bit pulse value of the specification: `0xFFFF` when `(A >> 12) >= (pulse & 0xFFF)`,
else 0. -/
def pulseRef (ch : sidChannel_t) : Nat :=
  if ch.accumulator >>> 12 ≥ ch.pulse &&& 0x0fff then 0xffff else 0

/-- The combined-waveform formula of the specification, over unbounded naturals:
`min(((p & b & (b >> 1)) & (b << 1)) << 1, 0xFFFF)`. -/
def comboRef (p b : Nat) : Nat :=
  min (((p &&& b &&& (b >>> 1)) &&& (b <<< 1)) <<< 1) 0xffff

/-- The value of an `int8_t` field that holds the register byte `b`. -/
def toInt8 (b : Nat) : Int :=
  if b % 2 ^ 8 < 2 ^ 7 then ((b % 2 ^ 8 : Nat) : Int) else ((b % 2 ^ 8 : Nat) : Int) - 2 ^ 8

/-- The LFSR step of the specification: shift left, feed back 1 when bit 22 differs from
bit 17, keep 23 bits. -/
def lfsrRef (l : Nat) : Nat :=
  ((l <<< 1) ||| (if l.testBit 22 ≠ l.testBit 17 then 1 else 0)) &&& 0x7fffff

/-- The register `freq0`, `freq1` or `freq2` of a snapshot. -/
def sidRegs_t.freq (regs : sidRegs_t) (i : Fin 3) : Int :=
  match i with
  | 0 => regs.freq0
  | 1 => regs.freq1
  | 2 => regs.freq2

/-- Voice `i` holds a stale `doSync`: the flag is set, the voice is wired to its sync target
`i + 1` and leaves `clockSidChannel` before the slow path (test bit set or frequency 0),
and the sync bit of the target is set.  Stated per channel `j` of the chip. -/
def staleSync (i j : Fin 3) (ch : sidChannel_t) : Prop :=
  (j = i → ch.doSync = true ∧ (ch.waveform &&& 0x08 ≠ 0 ∨ ch.frequency = 0) ∧
    ch.syncTarget = some (i + 1)) ∧
  (j = i + 1 → ch.waveform &&& 0x02 ≠ 0)

/-- The chip after `sidInit` in which voice 0 has been left with `doSync` set. -/
def staleSid : sid_t :=
  { sidInit blankSid with ch0 := { (sidInit blankSid).ch0 with doSync := true } }

/-! ## Theorems -/

/-! ### Lemmas that do not involve the envelope tables -/

theorem envPart_slowAdvance (ch : sidChannel_t) (n : Int) :
    envPart (slowAdvance ch n) = envPart ch := rfl

theorem envPart_slowIter (ch : sidChannel_t) (tw : Nat) (left : Int) :
    envPart (slowIter ch tw left).1 = envPart ch := rfl

theorem slowLoop_inv (P : sidChannel_t → Prop)
    (hP : ∀ ch tw left, P ch → P (slowIter ch tw left).1) :
    ∀ (fuel : Nat) (ch : sidChannel_t) (tw : Nat) (left : Int) (r : sidChannel_t),
      slowLoop fuel ch tw left = some r → P ch → P r := by
  intro fuel
  induction fuel with
  | zero =>
    intro ch tw left r h hp
    unfold slowLoop at h
    split at h
    · cases h
    · cases h; exact hp
  | succ n ih =>
    intro ch tw left r h hp
    unfold slowLoop at h
    split at h
    · exact ih _ _ _ _ h (hP _ _ _ hp)
    · cases h; exact hp

theorem envPart_slowLoop (fuel : Nat) (ch : sidChannel_t) (tw : Nat) (left : Int)
    (r : sidChannel_t) (h : slowLoop fuel ch tw left = some r) : envPart r = envPart ch :=
  slowLoop_inv (fun x => envPart x = envPart ch)
    (fun x tw left hx => (envPart_slowIter x tw left).trans hx) fuel ch tw left r h rfl

theorem and_mask24_lt (x : Nat) : x &&& 0xffffff < 2 ^ 24 :=
  Nat.lt_of_le_of_lt Nat.and_le_right (by norm_num)

theorem slowAdvance_acc_lt (ch : sidChannel_t) (n : Int) :
    (slowAdvance ch n).accumulator < 2 ^ 24 := and_mask24_lt _

theorem slowLoop_acc_lt (fuel : Nat) (ch : sidChannel_t) (tw : Nat) (left : Int)
    (r : sidChannel_t) (h : slowLoop fuel ch tw left = some r)
    (hacc : ch.accumulator < 2 ^ 24) : r.accumulator < 2 ^ 24 :=
  slowLoop_inv (fun x => x.accumulator < 2 ^ 24)
    (fun x _ _ _ => slowAdvance_acc_lt x _) fuel ch tw left r h hacc

theorem toInt32_of_lt (n : Nat) (h : n < 2 ^ 31) : toInt32 n = n := by
  unfold toInt32
  have h1 : n % 2 ^ 32 = n := Nat.mod_eq_of_lt (by omega)
  rw [h1, if_pos h]

theorem noiseNeeded_pos (ch : sidChannel_t) : 1 ≤ noiseNeeded ch := by
  have hm : ch.accumulator &&& 0xfffff ≤ 0xfffff := Nat.and_le_right
  unfold noiseNeeded
  simp only []
  split_ifs with h1
  · rw [toInt32_of_lt]
    · exact Int.le_add_of_nonneg_left (Int.ofNat_nonneg _)
    · apply Nat.lt_of_le_of_lt (Nat.div_le_self _ _)
      omega
  · rw [toInt32_of_lt]
    · exact Int.le_add_of_nonneg_left (Int.ofNat_nonneg _)
    · apply Nat.lt_of_le_of_lt (Nat.div_le_self _ _)
      omega

theorem syncNeeded_pos (ch : sidChannel_t) (h : ch.accumulator < 2 ^ 24) :
    1 ≤ syncNeeded ch := by
  unfold syncNeeded
  split_ifs with h1
  · rw [toInt32_of_lt]
    · exact Int.le_add_of_nonneg_left (Int.ofNat_nonneg _)
    · apply Nat.lt_of_le_of_lt (Nat.div_le_self _ _)
      omega
  · rw [toInt32_of_lt]
    · exact Int.le_add_of_nonneg_left (Int.ofNat_nonneg _)
    · apply Nat.lt_of_le_of_lt (Nat.div_le_self _ _)
      omega

theorem slowStepNow_pos (ch : sidChannel_t) (tw : Nat) (left : Int)
    (h : ch.accumulator < 2 ^ 24) (hl : 0 < left) : 1 ≤ slowStepNow ch tw left := by
  have h1 := noiseNeeded_pos ch
  have h2 := syncNeeded_pos ch h
  simp only [slowStepNow]
  split_ifs <;> omega

theorem slowStepNow_le (ch : sidChannel_t) (tw : Nat) (left : Int) :
    slowStepNow ch tw left ≤ left := by
  simp only [slowStepNow]
  split_ifs <;> omega

theorem slowLoop_total : ∀ (fuel : Nat) (ch : sidChannel_t) (tw : Nat) (left : Int),
    ch.accumulator < 2 ^ 24 → left ≤ fuel → ∃ r, slowLoop fuel ch tw left = some r := by
  intro fuel
  induction fuel with
  | zero =>
    intro ch tw left _ hl
    refine ⟨ch, ?_⟩
    unfold slowLoop
    rw [if_neg]
    simpa using hl
  | succ n ih =>
    intro ch tw left h hl
    unfold slowLoop
    split
    · rename_i hpos
      apply ih
      · exact slowAdvance_acc_lt ch _
      · have := slowStepNow_pos ch tw left h hpos
        simp only [slowIter]
        push_cast at hl
        omega
    · exact ⟨ch, rfl⟩

theorem regPart_of_oscPart {a b : sidChannel_t} (h : oscPart a = oscPart b) :
    regPart a = regPart b := by
  simp only [oscPart, Prod.mk.injEq] at h
  simp only [regPart, Prod.mk.injEq]
  tauto

theorem regPart_of_envPart {a b : sidChannel_t} (h : envPart a = envPart b) :
    regPart a = regPart b := by
  simp only [envPart, Prod.mk.injEq] at h
  simp only [regPart, Prod.mk.injEq]
  tauto

theorem oscPart_gateUpdate (ch : sidChannel_t) : oscPart (gateUpdate ch) = oscPart ch := by
  unfold gateUpdate
  split_ifs <;> rfl

theorem adsrCounter_gateUpdate (ch : sidChannel_t) :
    (gateUpdate ch).adsrCounter = ch.adsrCounter := by
  unfold gateUpdate
  split_ifs <;> rfl

theorem clockAccumulator_envPart (ch : sidChannel_t) (tw : Option Nat) (c : Int)
    (r : sidChannel_t) (h : clockAccumulator ch tw c = some r) : envPart r = envPart ch := by
  unfold clockAccumulator at h
  split_ifs at h with h1 h2
  · cases h; rfl
  · cases h; rfl
  · cases tw with
    | none => cases h
    | some w =>
      simp only [] at h
      split_ifs at h
      · cases h; rfl
      · exact envPart_slowLoop _ _ _ _ _ h

theorem clockAccumulator_acc_lt (ch : sidChannel_t) (tw : Option Nat) (c : Int)
    (r : sidChannel_t) (h : clockAccumulator ch tw c = some r)
    (hacc : ch.accumulator < 2 ^ 24) : r.accumulator < 2 ^ 24 := by
  unfold clockAccumulator at h
  split_ifs at h with h1 h2
  · cases h; norm_num
  · cases h; exact hacc
  · cases tw with
    | none => cases h
    | some w =>
      simp only [] at h
      split_ifs at h
      · cases h; exact and_mask24_lt _
      · exact slowLoop_acc_lt _ _ _ _ _ h hacc

theorem clockAccumulator_total (ch : sidChannel_t) (w : Nat) (c : Int)
    (hacc : ch.accumulator < 2 ^ 24) : ∃ r, clockAccumulator ch (some w) c = some r := by
  unfold clockAccumulator
  split_ifs
  · exact ⟨_, rfl⟩
  · exact ⟨_, rfl⟩
  · simp only []
    split_ifs
    · exact ⟨_, rfl⟩
    · exact slowLoop_total _ _ _ _ hacc (Int.self_le_toNat c)

theorem channel_setChannel_same (sid : sid_t) (i : Fin 3) (ch : sidChannel_t) :
    (sid.setChannel i ch).channel i = ch := by
  fin_cases i <;> rfl

theorem channel_setChannel_ne (sid : sid_t) (i j : Fin 3) (ch : sidChannel_t) (h : i ≠ j) :
    (sid.setChannel i ch).channel j = sid.channel j := by
  fin_cases i <;> fin_cases j <;> first | rfl | exact absurd rfl h

theorem pacePart_setChannel (sid : sid_t) (i : Fin 3) (ch : sidChannel_t) :
    pacePart (sid.setChannel i ch) = pacePart sid := by
  fin_cases i <;> rfl

theorem applySync_cases (sid : sid_t) (i : Fin 3) (a : sid_t) (h : applySync sid i = some a) :
    a = sid ∨ ∃ j, a = sid.setChannel j { sid.channel j with accumulator := 0 } := by
  unfold applySync at h
  split_ifs at h with h1
  · split at h
    · cases h
    · split_ifs at h
      · cases h; exact Or.inr ⟨_, rfl⟩
      · cases h; exact Or.inl rfl
  · cases h; exact Or.inl rfl

theorem setChannel_inv (Q : Fin 3 → sidChannel_t → Prop)
    (sid : sid_t) (i : Fin 3) (ch : sidChannel_t)
    (hall : ∀ j, Q j (sid.channel j)) (hch : Q i ch) :
    ∀ j, Q j ((sid.setChannel i ch).channel j) := by
  intro j
  by_cases hij : i = j
  · subst hij; rw [channel_setChannel_same]; exact hch
  · rw [channel_setChannel_ne _ _ _ _ hij]; exact hall j

theorem applySync_inv (Q : Fin 3 → sidChannel_t → Prop)
    (hreset : ∀ i ch, Q i ch → Q i { ch with accumulator := 0 })
    (sid : sid_t) (i : Fin 3) (a : sid_t) (h : applySync sid i = some a)
    (hall : ∀ j, Q j (sid.channel j)) : ∀ j, Q j (a.channel j) := by
  rcases applySync_cases sid i a h with rfl | ⟨j, rfl⟩
  · exact hall
  · exact setChannel_inv Q sid j _ hall (hreset j _ (hall j))

theorem pacePart_applySync (sid : sid_t) (i : Fin 3) (a : sid_t)
    (h : applySync sid i = some a) : pacePart a = pacePart sid := by
  rcases applySync_cases sid i a h with rfl | ⟨j, rfl⟩
  · rfl
  · exact pacePart_setChannel _ _ _

theorem ringOK_reset (i : Fin 3) (ch : sidChannel_t) (hq : ringOK i ch) :
    ringOK i { ch with accumulator := 0 } :=
  ⟨by norm_num, hq.2.1, hq.2.2.1, hq.2.2.2⟩

theorem applySync_total (sid : sid_t) (i : Fin 3) (h : sidOK sid) :
    ∃ a, applySync sid i = some a := by
  unfold applySync
  rw [(h i).2.2.1]
  simp only []
  split_ifs <;> exact ⟨_, rfl⟩

theorem sidOK_applySync (sid : sid_t) (i : Fin 3) (a : sid_t)
    (h : applySync sid i = some a) (hok : sidOK sid) : sidOK a :=
  applySync_inv ringOK ringOK_reset sid i a h hok

theorem triangleSidChannel_total (ch : sidChannel_t) (a : Nat) :
    ∃ t, triangleSidChannel ch (some a) = some t := by
  unfold triangleSidChannel
  split_ifs <;> exact ⟨_, rfl⟩

theorem waveOutSidChannel_total (ch : sidChannel_t) (a : Nat) :
    ∃ w, waveOutSidChannel ch (some a) = some w := by
  obtain ⟨t, ht⟩ := triangleSidChannel_total ch a
  unfold waveOutSidChannel
  simp only [ht]
  split_ifs <;> exact ⟨_, rfl⟩

theorem getOutputSidChannel_total (ch : sidChannel_t) (a : Nat) :
    ∃ v, getOutputSidChannel ch (some a) = some v := by
  obtain ⟨w, hw⟩ := waveOutSidChannel_total ch a
  unfold getOutputSidChannel
  simp only [hw]
  split_ifs <;> exact ⟨_, rfl⟩

theorem sourceAccumulator_of_sidOK (sid : sid_t) (i : Fin 3) (h : sidOK sid) :
    ∃ a, sourceAccumulator sid (sid.channel i) = some a := by
  unfold sourceAccumulator
  rw [(h i).2.2.2]
  exact ⟨_, rfl⟩

theorem mixSample_total (sid : sid_t) (p : mixParams) (h : sidOK sid) :
    ∃ r, mixSample sid p = some r := by
  obtain ⟨a0, h0⟩ : ∃ a, sourceAccumulator sid sid.ch0 = some a :=
    sourceAccumulator_of_sidOK sid 0 h
  obtain ⟨a1, h1⟩ : ∃ a, sourceAccumulator sid sid.ch1 = some a :=
    sourceAccumulator_of_sidOK sid 1 h
  obtain ⟨a2, h2⟩ : ∃ a, sourceAccumulator sid sid.ch2 = some a :=
    sourceAccumulator_of_sidOK sid 2 h
  obtain ⟨c0, hc0⟩ := getOutputSidChannel_total sid.ch0 a0
  obtain ⟨c1, hc1⟩ := getOutputSidChannel_total sid.ch1 a1
  obtain ⟨c2, hc2⟩ := getOutputSidChannel_total sid.ch2 a2
  unfold mixSample
  rw [h0, h1, h2, hc0, hc1, hc2]
  exact ⟨_, rfl⟩

theorem outerStep_nonneg (sid : sid_t) (c : Int) (hc : 0 < c) : 0 ≤ outerStep sid c := by
  unfold outerStep
  simp only []
  split_ifs with h1 h2 h3
  · omega
  · simp
  · omega
  · exact Int.ceil_nonneg (le_of_not_lt h1)

theorem outerStep_le (sid : sid_t) (c : Int) : outerStep sid c ≤ c := by
  unfold outerStep
  simp only []
  split_ifs <;> omega

theorem outerStep_pos (sid : sid_t) (c : Int) (hc : 0 < c)
    (h : sid.cycleAccumulator < sid.cyclesPerSample) : 1 ≤ outerStep sid c := by
  have hpos : 0 < sid.cyclesPerSample - sid.cycleAccumulator := by linarith
  have hceil : 0 < ⌈sid.cyclesPerSample - sid.cycleAccumulator⌉ := Int.ceil_pos.mpr hpos
  unfold outerStep
  simp only [if_neg (not_lt_of_gt hpos)]
  split_ifs <;> omega

theorem outerStep_add_lt (sid : sid_t) (c : Int)
    (h : sid.cycleAccumulator < sid.cyclesPerSample) :
    sid.cycleAccumulator + (outerStep sid c : ℚ) < sid.cyclesPerSample + 1 := by
  have hpos : 0 < sid.cyclesPerSample - sid.cycleAccumulator := by linarith
  have hlt := Int.ceil_lt_add_one (sid.cyclesPerSample - sid.cycleAccumulator)
  have hle : (outerStep sid c : ℚ) ≤ (⌈sid.cyclesPerSample - sid.cycleAccumulator⌉ : ℚ) := by
    unfold outerStep
    simp only [if_neg (not_lt_of_gt hpos)]
    split_ifs with h1
    · exact_mod_cast le_of_lt h1
    · exact le_refl _
  linarith

theorem outerStep_lt_of_lt_ceil (sid : sid_t) (c : Int)
    (h : sid.cycleAccumulator < sid.cyclesPerSample)
    (hc : c < ⌈sid.cyclesPerSample - sid.cycleAccumulator⌉) :
    sid.cycleAccumulator + (outerStep sid c : ℚ) < sid.cyclesPerSample := by
  have hpos : 0 < sid.cyclesPerSample - sid.cycleAccumulator := by linarith
  have hstep : outerStep sid c = c := by
    unfold outerStep
    simp only [if_neg (not_lt_of_gt hpos), if_pos hc]
  rw [hstep]
  have := Int.lt_ceil.mp hc
  linarith

theorem outerStep_ge_of_ceil_le (sid : sid_t) (c : Int)
    (h : sid.cycleAccumulator < sid.cyclesPerSample)
    (hc : ⌈sid.cyclesPerSample - sid.cycleAccumulator⌉ ≤ c) :
    sid.cyclesPerSample ≤ sid.cycleAccumulator + (outerStep sid c : ℚ) := by
  have hpos : 0 < sid.cyclesPerSample - sid.cycleAccumulator := by linarith
  have hstep : outerStep sid c = ⌈sid.cyclesPerSample - sid.cycleAccumulator⌉ := by
    unfold outerStep
    simp only [if_neg (not_lt_of_gt hpos), if_neg (not_lt_of_ge hc)]
  rw [hstep]
  have := Int.le_ceil (sid.cyclesPerSample - sid.cycleAccumulator)
  linarith

theorem outerStep_zero_emit (sid : sid_t) (c : Int) (hc : 0 < c)
    (h : outerStep sid c = 0) : sid.cyclesPerSample ≤ sid.cycleAccumulator := by
  by_contra hlt
  have := outerStep_pos sid c hc (lt_of_not_ge hlt)
  omega

theorem sidOK_applyRegs (sid : sid_t) (regs : sidRegs_t) (h : sidOK sid) :
    sidOK (applyRegs sid regs) := by
  intro i
  have := h i
  fin_cases i <;> exact this

theorem sidOK_sidInit (sid : sid_t) : sidOK (sidInit sid) := by
  intro i
  fin_cases i <;> exact ⟨by norm_num [sidInit, sid_t.channel, sidChannelInit],
    by norm_num [sidInit, sid_t.channel, sidChannelInit], rfl, rfl⟩

theorem indicesUpTo_succ (n : Int) (h : 0 ≤ n) : indicesUpTo (n + 1) = indicesUpTo n ++ [n] := by
  unfold indicesUpTo
  have h1 : (n + 1).toNat = n.toNat + 1 := by omega
  rw [h1, List.range_succ, List.map_append]
  simp only [List.map_cons, List.map_nil, Int.ofNat_eq_coe, Int.toNat_of_nonneg h]

theorem cyclesPerSample_sidInit (sid : sid_t) : (sidInit sid).cyclesPerSample = 156 / 7 := by
  simp only [sidInit]
  norm_num

theorem silentOK_reset (i : Fin 3) (ch : sidChannel_t) (hq : silentOK i ch) :
    silentOK i { ch with accumulator := 0 } := hq

theorem mixSample_silent (sid : sid_t) (p : mixParams)
    (h : ∀ i, silentOK i (sid.channel i)) (hf : sid.filter = { low := 0, band := 0 }) :
    mixSample sid p = some ({ low := 0, band := 0 }, 0) := by
  have v0 : sid.ch0.volumeLevel = 0 := (h 0).2.2
  have v1 : sid.ch1.volumeLevel = 0 := (h 1).2.2
  have v2 : sid.ch2.volumeLevel = 0 := (h 2).2.2
  unfold mixSample getOutputSidChannel
  simp only [v0, v1, v2, if_true, hf]
  norm_num [sidFilterStep, saturate, truncToInt]

theorem silentOK_init_zeroRegs (sid : sid_t) (i : Fin 3) :
    silentOK i ((applyRegs (sidInit sid) zeroRegs).channel i) := by
  fin_cases i <;> exact ⟨rfl, rfl, rfl⟩

theorem pacePart_applyRegs (sid : sid_t) (regs : sidRegs_t) :
    pacePart (applyRegs sid regs) = pacePart sid := rfl

theorem ringOK_applyRegs (sid : sid_t) (regs : sidRegs_t) (h : ∀ i, ringOK i (sid.channel i)) :
    ∀ i, ringOK i ((applyRegs sid regs).channel i) :=
  sidOK_applyRegs sid regs h

theorem lfsrStep_lt (l : Nat) : lfsrStep l < 2 ^ 23 := by
  simp only [lfsrStep]
  exact Nat.lt_of_le_of_lt Nat.and_le_right (by norm_num)

theorem lfsrStep_pos (l : Nat) (h0 : 0 < l) (h1 : l < 2 ^ 23) : 0 < lfsrStep l := by
  have mask : ∀ y : Nat, y &&& 0x7fffff = y % 2 ^ 23 := fun y =>
    Nat.and_pow_two_sub_one_eq_mod y 23
  by_cases hl : l = 2 ^ 22
  · subst hl; decide
  · simp only [lfsrStep, mask, Nat.shiftLeft_eq]
    split_ifs with hstep
    · have hodd : ((l * 2 ^ 1 % 2 ^ 32 ||| 1) % 2 ^ 23) % 2 = 1 := by
        rw [Nat.mod_mod_of_dvd _ (by norm_num : 2 ∣ 2 ^ 23)]
        exact Nat.or_mod_two_eq_one.mpr (Or.inr rfl)
      omega
    · omega

theorem slowAdvance_lfsr_cases (ch : sidChannel_t) (n : Int) :
    (slowAdvance ch n).noiseGenerator = ch.noiseGenerator ∨
      (slowAdvance ch n).noiseGenerator = lfsrStep ch.noiseGenerator := by
  simp only [slowAdvance]
  split_ifs <;> first | exact Or.inl rfl | exact Or.inr rfl

theorem lfsrOK_slowIter (ch : sidChannel_t) (tw : Nat) (left : Int)
    (h : 0 < ch.noiseGenerator ∧ ch.noiseGenerator < 2 ^ 23) :
    0 < (slowIter ch tw left).1.noiseGenerator ∧
      (slowIter ch tw left).1.noiseGenerator < 2 ^ 23 := by
  rcases slowAdvance_lfsr_cases ch (slowStepNow ch tw left) with hk | hk
  · simp only [slowIter, hk]; exact h
  · simp only [slowIter, hk]; exact ⟨lfsrStep_pos _ h.1 h.2, lfsrStep_lt _⟩

theorem clockAccumulator_lfsr (ch : sidChannel_t) (tw : Option Nat) (c : Int)
    (r : sidChannel_t) (h : clockAccumulator ch tw c = some r)
    (hl : 0 < ch.noiseGenerator ∧ ch.noiseGenerator < 2 ^ 23) :
    0 < r.noiseGenerator ∧ r.noiseGenerator < 2 ^ 23 := by
  unfold clockAccumulator at h
  split_ifs at h with h1 h2
  · cases h; exact hl
  · cases h; exact hl
  · cases tw with
    | none => cases h
    | some w =>
      simp only [] at h
      split_ifs at h
      · cases h; exact hl
      · exact slowLoop_inv (fun x => 0 < x.noiseGenerator ∧ x.noiseGenerator < 2 ^ 23)
          (fun x tw left hx => lfsrOK_slowIter x tw left hx) _ _ _ _ _ h hl

theorem lfsrOK_reset (i : Fin 3) (ch : sidChannel_t) (hq : lfsrOK i ch) :
    lfsrOK i { ch with accumulator := 0 } := hq

theorem lfsrOK_applyRegs (sid : sid_t) (regs : sidRegs_t) (h : ∀ i, lfsrOK i (sid.channel i)) :
    ∀ i, lfsrOK i ((applyRegs sid regs).channel i) := by
  intro i
  have := h i
  fin_cases i <;> exact this

theorem lfsrOK_sidInit (sid : sid_t) : ∀ i, lfsrOK i ((sidInit sid).channel i) := by
  intro i
  fin_cases i <;> exact ⟨by norm_num [sidInit, sid_t.channel, sidChannelInit],
    by norm_num [sidInit, sid_t.channel, sidChannelInit]⟩

theorem noiseSidChannel_eq (ch : sidChannel_t) :
    noiseSidChannel ch = 2 ^ 8 * noiseBits ch.noiseGenerator := by
  have e20 : (0x100000 : Nat) = 2 ^ 20 := by norm_num
  have e18 : (0x40000 : Nat) = 2 ^ 18 := by norm_num
  have e14 : (0x4000 : Nat) = 2 ^ 14 := by norm_num
  have e11 : (0x800 : Nat) = 2 ^ 11 := by norm_num
  have e9 : (0x200 : Nat) = 2 ^ 9 := by norm_num
  have e5 : (0x20 : Nat) = 2 ^ 5 := by norm_num
  have e2 : (0x04 : Nat) = 2 ^ 2 := by norm_num
  have e0 : (0x01 : Nat) = 2 ^ 0 := by norm_num
  simp only [noiseSidChannel, noiseBits]
  rw [e20, e18, e14, e11, e9, e5, e2, e0]
  simp only [Nat.and_two_pow]
  generalize ch.noiseGenerator.testBit 20 = b20
  generalize ch.noiseGenerator.testBit 18 = b18
  generalize ch.noiseGenerator.testBit 14 = b14
  generalize ch.noiseGenerator.testBit 11 = b11
  generalize ch.noiseGenerator.testBit 9 = b9
  generalize ch.noiseGenerator.testBit 5 = b5
  generalize ch.noiseGenerator.testBit 2 = b2
  generalize ch.noiseGenerator.testBit 0 = b0
  revert b20 b18 b14 b11 b9 b5 b2 b0
  decide

theorem noiseBits_lt (l : Nat) : noiseBits l < 256 := by
  unfold noiseBits
  have h20 := Bool.toNat_le (l.testBit 20)
  have h18 := Bool.toNat_le (l.testBit 18)
  have h14 := Bool.toNat_le (l.testBit 14)
  have h11 := Bool.toNat_le (l.testBit 11)
  have h9 := Bool.toNat_le (l.testBit 9)
  have h5 := Bool.toNat_le (l.testBit 5)
  have h2 := Bool.toNat_le (l.testBit 2)
  have h0 := Bool.toNat_le (l.testBit 0)
  omega

theorem noiseSidChannel_le (ch : sidChannel_t) : noiseSidChannel ch ≤ 0xff00 := by
  rw [noiseSidChannel_eq]
  have := noiseBits_lt ch.noiseGenerator
  omega

theorem triangleSidChannel_le (ch : sidChannel_t) (src : Option Nat) (t : Nat)
    (h : triangleSidChannel ch src = some t) : t ≤ 0xffff := by
  unfold triangleSidChannel at h
  simp only [] at h
  split_ifs at h
  · cases src with
    | none => cases h
    | some a =>
      simp only [Option.some.injEq] at h
      rw [← h]; exact Nat.and_le_right
  · simp only [Option.some.injEq] at h
    rw [← h]; exact Nat.and_le_right
  · simp only [Option.some.injEq] at h
    rw [← h]; exact Nat.and_le_right

set_option linter.unreachableTactic false in
set_option linter.unusedTactic false in
theorem waveOutSidChannel_le (ch : sidChannel_t) (src : Option Nat) (w : Nat)
    (hacc : ch.accumulator < 2 ^ 24) (h : waveOutSidChannel ch src = some w) : w ≤ 0xffff := by
  have hsaw : ch.accumulator >>> 8 ≤ 0xffff := by
    rw [Nat.shiftRight_eq_div_pow]; omega
  have hclamp : ∀ x : Nat, (if x > 0xffff then 0xffff else x) ≤ 0xffff := fun x => by
    split_ifs <;> omega
  unfold waveOutSidChannel at h
  simp only [] at h
  split_ifs at h
  all_goals first
    | exact triangleSidChannel_le ch src w h
    | (cases htri : triangleSidChannel ch src with
       | none => rw [htri] at h; cases h
       | some tri => rw [htri] at h; cases h; exact hclamp _)
    | (cases h
       first
         | exact hsaw
         | exact hclamp _
         | exact (noiseSidChannel_le ch).trans (by norm_num)
         | omega
         | norm_num)

theorem centered_range (w : Nat) (h : w ≤ 0xffff) :
    -32768 ≤ centered w ∧ centered w ≤ 32767 := by
  unfold centered
  rw [toInt32_of_lt w (by omega)]
  omega

theorem getOutputSidChannel_zero (ch : sidChannel_t) (src : Option Nat)
    (h : ch.volumeLevel = 0) : getOutputSidChannel ch src = some 0 := by
  unfold getOutputSidChannel
  rw [if_pos h]

theorem scaled_range (c : Int) (v : Nat) (hc0 : -32768 ≤ c) (hc1 : c ≤ 32767) (hv : v ≤ 255) :
    -1 ≤ ((c : ℚ) * ((v : ℚ) / 255)) / 32768 ∧ ((c : ℚ) * ((v : ℚ) / 255)) / 32768 ≤ 1 := by
  have h0 : (-32768 : ℚ) ≤ c := by exact_mod_cast hc0
  have h1 : (c : ℚ) ≤ 32767 := by exact_mod_cast hc1
  have h2 : (0 : ℚ) ≤ v := by exact_mod_cast Nat.zero_le v
  have h3 : (v : ℚ) ≤ 255 := by exact_mod_cast hv
  constructor
  · rw [le_div_iff₀ (by norm_num : (0 : ℚ) < 32768)]
    have : (c : ℚ) * ((v : ℚ) / 255) = (c : ℚ) * v / 255 := by ring
    rw [this, le_div_iff₀ (by norm_num : (0 : ℚ) < 255)]
    nlinarith
  · rw [div_le_iff₀ (by norm_num : (0 : ℚ) < 32768)]
    have : (c : ℚ) * ((v : ℚ) / 255) = (c : ℚ) * v / 255 := by ring
    rw [this, div_le_iff₀ (by norm_num : (0 : ℚ) < 255)]
    nlinarith

theorem toUInt32_of_nonneg (c : Int) (h0 : 0 ≤ c) (h1 : c < 2 ^ 32) : toUInt32 c = c.toNat := by
  unfold toUInt32
  rw [Int.emod_eq_of_lt h0 h1]

theorem fastPath_acc (a f : Nat) (c : Int) (h0 : 0 ≤ c) (h1 : c < 2 ^ 32) :
    (((a + (f * toUInt32 c) % 2 ^ 32) % 2 ^ 32 &&& 0xffffff : Nat) : Int) =
      ((a : Int) + f * c) % 2 ^ 24 := by
  rw [toUInt32_of_nonneg c h0 h1]
  have hmask : ∀ y : Nat, y &&& 0xffffff = y % 2 ^ 24 := fun y =>
    Nat.and_pow_two_sub_one_eq_mod y 24
  rw [hmask]
  have hc : ((c.toNat : Nat) : Int) = c := Int.toNat_of_nonneg h0
  have key : (a + f * c.toNat % 2 ^ 32) % 2 ^ 32 % 2 ^ 24 = (a + f * c.toNat) % 2 ^ 24 := by
    generalize f * c.toNat = p
    omega
  rw [key]
  push_cast
  rw [hc]

theorem clockAccumulator_fast (ch : sidChannel_t) (w : Nat) (c : Int)
    (htest : ch.waveform &&& 0x08 = 0) (hfreq : ch.frequency ≠ 0)
    (hnoise : ch.waveform &&& 0x80 = 0) (hsync : w &&& 0x02 = 0) :
    clockAccumulator ch (some w) c =
      some { ch with accumulator :=
        ((ch.accumulator + (ch.frequency * toUInt32 c) % 2 ^ 32) % 2 ^ 32) &&& 0xffffff } := by
  unfold clockAccumulator
  rw [if_neg (by simpa using htest), if_neg hfreq]
  simp only []
  rw [if_pos ⟨hnoise, hsync⟩]

theorem gateUpdate_of_clear (ch : sidChannel_t) (h : ch.waveform &&& 0x01 = 0) :
    gateUpdate ch = { ch with state := RELEASE } := by
  unfold gateUpdate
  rw [if_neg (not_not.mpr h)]

theorem gateUpdate_of_set_release (ch : sidChannel_t) (h : ch.waveform &&& 0x01 ≠ 0)
    (hs : ch.state = RELEASE) : gateUpdate ch = { ch with state := ATTACK } := by
  unfold gateUpdate
  rw [if_pos h, if_pos hs]

theorem gateUpdate_of_set (ch : sidChannel_t) (h : ch.waveform &&& 0x01 ≠ 0)
    (hs : ch.state ≠ RELEASE) : gateUpdate ch = ch := by
  unfold gateUpdate
  rw [if_pos h, if_neg hs]

theorem gateUpdate_state_of_set (ch : sidChannel_t) (h : ch.waveform &&& 0x01 ≠ 0) :
    (gateUpdate ch).state ≠ RELEASE := by
  by_cases hs : ch.state = RELEASE
  · rw [gateUpdate_of_set_release ch h hs]; exact fun hh => by cases hh
  · rw [gateUpdate_of_set ch h hs]; exact hs

theorem applyRegs_waveform (sid : sid_t) (regs : sidRegs_t) (i : Fin 3) :
    ((applyRegs sid regs).channel i).waveform = (regs.waveform i % 2 ^ 8).toNat := by
  fin_cases i <;> rfl

theorem gateUpdate_frequency (ch : sidChannel_t) (f : Nat) :
    gateUpdate { ch with frequency := f } = { gateUpdate ch with frequency := f } := by
  unfold gateUpdate
  split_ifs <;> rfl

theorem adsrRate_attack_zero (x : sidChannel_t) (hs : x.state = ATTACK)
    (had : x.ad >>> 4 = 0) : adsrRate x = 9 := by
  unfold adsrRate
  rw [hs, had]
  rfl

theorem attackOK_of_envPart (m : Int) (a b : sidChannel_t) (h : envPart a = envPart b)
    (hb : attackOK m b) : attackOK m a := by
  simp only [envPart, Prod.mk.injEq] at h
  obtain ⟨_, h2, _, _, h5, h6, h7, _, h9, _⟩ := h
  unfold attackOK at hb ⊢
  rw [h2, h5, h6, h7, h9]
  exact hb

theorem attackOK_gateUpdate (m : Int) (x : sidChannel_t) (h : attackOK m x) :
    attackOK m (gateUpdate x) := by
  have hs : x.state ≠ RELEASE := by
    rcases h.2.2.2.2 with ⟨_, hs⟩ | ⟨_, hs⟩ <;> rw [hs] <;> exact fun hh => by cases hh
  rw [gateUpdate_of_set x h.1 hs]
  exact h

theorem combine_eq_comboRef (p b : Nat) (hp : p ≤ 0xffff) (hb : b ≤ 0xffff) :
    (if (((p &&& b &&& (b >>> 1)) &&& ((b <<< 1) % 2 ^ 32)) <<< 1) % 2 ^ 32 > 0xffff then 0xffff
      else (((p &&& b &&& (b >>> 1)) &&& ((b <<< 1) % 2 ^ 32)) <<< 1) % 2 ^ 32) = comboRef p b := by
  have h1 : (b <<< 1) % 2 ^ 32 = b <<< 1 := by
    apply Nat.mod_eq_of_lt
    rw [Nat.shiftLeft_eq]
    omega
  rw [h1]
  unfold comboRef
  have h2 : (p &&& b &&& (b >>> 1)) &&& (b <<< 1) ≤ 0xffff :=
    le_trans Nat.and_le_left (le_trans Nat.and_le_left (le_trans Nat.and_le_left hp))
  generalize (p &&& b &&& (b >>> 1)) &&& (b <<< 1) = combo at h2 ⊢
  rw [Nat.shiftLeft_eq, Nat.min_def]
  split_ifs <;> omega

theorem comboRef_le (p b : Nat) : comboRef p b ≤ 0xffff := Nat.min_le_right _ _

theorem comboRef_zero (b : Nat) : comboRef 0 b = 0 := by
  unfold comboRef
  simp

theorem pulseRef_le (ch : sidChannel_t) : pulseRef ch ≤ 0xffff := by
  unfold pulseRef
  split_ifs <;> omega

theorem and_two_pow_ne_zero (y k : Nat) : y &&& 2 ^ k ≠ 0 ↔ y / 2 ^ k % 2 = 1 := by
  rw [Nat.and_two_pow]
  have hpos : 0 < 2 ^ k := Nat.two_pow_pos k
  cases h : y.testBit k
  · rw [Nat.testBit_to_div_mod] at h
    simp only [decide_eq_false_iff_not] at h
    simp [h]
  · rw [Nat.testBit_to_div_mod] at h
    simp only [decide_eq_true_eq] at h
    simp only [Bool.toNat_true, one_mul, ne_eq, h, iff_true]
    omega

theorem lfsrStep_feedback (l : Nat) :
    ((l &&& 0x400000) ^^^ (((l &&& 0x20000) <<< 5) % 2 ^ 32) ≠ 0) ↔
      l.testBit 22 ≠ l.testBit 17 := by
  have e22 : (0x400000 : Nat) = 2 ^ 22 := by norm_num
  have e17 : (0x20000 : Nat) = 2 ^ 17 := by norm_num
  rw [e22, e17]
  simp only [Nat.and_two_pow]
  generalize l.testBit 22 = a
  generalize l.testBit 17 = b
  revert a b
  decide

theorem mask23_or (x fb : Nat) :
    ((x % 2 ^ 32) ||| fb) &&& 0x7fffff = (x ||| fb) &&& 0x7fffff := by
  have e : (0x7fffff : Nat) = 2 ^ 23 - 1 := by norm_num
  rw [e]
  apply Nat.eq_of_testBit_eq
  intro i
  simp only [Nat.testBit_and, Nat.testBit_or, Nat.testBit_mod_two_pow,
    Nat.testBit_two_pow_sub_one]
  by_cases hi : i < 23
  · have : i < 32 := by omega
    simp [hi, this]
  · simp [hi]

theorem lfsrStep_eq_lfsrRef (l : Nat) : lfsrStep l = lfsrRef l := by
  unfold lfsrStep lfsrRef
  simp only []
  by_cases h : l.testBit 22 ≠ l.testBit 17
  · rw [if_pos ((lfsrStep_feedback l).mpr h), if_pos h]
    exact mask23_or _ 1
  · rw [if_neg (fun hh => h ((lfsrStep_feedback l).mp hh)), if_neg h]
    have := mask23_or (l <<< 1) 0
    simpa using this

theorem slowLoop_nonpos (fuel : Nat) (ch : sidChannel_t) (tw : Nat) (left : Int)
    (h : left ≤ 0) : slowLoop fuel ch tw left = some ch := by
  cases fuel <;> (unfold slowLoop; rw [if_neg (by omega)])

theorem slowLoop_step (fuel : Nat) (ch : sidChannel_t) (tw : Nat) (left : Int)
    (h : 0 < left) :
    slowLoop (fuel + 1) ch tw left =
      slowLoop fuel (slowAdvance ch (slowStepNow ch tw left)) tw
        (left - slowStepNow ch tw left) := by
  rw [slowLoop, if_pos h]
  rfl

theorem slowLoop_single (fuel : Nat) (ch : sidChannel_t) (tw : Nat) (left : Int)
    (h : 0 < left) (hs : slowStepNow ch tw left = left) :
    slowLoop (fuel + 1) ch tw left = some (slowAdvance ch left) := by
  rw [slowLoop_step fuel ch tw left h, hs]
  exact slowLoop_nonpos _ _ _ _ (by omega)

theorem noiseNeeded_at (x : sidChannel_t) (k : Nat) (hf : x.frequency = 0x1000)
    (ha : x.accumulator = 0x1000 * k) (hk : k < 256) :
    noiseNeeded x = if k < 128 then 129 - (k : Int) else 385 - (k : Int) := by
  have hmask : x.accumulator &&& 0xfffff = 0x1000 * k := by
    rw [show (0xfffff : Nat) = 2 ^ 20 - 1 by norm_num, Nat.and_pow_two_sub_one_eq_mod, ha]
    omega
  unfold noiseNeeded
  simp only [hmask, hf]
  by_cases h : k < 128
  · rw [if_pos (by omega), if_pos h, toInt32_of_lt _ (by omega)]
    omega
  · rw [if_neg (by omega), if_neg h, toInt32_of_lt _ (by omega)]
    omega

theorem syncNeeded_at (x : sidChannel_t) (k : Nat) (hf : x.frequency = 0x1000)
    (ha : x.accumulator = 0x1000 * k) (hk : k < 2048) :
    syncNeeded x = 2049 - (k : Int) := by
  unfold syncNeeded
  simp only [ha, hf]
  rw [if_pos (by omega), toInt32_of_lt _ (by omega)]
  omega

theorem slowStepNow_at (x : sidChannel_t) (w k : Nat) (left : Int)
    (hf : x.frequency = 0x1000) (ha : x.accumulator = 0x1000 * k) (hk : k < 256)
    (hn : x.waveform &&& 0x80 ≠ 0) :
    slowStepNow x w left =
      if (if k < 128 then 129 - (k : Int) else 385 - (k : Int)) < left then
        (if k < 128 then 129 - (k : Int) else 385 - (k : Int))
      else left := by
  have h1 := noiseNeeded_at x k hf ha hk
  have h2 := syncNeeded_at x k hf ha (by omega)
  simp only [slowStepNow, h1, h2, if_pos hn]
  split_ifs <;> omega

theorem slowAdvance_at (x : sidChannel_t) (k n : Nat) (hf : x.frequency = 0x1000)
    (ha : x.accumulator = 0x1000 * k) (hkn : k + n < 4096) (hn : x.waveform &&& 0x80 ≠ 0) :
    (slowAdvance x (n : Int)).accumulator = 0x1000 * (k + n) ∧
    (slowAdvance x (n : Int)).noiseGenerator =
      (if k / 128 % 2 = 0 ∧ (k + n) / 128 % 2 = 1 then lfsrStep x.noiseGenerator
        else x.noiseGenerator) ∧
    (slowAdvance x (n : Int)).frequency = 0x1000 ∧
    (slowAdvance x (n : Int)).waveform = x.waveform := by
  have hu : toUInt32 (n : Int) = n := by
    rw [toUInt32_of_nonneg _ (by omega) (by omega)]
    exact Int.toNat_natCast n
  have hacc : ((x.accumulator + (x.frequency * toUInt32 (n : Int)) % 2 ^ 32) % 2 ^ 32)
      &&& 0xffffff = 0x1000 * (k + n) := by
    rw [show (0xffffff : Nat) = 2 ^ 24 - 1 by norm_num, Nat.and_pow_two_sub_one_eq_mod, hu, ha, hf]
    omega
  have e19 : (0x80000 : Nat) = 2 ^ 19 := by norm_num
  have hlow : (x.accumulator &&& 0x80000 = 0) ↔ k / 128 % 2 = 0 := by
    have := and_two_pow_ne_zero x.accumulator 19
    rw [ha] at this ⊢
    rw [e19]
    constructor
    · intro h
      by_contra hc
      exact (this.mpr (by omega)) h
    · intro h
      by_contra hc
      have := this.mp hc
      omega
  have hhigh : ((0x1000 * (k + n)) &&& 0x80000 ≠ 0) ↔ (k + n) / 128 % 2 = 1 := by
    rw [e19, and_two_pow_ne_zero]
    omega
  refine ⟨hacc, ?_, hf, rfl⟩
  show (if x.waveform &&& 0x80 ≠ 0 then
      (if (decide (x.accumulator &&& 0x80000 = 0) &&
          decide (((x.accumulator + (x.frequency * toUInt32 (n : Int)) % 2 ^ 32) % 2 ^ 32)
            &&& 0xffffff &&& 0x80000 ≠ 0)) = true
        then lfsrStep x.noiseGenerator else x.noiseGenerator)
      else x.noiseGenerator) = _
  rw [if_pos hn, hacc]
  simp only [Bool.and_eq_true, decide_eq_true_eq, hlow, hhigh]

theorem slowLoop_first_crossing (x : sidChannel_t) (w m n : Nat)
    (hf : x.frequency = 0x1000) (ha : x.accumulator = 0x1000 * m) (hm : m < 128)
    (hn : x.waveform &&& 0x80 ≠ 0) (hpos : 0 < n) (hle : m + n ≤ 383) :
    ∃ r, slowLoop n x w (n : Int) = some r ∧ r.accumulator = 0x1000 * (m + n) ∧
      r.noiseGenerator =
        if 128 ≤ m + n then lfsrStep x.noiseGenerator else x.noiseGenerator := by
  by_cases hcase : m + n ≤ 129
  · obtain ⟨f, rfl⟩ : ∃ f, n = f + 1 := ⟨n - 1, by omega⟩
    have hs : slowStepNow x w ((f + 1 : Nat) : Int) = ((f + 1 : Nat) : Int) := by
      rw [slowStepNow_at x w m _ hf ha (by omega) hn]
      split_ifs <;> omega
    have hadv := slowAdvance_at x m (f + 1) hf ha (by omega) hn
    refine ⟨_, slowLoop_single f x w _ (by omega) hs, hadv.1, ?_⟩
    rw [hadv.2.1]
    by_cases h128 : 128 ≤ m + (f + 1)
    · rw [if_pos ⟨by omega, by omega⟩, if_pos h128]
    · rw [if_neg (fun hh => by omega), if_neg h128]
  · obtain ⟨f, rfl⟩ : ∃ f, n = f + 2 := ⟨n - 2, by omega⟩
    have hs : slowStepNow x w ((f + 2 : Nat) : Int) = ((129 - m : Nat) : Int) := by
      rw [slowStepNow_at x w m _ hf ha (by omega) hn]
      split_ifs <;> omega
    have hadv := slowAdvance_at x m (129 - m) hf ha (by omega) hn
    have ha1 : (slowAdvance x ((129 - m : Nat) : Int)).accumulator = 0x1000 * 129 := by
      rw [hadv.1]
      congr 1
      omega
    have hl1 : (slowAdvance x ((129 - m : Nat) : Int)).noiseGenerator
        = lfsrStep x.noiseGenerator := by
      rw [hadv.2.1, if_pos ⟨by omega, by omega⟩]
    have hn1 : (slowAdvance x ((129 - m : Nat) : Int)).waveform &&& 0x80 ≠ 0 := by
      rw [hadv.2.2.2]; exact hn
    have hleft : ((f + 2 : Nat) : Int) - ((129 - m : Nat) : Int)
        = ((f + 2 - (129 - m) : Nat) : Int) := by omega
    have hs2 : slowStepNow (slowAdvance x ((129 - m : Nat) : Int)) w
        ((f + 2 - (129 - m) : Nat) : Int) = ((f + 2 - (129 - m) : Nat) : Int) := by
      rw [slowStepNow_at _ w 129 _ hadv.2.2.1 ha1 (by omega) hn1]
      split_ifs <;> omega
    have hadv2 := slowAdvance_at (slowAdvance x ((129 - m : Nat) : Int)) 129
      (f + 2 - (129 - m)) hadv.2.2.1 ha1 (by omega) hn1
    refine ⟨slowAdvance (slowAdvance x ((129 - m : Nat) : Int))
      ((f + 2 - (129 - m) : Nat) : Int), ?_, ?_, ?_⟩
    · rw [slowLoop_step (f + 1) x w _ (by omega), hs, hleft]
      exact slowLoop_single f _ w _ (by omega) hs2
    · rw [hadv2.1]
      congr 1
      omega
    · rw [hadv2.2.1, if_neg (fun hh => by omega), hl1, if_pos (by omega)]

theorem sustainLevels_eq (sr : Nat) (h : sr < 256) :
    sustainLevels.getD (sr >>> 4) 0 = 17 * (sr >>> 4) := by
  have hk : sr >>> 4 < 16 := by
    rw [Nat.shiftRight_eq_div_pow]
    omega
  generalize sr >>> 4 = k at hk
  interval_cases k <;> rfl

theorem slowAdvance_acc (ch : sidChannel_t) (s : Int) (h0 : 0 ≤ s) (h1 : s < 2 ^ 32) :
    ((slowAdvance ch s).accumulator : Int) =
      ((ch.accumulator : Int) + ch.frequency * s) % 2 ^ 24 :=
  fastPath_acc ch.accumulator ch.frequency s h0 h1

theorem slowLoop_acc : ∀ (fuel : Nat) (ch : sidChannel_t) (tw : Nat) (left : Int)
    (r : sidChannel_t), ch.accumulator < 2 ^ 24 → 0 ≤ left → left < 2 ^ 32 →
    slowLoop fuel ch tw left = some r →
    (r.accumulator : Int) = ((ch.accumulator : Int) + ch.frequency * left) % 2 ^ 24 := by
  intro fuel
  induction fuel with
  | zero =>
    intro ch tw left r hacc h0 _ h
    unfold slowLoop at h
    split_ifs at h with hpos
    cases h
    have : left = 0 := by omega
    rw [this, mul_zero, add_zero]
    omega
  | succ n ih =>
    intro ch tw left r hacc h0 h1 h
    unfold slowLoop at h
    split_ifs at h with hpos
    · have hs1 := slowStepNow_pos ch tw left hacc hpos
      have hs2 := slowStepNow_le ch tw left
      have hadv := slowAdvance_acc ch (slowStepNow ch tw left) (by omega) (by omega)
      have := ih (slowIter ch tw left).1 tw (slowIter ch tw left).2 r
        (slowAdvance_acc_lt ch _) (by simp only [slowIter]; omega)
        (by simp only [slowIter]; omega) h
      rw [this]
      simp only [slowIter]
      rw [hadv, Int.emod_add_emod]
      congr 1
      show (ch.accumulator : Int) + ch.frequency * slowStepNow ch tw left +
        ch.frequency * (left - slowStepNow ch tw left) = _
      ring
    · cases h
      have : left = 0 := by omega
      rw [this, mul_zero, add_zero]
      omega

theorem slowSteps_sum : ∀ (fuel : Nat) (ch : sidChannel_t) (tw : Nat) (left : Int),
    ch.accumulator < 2 ^ 24 → 0 ≤ left → left ≤ fuel →
    (∀ s ∈ slowSteps fuel ch tw left, 1 ≤ s) ∧ (slowSteps fuel ch tw left).sum = left := by
  intro fuel
  induction fuel with
  | zero =>
    intro ch tw left _ h0 h1
    simp only [slowSteps, List.not_mem_nil, false_implies, implies_true, List.sum_nil, true_and]
    simp only [Nat.cast_zero] at h1
    omega
  | succ n ih =>
    intro ch tw left hacc h0 h1
    unfold slowSteps
    split_ifs with hpos
    · have hs1 := slowStepNow_pos ch tw left hacc hpos
      have hs2 := slowStepNow_le ch tw left
      have := ih (slowIter ch tw left).1 tw (slowIter ch tw left).2
        (slowAdvance_acc_lt ch _) (by simp only [slowIter]; omega)
        (by simp only [slowIter]; push_cast at h1; omega)
      refine ⟨?_, ?_⟩
      · intro s hs
        rcases List.mem_cons.mp hs with rfl | hs
        · exact hs1
        · exact this.1 s hs
      · rw [List.sum_cons, this.2]
        simp only [slowIter]
        ring
    · simp only [List.not_mem_nil, false_implies, implies_true, List.sum_nil, true_and]
      omega

theorem clockAccumulator_frame (ch : sidChannel_t) (tw : Option Nat) (c : Int)
    (r : sidChannel_t) (h : clockAccumulator ch tw c = some r)
    (hexit : ch.waveform &&& 0x08 ≠ 0 ∨ ch.frequency = 0 ∨
      (ch.waveform &&& 0x80 = 0 ∧ ∃ w, tw = some w ∧ w &&& 0x02 = 0)) :
    r.doSync = ch.doSync ∧ r.noiseGenerator = ch.noiseGenerator := by
  unfold clockAccumulator at h
  split_ifs at h with h1 h2
  · cases h; exact ⟨rfl, rfl⟩
  · cases h; exact ⟨rfl, rfl⟩
  · cases tw with
    | none => cases h
    | some w =>
      simp only [] at h
      split_ifs at h with h3
      · cases h; exact ⟨rfl, rfl⟩
      · rcases hexit with ht | hf | ⟨hn, w2, hw, hs⟩
        · exact absurd ht h1
        · exact absurd hf h2
        · cases hw
          exact absurd ⟨hn, hs⟩ h3

theorem applySync_doSync (sid : sid_t) (i : Fin 3) (a : sid_t)
    (h : applySync sid i = some a) (j : Fin 3) :
    (a.channel j).doSync = (sid.channel j).doSync :=
  applySync_inv (fun j ch => ch.doSync = (sid.channel j).doSync) (fun _ _ hq => hq)
    sid i a h (fun _ => rfl) j

theorem succ_ne_self (i : Fin 3) : i + 1 ≠ i := by
  fin_cases i <;> decide

theorem staleSync_reset (i j : Fin 3) (ch : sidChannel_t) (h : staleSync i j ch) :
    staleSync i j { ch with accumulator := 0 } := h

theorem applySync_stale (sid : sid_t) (i : Fin 3) (a : sid_t)
    (h : applySync sid i = some a) (hall : ∀ j, staleSync i j (sid.channel j)) :
    ∀ j, staleSync i j (a.channel j) ∧ (j = i + 1 → (a.channel j).accumulator = 0) := by
  obtain ⟨hd, _, ht⟩ := (hall i).1 rfl
  have hw := (hall (i + 1)).2 rfl
  unfold applySync at h
  rw [if_pos hd, ht] at h
  simp only [] at h
  rw [if_pos hw] at h
  cases h
  intro j
  by_cases hj : i + 1 = j
  · subst hj
    rw [channel_setChannel_same]
    exact ⟨staleSync_reset i _ _ (hall _), fun _ => rfl⟩
  · rw [channel_setChannel_ne _ _ _ _ hj]
    exact ⟨hall j, fun h => absurd h.symm hj⟩

theorem applyRegs_frequency (sid : sid_t) (regs : sidRegs_t) (i : Fin 3) :
    ((applyRegs sid regs).channel i).frequency = (regs.freq i % 2 ^ 16).toNat := by
  fin_cases i <;> rfl

theorem applyRegs_doSync (sid : sid_t) (regs : sidRegs_t) (i : Fin 3) :
    ((applyRegs sid regs).channel i).doSync = (sid.channel i).doSync ∧
      ((applyRegs sid regs).channel i).syncTarget = (sid.channel i).syncTarget := by
  fin_cases i <;> exact ⟨rfl, rfl⟩

theorem adsrRateTable_le (k : Nat) : adsrRateTable.getD k 0 ≤ 31251 := by
  by_cases hk : k < 16
  · interval_cases k <;> decide
  · rw [List.getD_eq_default _ _ (by rw [show adsrRateTable.length = 16 from rfl]; omega)]
    omega

theorem adsrRate_le (x : sidChannel_t) : adsrRate x ≤ 31251 := by
  unfold adsrRate
  cases x.state <;> exact adsrRateTable_le _

theorem adsrNeeded_pos (x : sidChannel_t) (h : x.adsrCounter < 0x8000) : 1 ≤ adsrNeeded x := by
  have := adsrRate_le x
  unfold adsrNeeded
  split_ifs <;> omega

theorem gateUpdate_gateUpdate (ch : sidChannel_t) : gateUpdate (gateUpdate ch) = gateUpdate ch := by
  by_cases hg : ch.waveform &&& 0x01 ≠ 0
  · have hw : (gateUpdate ch).waveform &&& 0x01 ≠ 0 := by
      have := oscPart_gateUpdate ch
      simp only [oscPart, Prod.mk.injEq] at this
      rw [this.2.2.2.2.1]
      exact hg
    exact gateUpdate_of_set _ hw (gateUpdate_state_of_set ch hg)
  · have hg2 : ch.waveform &&& 0x01 = 0 := not_not.mp hg
    rw [gateUpdate_of_clear ch hg2]
    exact gateUpdate_of_clear _ hg2

theorem eq_of_envPart (a b : sidChannel_t) (h : envPart a = envPart b) :
    a = { b with accumulator := a.accumulator, noiseGenerator := a.noiseGenerator,
                 doSync := a.doSync } := by
  obtain ⟨fr, ad, sr, pu, wf, ds, st, acc, ng, cnt, ec, vl, t, s⟩ := a
  obtain ⟨fr2, ad2, sr2, pu2, wf2, ds2, st2, acc2, ng2, cnt2, ec2, vl2, t2, s2⟩ := b
  simp only [envPart, Prod.mk.injEq] at h
  obtain ⟨h1, h2, h3, h4, h5, h6, h7, h8, h9, h10, h11⟩ := h
  subst h1 h2 h3 h4 h5 h6 h7 h8 h9 h10 h11
  rfl

theorem gateUpdate_osc (ch : sidChannel_t) (A G : Nat) (D : Bool) :
    gateUpdate { ch with accumulator := A, noiseGenerator := G, doSync := D } =
      { gateUpdate ch with accumulator := A, noiseGenerator := G, doSync := D } := by
  unfold gateUpdate
  split_ifs <;> rfl

theorem adsrNeeded_below (x : sidChannel_t) (a : Int) (hcnt : x.adsrCounter < 0x8000)
    (ha : 0 < a) (hlt : a < adsrNeeded x) :
    adsrNeeded { x with adsrCounter := (((x.adsrCounter : Int) + a) % 0x8000).toNat % 2 ^ 16 }
      = adsrNeeded x - a := by
  have hr := adsrRate_le x
  have hrate : adsrRate
      { x with adsrCounter := (((x.adsrCounter : Int) + a) % 0x8000).toNat % 2 ^ 16 }
      = adsrRate x := rfl
  unfold adsrNeeded at hlt ⊢
  rw [hrate]
  simp only []
  split_ifs at hlt ⊢ <;> omega

section Lemmas

variable [PastTable]

/-! ### Frame and totality lemmas for `clockSidChannel` -/

theorem oscPart_envelopeStep (ch : sidChannel_t) : oscPart (envelopeStep ch) = oscPart ch := by
  unfold envelopeStep
  cases hs : ch.state <;> simp only [] <;> split_ifs <;> rfl

theorem oscPart_adsrIter (ch : sidChannel_t) (c : Int) :
    oscPart (adsrIter ch c).1 = oscPart ch := by
  simp only [adsrIter]
  split_ifs <;> first | rfl | (rw [oscPart_envelopeStep]; rfl)

theorem adsrLoop_inv (P : sidChannel_t → Prop)
    (hP : ∀ ch c, P ch → P (adsrIter ch c).1) :
    ∀ (fuel : Nat) (ch : sidChannel_t) (c : Int) (r : sidChannel_t),
      adsrLoop fuel ch c = some r → P ch → P r := by
  intro fuel
  induction fuel with
  | zero =>
    intro ch c r h hp
    unfold adsrLoop at h
    split at h
    · cases h
    · cases h; exact hp
  | succ n ih =>
    intro ch c r h hp
    unfold adsrLoop at h
    split at h
    · exact ih _ _ _ h (hP _ _ hp)
    · cases h; exact hp

theorem oscPart_adsrLoop (fuel : Nat) (ch : sidChannel_t) (c : Int) (r : sidChannel_t)
    (h : adsrLoop fuel ch c = some r) : oscPart r = oscPart ch :=
  adsrLoop_inv (fun x => oscPart x = oscPart ch)
    (fun x c hx => (oscPart_adsrIter x c).trans hx) fuel ch c r h rfl

theorem adsrCounter_envelopeStep (ch : sidChannel_t) :
    (envelopeStep ch).adsrCounter = ch.adsrCounter := by
  unfold envelopeStep
  cases hs : ch.state <;> simp only [] <;> split_ifs <;> rfl

theorem adsrIter_counter_lt (ch : sidChannel_t) (c : Int) :
    (adsrIter ch c).1.adsrCounter < 0x8000 := by
  simp only [adsrIter]
  split_ifs <;> first
    | (rw [adsrCounter_envelopeStep]; norm_num)
    | (simp only []; omega)

theorem adsrIter_snd_le (ch : sidChannel_t) (c : Int) (hc : 0 < c)
    (h : ch.adsrCounter < 0x8000) : (adsrIter ch c).2 ≤ c - 1 := by
  simp only [adsrIter]
  split_ifs <;> omega

theorem adsrIter_snd_le_of_uint16 (ch : sidChannel_t) (c : Int) (hc : 0 < c)
    (h : ch.adsrCounter < 2 ^ 16) : (adsrIter ch c).2 ≤ c + 32767 := by
  simp only [adsrIter]
  split_ifs <;> omega

theorem adsrLoop_total_aux : ∀ (fuel : Nat) (ch : sidChannel_t) (c : Int),
    ch.adsrCounter < 0x8000 → c ≤ fuel → ∃ r, adsrLoop fuel ch c = some r := by
  intro fuel
  induction fuel with
  | zero =>
    intro ch c _ hc
    refine ⟨ch, ?_⟩
    unfold adsrLoop
    rw [if_neg]
    simpa using hc
  | succ n ih =>
    intro ch c h hc
    unfold adsrLoop
    split
    · rename_i hpos
      apply ih
      · exact adsrIter_counter_lt ch c
      · have := adsrIter_snd_le ch c hpos h
        push_cast at hc
        omega
    · exact ⟨ch, rfl⟩

theorem adsrLoop_total (ch : sidChannel_t) (c : Int) (h : ch.adsrCounter < 2 ^ 16) :
    ∃ r, adsrLoop (c.toNat + 0x8000) ch c = some r := by
  show ∃ r, adsrLoop ((c.toNat + 0x7fff) + 1) ch c = some r
  unfold adsrLoop
  split
  · rename_i hpos
    apply adsrLoop_total_aux
    · exact adsrIter_counter_lt ch c
    · have := adsrIter_snd_le_of_uint16 ch c hpos h
      push_cast
      omega
  · exact ⟨ch, rfl⟩

theorem clockSidChannel_eq_some (ch : sidChannel_t) (tw : Option Nat) (c : Int)
    (r : sidChannel_t) (h : clockSidChannel ch tw c = some r) :
    ∃ m, adsrLoop (c.toNat + 0x8000) (gateUpdate ch) c = some m ∧
      clockAccumulator m tw c = some r := by
  unfold clockSidChannel at h
  split at h
  · cases h
  · rename_i m hm
    exact ⟨m, hm, h⟩

theorem clockSidChannel_regPart (ch : sidChannel_t) (tw : Option Nat) (c : Int)
    (r : sidChannel_t) (h : clockSidChannel ch tw c = some r) : regPart r = regPart ch := by
  obtain ⟨m, hm, hr⟩ := clockSidChannel_eq_some ch tw c r h
  rw [regPart_of_envPart (clockAccumulator_envPart _ _ _ _ hr),
    regPart_of_oscPart (oscPart_adsrLoop _ _ _ _ hm),
    regPart_of_oscPart (oscPart_gateUpdate ch)]

theorem clockSidChannel_acc_lt (ch : sidChannel_t) (tw : Option Nat) (c : Int)
    (r : sidChannel_t) (h : clockSidChannel ch tw c = some r)
    (hacc : ch.accumulator < 2 ^ 24) : r.accumulator < 2 ^ 24 := by
  obtain ⟨m, hm, hr⟩ := clockSidChannel_eq_some ch tw c r h
  apply clockAccumulator_acc_lt _ _ _ _ hr
  have h1 := oscPart_adsrLoop _ _ _ _ hm
  have h2 := oscPart_gateUpdate ch
  simp only [oscPart, Prod.mk.injEq] at h1 h2
  omega

theorem adsrLoop_counter_lt (fuel : Nat) (ch : sidChannel_t) (c : Int) (r : sidChannel_t)
    (h : adsrLoop fuel ch c = some r) (hc : ch.adsrCounter < 2 ^ 16) :
    r.adsrCounter < 2 ^ 16 :=
  adsrLoop_inv (fun x => x.adsrCounter < 2 ^ 16)
    (fun x c _ => Nat.lt_trans (adsrIter_counter_lt x c) (by norm_num)) fuel ch c r h hc

theorem clockSidChannel_counter_lt (ch : sidChannel_t) (tw : Option Nat) (c : Int)
    (r : sidChannel_t) (h : clockSidChannel ch tw c = some r)
    (hc : ch.adsrCounter < 2 ^ 16) : r.adsrCounter < 2 ^ 16 := by
  obtain ⟨m, hm, hr⟩ := clockSidChannel_eq_some ch tw c r h
  have h1 := clockAccumulator_envPart _ _ _ _ hr
  have h2 := adsrLoop_counter_lt _ _ _ _ hm (by rw [adsrCounter_gateUpdate]; exact hc)
  simp only [envPart, Prod.mk.injEq] at h1
  omega

theorem clockSidChannel_total (ch : sidChannel_t) (w : Nat) (c : Int)
    (hacc : ch.accumulator < 2 ^ 24) (hc : ch.adsrCounter < 2 ^ 16) :
    ∃ r, clockSidChannel ch (some w) c = some r := by
  obtain ⟨m, hm⟩ := adsrLoop_total (gateUpdate ch) c (by rw [adsrCounter_gateUpdate]; exact hc)
  have h1 := oscPart_adsrLoop _ _ _ _ hm
  have h2 := oscPart_gateUpdate ch
  simp only [oscPart, Prod.mk.injEq] at h1 h2
  obtain ⟨r, hr⟩ := clockAccumulator_total m w c (by omega)
  refine ⟨r, ?_⟩
  unfold clockSidChannel
  rw [hm]
  exact hr

/-! ### Chip-level frame and totality lemmas -/

theorem clockAt_eq_some (sid : sid_t) (i : Fin 3) (n : Int) (a : sid_t)
    (h : clockAt sid i n = some a) :
    ∃ ch, clockSidChannel (sid.channel i) (targetWaveform sid (sid.channel i)) n = some ch ∧
      a = sid.setChannel i ch := by
  unfold clockAt at h
  split at h
  · cases h
  · rename_i ch hch
    cases h
    exact ⟨ch, hch, rfl⟩

section Invariant

variable (Q : Fin 3 → sidChannel_t → Prop)

theorem clockAt_inv
    (hclock : ∀ i ch tw c r, clockSidChannel ch tw c = some r → Q i ch → Q i r)
    (sid : sid_t) (i : Fin 3) (n : Int) (a : sid_t) (h : clockAt sid i n = some a)
    (hall : ∀ j, Q j (sid.channel j)) : ∀ j, Q j (a.channel j) := by
  obtain ⟨ch, hch, rfl⟩ := clockAt_eq_some sid i n a h
  exact setChannel_inv Q sid i ch hall (hclock i _ _ _ _ hch (hall i))

theorem clockAll_inv
    (hclock : ∀ i ch tw c r, clockSidChannel ch tw c = some r → Q i ch → Q i r)
    (hreset : ∀ i ch, Q i ch → Q i { ch with accumulator := 0 })
    (sid : sid_t) (n : Int) (r : sid_t) (h : clockAll sid n = some r)
    (hall : ∀ j, Q j (sid.channel j)) : ∀ j, Q j (r.channel j) := by
  unfold clockAll at h
  simp only [Option.bind_eq_some] at h
  obtain ⟨a, ha, b, hb, c, hc, d, hd, e, he, hr⟩ := h
  have h1 := clockAt_inv Q hclock _ _ _ _ ha hall
  have h2 := clockAt_inv Q hclock _ _ _ _ hb h1
  have h3 := clockAt_inv Q hclock _ _ _ _ hc h2
  have h4 := applySync_inv Q hreset _ _ _ hd h3
  have h5 := applySync_inv Q hreset _ _ _ he h4
  exact applySync_inv Q hreset _ _ _ hr h5

end Invariant

theorem pacePart_clockAt (sid : sid_t) (i : Fin 3) (n : Int) (a : sid_t)
    (h : clockAt sid i n = some a) : pacePart a = pacePart sid := by
  obtain ⟨ch, _, rfl⟩ := clockAt_eq_some sid i n a h
  exact pacePart_setChannel _ _ _

theorem pacePart_clockAll (sid : sid_t) (n : Int) (r : sid_t)
    (h : clockAll sid n = some r) : pacePart r = pacePart sid := by
  unfold clockAll at h
  simp only [Option.bind_eq_some] at h
  obtain ⟨a, ha, b, hb, c, hc, d, hd, e, he, hr⟩ := h
  rw [pacePart_applySync _ _ _ hr, pacePart_applySync _ _ _ he, pacePart_applySync _ _ _ hd,
    pacePart_clockAt _ _ _ _ hc, pacePart_clockAt _ _ _ _ hb, pacePart_clockAt _ _ _ _ ha]

theorem ringOK_clock (i : Fin 3) (ch : sidChannel_t) (tw : Option Nat) (c : Int)
    (r : sidChannel_t) (h : clockSidChannel ch tw c = some r) (hq : ringOK i ch) :
    ringOK i r := by
  obtain ⟨h1, h2, h3, h4⟩ := hq
  have hreg := clockSidChannel_regPart ch tw c r h
  simp only [regPart, Prod.mk.injEq] at hreg
  refine ⟨clockSidChannel_acc_lt ch tw c r h h1, clockSidChannel_counter_lt ch tw c r h h2, ?_, ?_⟩
  · rw [hreg.2.2.2.2.2.1]; exact h3
  · rw [hreg.2.2.2.2.2.2]; exact h4

theorem clockAt_total (sid : sid_t) (i : Fin 3) (n : Int) (h : sidOK sid) :
    ∃ a, clockAt sid i n = some a := by
  obtain ⟨h1, h2, h3, _⟩ := h i
  obtain ⟨r, hr⟩ := clockSidChannel_total (sid.channel i) (sid.channel (i + 1)).waveform n h1 h2
  refine ⟨sid.setChannel i r, ?_⟩
  unfold clockAt targetWaveform
  rw [h3]
  simp only []
  rw [hr]

theorem sidOK_clockAt (sid : sid_t) (i : Fin 3) (n : Int) (a : sid_t)
    (h : clockAt sid i n = some a) (hok : sidOK sid) : sidOK a :=
  clockAt_inv ringOK ringOK_clock sid i n a h hok

theorem sidOK_clockAll (sid : sid_t) (n : Int) (r : sid_t)
    (h : clockAll sid n = some r) (hok : sidOK sid) : sidOK r :=
  clockAll_inv ringOK ringOK_clock ringOK_reset sid n r h hok

theorem clockAll_total (sid : sid_t) (n : Int) (h : sidOK sid) :
    ∃ r, clockAll sid n = some r := by
  obtain ⟨a, ha⟩ := clockAt_total sid 0 n h
  have oka := sidOK_clockAt _ _ _ _ ha h
  obtain ⟨b, hb⟩ := clockAt_total a 1 n oka
  have okb := sidOK_clockAt _ _ _ _ hb oka
  obtain ⟨c, hc⟩ := clockAt_total b 2 n okb
  have okc := sidOK_clockAt _ _ _ _ hc okb
  obtain ⟨d, hd⟩ := applySync_total c 0 okc
  have okd := sidOK_applySync _ _ _ hd okc
  obtain ⟨e, he⟩ := applySync_total d 1 okd
  have oke := sidOK_applySync _ _ _ he okd
  obtain ⟨f, hf⟩ := applySync_total e 2 oke
  refine ⟨f, ?_⟩
  unfold clockAll
  simp only [ha, hb, hc, hd, he, hf, Option.some_bind]

/-! ### The mixing block and one iteration of the outer loop -/

/-- What one iteration of the outer loop does, read off `bufferIter`. -/
theorem bufferIter_eq_some (p : mixParams) (s s1 : bufState) (h : bufferIter p s = some s1) :
    ∃ sid1, clockAll s.sid (outerStep s.sid s.cpuCycles) = some sid1 ∧
      s1.cpuCycles = s.cpuCycles - outerStep s.sid s.cpuCycles ∧
      (∀ i, s1.sid.channel i = sid1.channel i) ∧
      s1.sid.cyclesPerSample = s.sid.cyclesPerSample ∧
      ((s.sid.cyclesPerSample ≤ s.sid.cycleAccumulator + (outerStep s.sid s.cpuCycles : ℚ) ∧
          s1.sid.cycleAccumulator =
            s.sid.cycleAccumulator + (outerStep s.sid s.cpuCycles : ℚ) - s.sid.cyclesPerSample ∧
          s1.outIndex = s.outIndex + 1 ∧ s1.written = s.written ++ [s.outIndex] ∧
          ∃ sid3 sample, (∀ i, sid3.channel i = sid1.channel i) ∧ sid3.filter = s.sid.filter ∧
            mixSample sid3 p = some (s1.sid.filter, sample) ∧
            s1.out = fun j => if j = s.outIndex then sample else s.out j) ∨
       (s.sid.cycleAccumulator + (outerStep s.sid s.cpuCycles : ℚ) < s.sid.cyclesPerSample ∧
          s1.sid.cycleAccumulator = s.sid.cycleAccumulator + (outerStep s.sid s.cpuCycles : ℚ) ∧
          s1.outIndex = s.outIndex ∧ s1.written = s.written ∧ s1.out = s.out ∧
          s1.sid.filter = s.sid.filter)) := by
  unfold bufferIter at h
  simp only [] at h
  split at h
  · cases h
  · rename_i sid1 hsid1
    have hp := pacePart_clockAll _ _ _ hsid1
    simp only [pacePart, Prod.mk.injEq] at hp
    obtain ⟨hp1, hp2, hp3⟩ := hp
    refine ⟨sid1, hsid1, ?_⟩
    split_ifs at h with hge
    · split at h
      · cases h
      · rename_i fs sample hmix
        cases h
        refine ⟨rfl, fun i => by fin_cases i <;> rfl, hp1, Or.inl ⟨?_, ?_, rfl, rfl, ?_⟩⟩
        · rw [← hp1, ← hp2]; exact hge
        · simp only [hp1, hp2]
        · exact ⟨_, sample, fun i => by fin_cases i <;> rfl, hp3, hmix, rfl⟩
    · cases h
      refine ⟨rfl, fun i => by fin_cases i <;> rfl, hp1, Or.inr ⟨?_, ?_, rfl, rfl, rfl, hp3⟩⟩
      · rw [← hp1, ← hp2]; exact lt_of_not_ge hge
      · simp only [hp2]

theorem bufferIter_total (p : mixParams) (s : bufState) (h : sidOK s.sid) :
    ∃ s1, bufferIter p s = some s1 := by
  obtain ⟨sid1, hsid1⟩ := clockAll_total s.sid (outerStep s.sid s.cpuCycles) h
  have ok1 := sidOK_clockAll _ _ _ hsid1 h
  unfold bufferIter
  simp only [hsid1]
  split_ifs
  · have ok3 : sidOK { sid1 with cycleAccumulator :=
        sid1.cycleAccumulator + (outerStep s.sid s.cpuCycles : ℚ) - sid1.cyclesPerSample } :=
      fun i => by have := ok1 i; fin_cases i <;> exact this
    obtain ⟨⟨fs, sample⟩, hr⟩ := mixSample_total _ p ok3
    simp only [hr]
    exact ⟨_, rfl⟩
  · exact ⟨_, rfl⟩

/-! ### The outer loop -/

theorem bufferLoop_zero (p : mixParams) (maxSamples : Int) (s : bufState) :
    bufferLoop p maxSamples 0 s =
      if s.cpuCycles > 0 ∧ s.outIndex < maxSamples then none else some s := rfl

theorem bufferLoop_succ (p : mixParams) (maxSamples : Int) (fuel : Nat) (s : bufState) :
    bufferLoop p maxSamples (fuel + 1) s =
      if s.cpuCycles > 0 ∧ s.outIndex < maxSamples then
        (bufferIter p s).bind (bufferLoop p maxSamples fuel)
      else some s := rfl

theorem bufferLoop_inv (p : mixParams) (maxSamples : Int) (I : bufState → Prop)
    (hI : ∀ s s1, 0 < s.cpuCycles → s.outIndex < maxSamples → bufferIter p s = some s1 →
      I s → I s1) :
    ∀ (fuel : Nat) (s r : bufState), bufferLoop p maxSamples fuel s = some r → I s → I r := by
  intro fuel
  induction fuel with
  | zero =>
    intro s r h hs
    rw [bufferLoop_zero] at h
    split_ifs at h
    cases h; exact hs
  | succ n ih =>
    intro s r h hs
    rw [bufferLoop_succ] at h
    split_ifs at h with hg
    · obtain ⟨s1, hs1, h1⟩ := Option.bind_eq_some.mp h
      exact ih s1 r h1 (hI s s1 hg.1 hg.2 hs1 hs)
    · cases h; exact hs

theorem sidOK_bufferIter (p : mixParams) (s s1 : bufState) (h : bufferIter p s = some s1)
    (hok : sidOK s.sid) : sidOK s1.sid := by
  obtain ⟨sid1, hsid1, _, hch, _⟩ := bufferIter_eq_some p s s1 h
  intro i
  rw [hch i]
  exact sidOK_clockAll _ _ _ hsid1 hok i

theorem bufferIter_measure (p : mixParams) (s s1 : bufState) (h : bufferIter p s = some s1)
    (hc : 0 < s.cpuCycles) :
    s1.cpuCycles ≤ s.cpuCycles ∧ s.outIndex ≤ s1.outIndex ∧ s1.outIndex ≤ s.outIndex + 1 ∧
      s.cpuCycles - s1.cpuCycles + (s1.outIndex - s.outIndex) ≥ 1 := by
  obtain ⟨sid1, _, hcpu, _, _, hcase⟩ := bufferIter_eq_some p s s1 h
  have h0 := outerStep_nonneg s.sid s.cpuCycles hc
  rcases hcase with ⟨_, _, hidx, _⟩ | ⟨hlt, _, hidx, _⟩
  · omega
  · have hne : outerStep s.sid s.cpuCycles ≠ 0 := by
      intro h0'
      have := outerStep_zero_emit s.sid s.cpuCycles hc h0'
      rw [h0'] at hlt
      simp only [Int.cast_zero, add_zero] at hlt
      exact absurd hlt (not_lt_of_ge this)
    omega

theorem bufferLoop_total (p : mixParams) (maxSamples : Int) :
    ∀ (fuel : Nat) (s : bufState), sidOK s.sid →
      s.cpuCycles + (maxSamples - s.outIndex) ≤ fuel →
      ∃ r, bufferLoop p maxSamples fuel s = some r := by
  intro fuel
  induction fuel with
  | zero =>
    intro s _ hm
    refine ⟨s, ?_⟩
    rw [bufferLoop_zero, if_neg]
    intro hg
    simp only [Nat.cast_zero] at hm
    omega
  | succ n ih =>
    intro s hok hm
    rw [bufferLoop_succ]
    split_ifs with hg
    · obtain ⟨s1, hs1⟩ := bufferIter_total p s hok
      rw [hs1, Option.some_bind]
      apply ih s1 (sidOK_bufferIter p s s1 hs1 hok)
      have := bufferIter_measure p s s1 hs1 hg.1
      push_cast at hm
      omega
    · exact ⟨s, rfl⟩

theorem bufferLoop_exit (p : mixParams) (maxSamples : Int) :
    ∀ (fuel : Nat) (s r : bufState), bufferLoop p maxSamples fuel s = some r →
      ¬ (0 < r.cpuCycles ∧ r.outIndex < maxSamples) := by
  intro fuel
  induction fuel with
  | zero =>
    intro s r h
    rw [bufferLoop_zero] at h
    split_ifs at h with hg
    cases h; exact hg
  | succ n ih =>
    intro s r h
    rw [bufferLoop_succ] at h
    split_ifs at h with hg
    · obtain ⟨s1, _, h1⟩ := Option.bind_eq_some.mp h
      exact ih _ r h1
    · cases h; exact hg

/-- The buffer bookkeeping kept by the outer loop: the index stays in `0..maxSamples`,
the stores so far went to `0, 1, ..., outIndex - 1` in that order, and every other cell
of the buffer is as the caller left it. -/
theorem bufferIter_bookkeeping (p : mixParams) (maxSamples : Int) (out : Int → Int)
    (s s1 : bufState) (hidx : s.outIndex < maxSamples) (h : bufferIter p s = some s1)
    (hI : 0 ≤ s.outIndex ∧ s.outIndex ≤ maxSamples ∧ s.written = indicesUpTo s.outIndex ∧
      ∀ j, (j < 0 ∨ s.outIndex ≤ j) → s.out j = out j) :
    0 ≤ s1.outIndex ∧ s1.outIndex ≤ maxSamples ∧ s1.written = indicesUpTo s1.outIndex ∧
      ∀ j, (j < 0 ∨ s1.outIndex ≤ j) → s1.out j = out j := by
  obtain ⟨h0, _, hw, hout⟩ := hI
  obtain ⟨sid1, _, _, _, _, hcase⟩ := bufferIter_eq_some p s s1 h
  rcases hcase with ⟨_, _, hi, hwr, _, sample, _, _, _, ho⟩ | ⟨_, _, hi, hwr, ho, _⟩
  · refine ⟨by omega, by omega, ?_, ?_⟩
    · rw [hwr, hi, indicesUpTo_succ _ h0, hw]
    · intro j hj
      rw [ho]
      have hne : j ≠ s.outIndex := by omega
      simp only [if_neg hne]
      exact hout j (by omega)
  · refine ⟨by omega, by omega, ?_, ?_⟩
    · rw [hwr, hi, hw]
    · intro j hj
      rw [ho]
      exact hout j (by omega)

/-! ### Sample pacing -/

theorem bufferIter_pace (p : mixParams) (s s1 : bufState) (h : bufferIter p s = some s1)
    (hc : 0 < s.cpuCycles) (hcps : 1 ≤ s.sid.cyclesPerSample)
    (h0 : 0 ≤ s.sid.cycleAccumulator) (h1 : s.sid.cycleAccumulator < s.sid.cyclesPerSample) :
    s1.cpuCycles + 1 ≤ s.cpuCycles ∧ 0 ≤ s1.cpuCycles ∧
      (s1.outIndex = s.outIndex ∨ s1.outIndex = s.outIndex + 1) ∧
      s1.sid.cyclesPerSample = s.sid.cyclesPerSample ∧
      0 ≤ s1.sid.cycleAccumulator ∧ s1.sid.cycleAccumulator < s1.sid.cyclesPerSample ∧
      s1.sid.cycleAccumulator + (s1.outIndex : ℚ) * s.sid.cyclesPerSample + (s1.cpuCycles : ℚ) =
        s.sid.cycleAccumulator + (s.outIndex : ℚ) * s.sid.cyclesPerSample + (s.cpuCycles : ℚ) := by
  obtain ⟨sid1, _, hcpu, _, hcps1, hcase⟩ := bufferIter_eq_some p s s1 h
  have hpos := outerStep_pos s.sid s.cpuCycles hc h1
  have hle := outerStep_le s.sid s.cpuCycles
  have hlt := outerStep_add_lt s.sid s.cpuCycles h1
  have hstep0 : (0 : ℚ) ≤ (outerStep s.sid s.cpuCycles : ℚ) := by
    exact_mod_cast (by omega : (0 : Int) ≤ outerStep s.sid s.cpuCycles)
  rcases hcase with ⟨hge, hacc, hidx, _⟩ | ⟨hlt', hacc, hidx, _⟩
  · refine ⟨by omega, by omega, Or.inr hidx, hcps1, ?_, ?_, ?_⟩
    · rw [hacc]; linarith
    · rw [hacc, hcps1]; linarith
    · rw [hacc, hidx, hcpu]; push_cast; ring
  · refine ⟨by omega, by omega, Or.inl hidx, hcps1, ?_, ?_, ?_⟩
    · rw [hacc]; linarith
    · rw [hacc, hcps1]; exact hlt'
    · rw [hacc, hidx, hcpu]; push_cast; ring

/-- The pacing invariant of the outer loop, for a sample period `c ≥ 1`. -/
theorem bufferLoop_pace (p : mixParams) (maxSamples : Int) (c K : ℚ) (hc : 1 ≤ c)
    (fuel : Nat) (s r : bufState) (h : bufferLoop p maxSamples fuel s = some r)
    (hs : s.sid.cyclesPerSample = c ∧ 0 ≤ s.sid.cycleAccumulator ∧ s.sid.cycleAccumulator < c ∧
      0 ≤ s.cpuCycles ∧
      s.sid.cycleAccumulator + (s.outIndex : ℚ) * c + (s.cpuCycles : ℚ) = K) :
    r.sid.cyclesPerSample = c ∧ 0 ≤ r.sid.cycleAccumulator ∧ r.sid.cycleAccumulator < c ∧
      0 ≤ r.cpuCycles ∧
      r.sid.cycleAccumulator + (r.outIndex : ℚ) * c + (r.cpuCycles : ℚ) = K := by
  refine bufferLoop_inv p maxSamples
    (fun s => s.sid.cyclesPerSample = c ∧ 0 ≤ s.sid.cycleAccumulator ∧
      s.sid.cycleAccumulator < c ∧ 0 ≤ s.cpuCycles ∧
      s.sid.cycleAccumulator + (s.outIndex : ℚ) * c + (s.cpuCycles : ℚ) = K)
    ?_ fuel s r h hs
  intro a b hpos _ hab ⟨ha1, ha2, ha3, _, ha5⟩
  obtain ⟨_, hb2, _, hb4, hb5, hb6, hb7⟩ :=
    bufferIter_pace p a b hab hpos (by rw [ha1]; exact hc) ha2 (by rw [ha1]; exact ha3)
  refine ⟨by rw [hb4, ha1], hb5, by rw [← ha1, ← hb4]; exact hb6, hb2, ?_⟩
  rw [ha1] at hb7
  rw [hb7, ha5]

/-! ### Silent chip -/

theorem envelopeStep_release_zero (ch : sidChannel_t) (hs : ch.state = RELEASE)
    (hv : ch.volumeLevel = 0) : envelopeStep ch = ch := by
  unfold envelopeStep
  rw [hs]
  simp only [hv, gt_iff_lt, lt_self_iff_false, if_false]

theorem adsrIter_fst_cases (ch : sidChannel_t) (c : Int) :
    (∃ k, (adsrIter ch c).1 = { ch with adsrCounter := k }) ∨
      (adsrIter ch c).1 = envelopeStep { ch with adsrCounter := 0 } := by
  simp only [adsrIter]
  split_ifs <;> first | exact Or.inr rfl | exact Or.inl ⟨_, rfl⟩

theorem adsrIter_release_zero (ch : sidChannel_t) (c : Int)
    (h : ch.state = RELEASE ∧ ch.volumeLevel = 0) :
    (adsrIter ch c).1.state = RELEASE ∧ (adsrIter ch c).1.volumeLevel = 0 := by
  rcases adsrIter_fst_cases ch c with ⟨k, hk⟩ | hk
  · rw [hk]; exact h
  · rw [hk, envelopeStep_release_zero { ch with adsrCounter := 0 } h.1 h.2]; exact h

theorem silentOK_clock (i : Fin 3) (ch : sidChannel_t) (tw : Option Nat) (c : Int)
    (r : sidChannel_t) (h : clockSidChannel ch tw c = some r) (hq : silentOK i ch) :
    silentOK i r := by
  obtain ⟨hw, hf, hv⟩ := hq
  have hreg := clockSidChannel_regPart ch tw c r h
  simp only [regPart, Prod.mk.injEq] at hreg
  obtain ⟨m, hm, hr⟩ := clockSidChannel_eq_some ch tw c r h
  have hg : (gateUpdate ch).state = RELEASE ∧ (gateUpdate ch).volumeLevel = 0 := by
    unfold gateUpdate
    rw [hw]
    exact ⟨rfl, hv⟩
  have hm2 := adsrLoop_inv (fun x => x.state = RELEASE ∧ x.volumeLevel = 0)
    (fun x c hx => adsrIter_release_zero x c hx) _ _ _ _ hm hg
  have henv := clockAccumulator_envPart _ _ _ _ hr
  simp only [envPart, Prod.mk.injEq] at henv
  refine ⟨by rw [hreg.2.2.2.2.1]; exact hw, by rw [hreg.1]; exact hf, ?_⟩
  rw [henv.2.2.2.2.2.2.2.2.1]
  exact hm2.2

theorem bufferIter_silent (p : mixParams) (s s1 : bufState) (h : bufferIter p s = some s1)
    (hI : (∀ i, silentOK i (s.sid.channel i)) ∧ s.sid.filter = { low := 0, band := 0 } ∧
      0 ≤ s.outIndex ∧ ∀ j, 0 ≤ j → j < s.outIndex → s.out j = 0) :
    (∀ i, silentOK i (s1.sid.channel i)) ∧ s1.sid.filter = { low := 0, band := 0 } ∧
      0 ≤ s1.outIndex ∧ ∀ j, 0 ≤ j → j < s1.outIndex → s1.out j = 0 := by
  obtain ⟨hq, hf, hi0, hout⟩ := hI
  obtain ⟨sid1, hsid1, _, hch, _, hcase⟩ := bufferIter_eq_some p s s1 h
  have hq1 := clockAll_inv silentOK silentOK_clock silentOK_reset _ _ _ hsid1 hq
  have hq' : ∀ i, silentOK i (s1.sid.channel i) := fun i => by rw [hch i]; exact hq1 i
  rcases hcase with ⟨_, _, hidx, _, sid3, sample, h3c, h3f, hmix, ho⟩ | ⟨_, _, hidx, _, ho, hfil⟩
  · have hm := mixSample_silent sid3 p (fun i => by rw [h3c i]; exact hq1 i) (by rw [h3f, hf])
    rw [hm] at hmix
    simp only [Option.some.injEq, Prod.mk.injEq] at hmix
    refine ⟨hq', hmix.1.symm, by omega, ?_⟩
    intro j hj0 hj
    rw [ho]
    by_cases hjs : j = s.outIndex
    · simp only [if_pos hjs]; exact hmix.2.symm
    · simp only [if_neg hjs]; exact hout j hj0 (by omega)
  · refine ⟨hq', by rw [hfil, hf], by omega, ?_⟩
    intro j hj0 hj
    rw [ho]
    exact hout j hj0 (by omega)

/-- A call with positive counts runs the outer loop from the state set up by the prologue
of `bufferSamplesSid`, and the loop returns. -/
theorem bufferSamplesSid_pos (curve : ℚ → ℚ) (sid : sid_t) (cpuCycles : Int) (regs : sidRegs_t)
    (out : Int → Int) (maxSamples : Int) (hok : sidOK sid) (hc : 0 < cpuCycles)
    (hm : 0 < maxSamples) :
    ∃ r, bufferSamplesSid curve sid cpuCycles regs out maxSamples = some r ∧
      bufferLoop (regParams curve regs) maxSamples (cpuCycles.toNat + maxSamples.toNat)
        { sid := applyRegs sid regs, out := out, outIndex := 0, cpuCycles := cpuCycles,
          written := [] } = some r := by
  obtain ⟨r, hr⟩ := bufferLoop_total (regParams curve regs) maxSamples
    (cpuCycles.toNat + maxSamples.toNat)
    { sid := applyRegs sid regs, out := out, outIndex := 0, cpuCycles := cpuCycles,
      written := [] } (sidOK_applyRegs sid regs hok) (by simp only []; push_cast; omega)
  refine ⟨r, ?_, hr⟩
  unfold bufferSamplesSid
  rw [if_neg (by omega)]
  exact hr

theorem bufferSamplesSid_of_nonpos (curve : ℚ → ℚ) (sid : sid_t) (cpuCycles : Int)
    (regs : sidRegs_t) (out : Int → Int) (maxSamples : Int)
    (h : cpuCycles ≤ 0 ∨ maxSamples ≤ 0) :
    bufferSamplesSid curve sid cpuCycles regs out maxSamples =
      some { sid := sid, out := out, outIndex := 0, cpuCycles := cpuCycles, written := [] } := by
  unfold bufferSamplesSid
  rw [if_pos h]

/-- From the state produced by `sidInit`, with an all-zero register snapshot, every call
with positive counts returns, and every sample it stored is 0. -/
theorem silent_samples_zero (curve : ℚ → ℚ) (sid : sid_t) (out : Int → Int)
    (cpuCycles maxSamples : Int) (hc : 0 < cpuCycles) (hm : 0 < maxSamples) :
    ∃ r, bufferSamplesSid curve (sidInit sid) cpuCycles zeroRegs out maxSamples = some r ∧
      ∀ j, 0 ≤ j → j < r.outIndex → r.out j = 0 := by
  obtain ⟨r, hr, hloop⟩ := bufferSamplesSid_pos curve (sidInit sid) cpuCycles zeroRegs out
    maxSamples (sidOK_sidInit sid) hc hm
  refine ⟨r, hr, ?_⟩
  have hinv := bufferLoop_inv (regParams curve zeroRegs) maxSamples
    (fun s => (∀ i, silentOK i (s.sid.channel i)) ∧ s.sid.filter = { low := 0, band := 0 } ∧
      0 ≤ s.outIndex ∧ ∀ j, 0 ≤ j → j < s.outIndex → s.out j = 0)
    (fun s s1 _ _ h hI => bufferIter_silent _ s s1 h hI) _ _ r hloop
    ⟨silentOK_init_zeroRegs sid, rfl, le_refl _, fun j h0 h1 => absurd h1 (not_lt_of_ge h0)⟩
  exact hinv.2.2.2

/-! ### Invariants of whole calls and of sequences of calls -/

section CallInvariant

variable (Q : Fin 3 → sidChannel_t → Prop)

theorem bufferIter_inv
    (hclock : ∀ i ch tw c r, clockSidChannel ch tw c = some r → Q i ch → Q i r)
    (hreset : ∀ i ch, Q i ch → Q i { ch with accumulator := 0 })
    (p : mixParams) (s s1 : bufState) (h : bufferIter p s = some s1)
    (hall : ∀ i, Q i (s.sid.channel i)) : ∀ i, Q i (s1.sid.channel i) := by
  obtain ⟨sid1, hsid1, _, hch, _⟩ := bufferIter_eq_some p s s1 h
  intro i
  rw [hch i]
  exact clockAll_inv Q hclock hreset _ _ _ hsid1 hall i

theorem bufferSamplesSid_inv
    (hclock : ∀ i ch tw c r, clockSidChannel ch tw c = some r → Q i ch → Q i r)
    (hreset : ∀ i ch, Q i ch → Q i { ch with accumulator := 0 })
    (hregs : ∀ sid regs, (∀ i, Q i (sid.channel i)) → ∀ i, Q i ((applyRegs sid regs).channel i))
    (curve : ℚ → ℚ) (sid : sid_t) (cpuCycles : Int) (regs : sidRegs_t) (out : Int → Int)
    (maxSamples : Int) (r : bufState)
    (h : bufferSamplesSid curve sid cpuCycles regs out maxSamples = some r)
    (hall : ∀ i, Q i (sid.channel i)) : ∀ i, Q i (r.sid.channel i) := by
  unfold bufferSamplesSid at h
  split_ifs at h
  · cases h; exact hall
  · exact bufferLoop_inv _ _ (fun s => ∀ i, Q i (s.sid.channel i))
      (fun s s1 _ _ hs hI => bufferIter_inv Q hclock hreset _ s s1 hs hI) _ _ r h
      (hregs sid regs hall)

theorem runCalls_inv
    (hclock : ∀ i ch tw c r, clockSidChannel ch tw c = some r → Q i ch → Q i r)
    (hreset : ∀ i ch, Q i ch → Q i { ch with accumulator := 0 })
    (hregs : ∀ sid regs, (∀ i, Q i (sid.channel i)) → ∀ i, Q i ((applyRegs sid regs).channel i))
    (curve : ℚ → ℚ) (out : Int → Int) (calls : List (Int × sidRegs_t × Int)) :
    ∀ (sid s : sid_t), runCalls curve out sid calls = some s →
      (∀ i, Q i (sid.channel i)) → ∀ i, Q i (s.channel i) := by
  induction calls with
  | nil =>
    intro sid s h hall
    simp only [runCalls, Option.some.injEq] at h
    rw [← h]; exact hall
  | cons call rest ih =>
    intro sid s h hall
    simp only [runCalls] at h
    obtain ⟨r, hr, hrest⟩ := Option.bind_eq_some.mp h
    exact ih r.sid s hrest
      (bufferSamplesSid_inv Q hclock hreset hregs curve sid _ _ out _ r hr hall)

end CallInvariant

theorem bufferSamplesSid_total (curve : ℚ → ℚ) (sid : sid_t) (cpuCycles : Int)
    (regs : sidRegs_t) (out : Int → Int) (maxSamples : Int) (hok : sidOK sid) :
    ∃ r, bufferSamplesSid curve sid cpuCycles regs out maxSamples = some r ∧ sidOK r.sid := by
  have key : ∃ r, bufferSamplesSid curve sid cpuCycles regs out maxSamples = some r := by
    by_cases hg : cpuCycles ≤ 0 ∨ maxSamples ≤ 0
    · exact ⟨_, bufferSamplesSid_of_nonpos curve sid cpuCycles regs out maxSamples hg⟩
    · obtain ⟨r, hr, _⟩ := bufferSamplesSid_pos curve sid cpuCycles regs out maxSamples hok
        (by omega) (by omega)
      exact ⟨r, hr⟩
  obtain ⟨r, hr⟩ := key
  exact ⟨r, hr, bufferSamplesSid_inv ringOK ringOK_clock ringOK_reset ringOK_applyRegs
    curve sid cpuCycles regs out maxSamples r hr hok⟩

theorem runCalls_total (curve : ℚ → ℚ) (out : Int → Int)
    (calls : List (Int × sidRegs_t × Int)) :
    ∀ sid : sid_t, sidOK sid → ∃ s, runCalls curve out sid calls = some s ∧ sidOK s := by
  induction calls with
  | nil => intro sid hok; exact ⟨sid, rfl, hok⟩
  | cons call rest ih =>
    intro sid hok
    obtain ⟨r, hr, hokr⟩ := bufferSamplesSid_total curve sid call.1 call.2.1 out call.2.2 hok
    obtain ⟨s, hs, hoks⟩ := ih r.sid hokr
    refine ⟨s, ?_, hoks⟩
    simp only [runCalls, hr, Option.some_bind]
    exact hs

theorem lfsrOK_clock (i : Fin 3) (ch : sidChannel_t) (tw : Option Nat) (c : Int)
    (r : sidChannel_t) (h : clockSidChannel ch tw c = some r) (hq : lfsrOK i ch) :
    lfsrOK i r := by
  obtain ⟨m, hm, hr⟩ := clockSidChannel_eq_some ch tw c r h
  have h1 := oscPart_adsrLoop _ _ _ _ hm
  have h2 := oscPart_gateUpdate ch
  simp only [oscPart, Prod.mk.injEq] at h1 h2
  apply clockAccumulator_lfsr m tw c r hr
  rw [h1.2.2.2.2.2.2.2.1, h2.2.2.2.2.2.2.2.1]
  exact hq

/-! ### The gate bit and the envelope state -/

theorem envelopeStep_state_release (ch : sidChannel_t) (hs : ch.state = RELEASE) :
    (envelopeStep ch).state = RELEASE := by
  unfold envelopeStep
  rw [hs]
  simp only []
  split_ifs <;> first | exact hs | rfl

theorem envelopeStep_state_ne_release (ch : sidChannel_t) (hs : ch.state ≠ RELEASE) :
    (envelopeStep ch).state ≠ RELEASE := by
  unfold envelopeStep
  cases h : ch.state
  · simp only []
    split_ifs
    · exact fun hh => by cases hh
    · exact fun hh => hs (h ▸ hh)
  · simp only []
    split_ifs <;> exact fun hh => hs (h ▸ hh)
  · exact absurd h hs

theorem adsrIter_state_release (ch : sidChannel_t) (c : Int) (hs : ch.state = RELEASE) :
    (adsrIter ch c).1.state = RELEASE := by
  rcases adsrIter_fst_cases ch c with ⟨k, hk⟩ | hk
  · rw [hk]; exact hs
  · rw [hk]; exact envelopeStep_state_release _ hs

theorem adsrIter_state_ne_release (ch : sidChannel_t) (c : Int) (hs : ch.state ≠ RELEASE) :
    (adsrIter ch c).1.state ≠ RELEASE := by
  rcases adsrIter_fst_cases ch c with ⟨k, hk⟩ | hk
  · rw [hk]; exact hs
  · rw [hk]; exact envelopeStep_state_ne_release _ hs

theorem adsrTrace_inv (P : sidChannel_t → Prop)
    (hP : ∀ ch c, P ch → P (adsrIter ch c).1) :
    ∀ (fuel : Nat) (ch : sidChannel_t) (c : Int), P ch → ∀ x ∈ adsrTrace fuel ch c, P x := by
  intro fuel
  induction fuel with
  | zero =>
    intro ch c _ x hx
    simp only [adsrTrace, List.not_mem_nil] at hx
  | succ n ih =>
    intro ch c hp x hx
    unfold adsrTrace at hx
    split_ifs at hx
    · rcases List.mem_cons.mp hx with rfl | hx
      · exact hp
      · exact ih _ _ (hP _ _ hp) x hx
    · simp only [List.not_mem_nil] at hx

theorem adsrTrace_head (fuel : Nat) (ch : sidChannel_t) (c : Int) (hc : 0 < c) :
    (adsrTrace (fuel + 1) ch c).head? = some ch := by
  unfold adsrTrace
  rw [if_pos hc]
  rfl

theorem clockSidChannel_state (P : sidChannel_t → Prop)
    (hP : ∀ ch c, P ch → P (adsrIter ch c).1)
    (hE : ∀ a b, envPart a = envPart b → P b → P a)
    (ch : sidChannel_t) (tw : Option Nat) (c : Int) (r : sidChannel_t)
    (h : clockSidChannel ch tw c = some r) (hg : P (gateUpdate ch)) : P r := by
  obtain ⟨m, hm, hr⟩ := clockSidChannel_eq_some ch tw c r h
  exact hE _ _ (clockAccumulator_envPart _ _ _ _ hr) (adsrLoop_inv P hP _ _ _ _ hm hg)

theorem clockSidChannel_gate_congr (a b : sidChannel_t) (tw : Option Nat) (c : Int)
    (h : gateUpdate a = gateUpdate b) : clockSidChannel a tw c = clockSidChannel b tw c := by
  unfold clockSidChannel
  rw [h]

/-! ### The test bit -/

theorem clockSidChannel_test (ch : sidChannel_t) (tw : Option Nat) (c : Int) (r : sidChannel_t)
    (h : clockSidChannel ch tw c = some r) (ht : ch.waveform &&& 0x08 ≠ 0) :
    r.accumulator = 0 := by
  obtain ⟨m, hm, hr⟩ := clockSidChannel_eq_some ch tw c r h
  have h1 := oscPart_adsrLoop _ _ _ _ hm
  have h2 := oscPart_gateUpdate ch
  simp only [oscPart, Prod.mk.injEq] at h1 h2
  have hw : m.waveform &&& 0x08 ≠ 0 := by rw [h1.2.2.2.2.1, h2.2.2.2.2.1]; exact ht
  unfold clockAccumulator at hr
  rw [if_pos hw] at hr
  cases hr
  rfl

theorem clockSidChannel_test_total (ch : sidChannel_t) (tw : Option Nat) (c : Int)
    (ht : ch.waveform &&& 0x08 ≠ 0) (hc : ch.adsrCounter < 2 ^ 16) :
    ∃ r, clockSidChannel ch tw c = some r := by
  obtain ⟨m, hm⟩ := adsrLoop_total (gateUpdate ch) c (by rw [adsrCounter_gateUpdate]; exact hc)
  have h1 := oscPart_adsrLoop _ _ _ _ hm
  have h2 := oscPart_gateUpdate ch
  simp only [oscPart, Prod.mk.injEq] at h1 h2
  have hw : m.waveform &&& 0x08 ≠ 0 := by rw [h1.2.2.2.2.1, h2.2.2.2.2.1]; exact ht
  refine ⟨{ m with accumulator := 0 }, ?_⟩
  unfold clockSidChannel
  rw [hm]
  simp only []
  unfold clockAccumulator
  rw [if_pos hw]

theorem clockSidChannel_waveform (ch : sidChannel_t) (tw : Option Nat) (c : Int)
    (r : sidChannel_t) (h : clockSidChannel ch tw c = some r) : r.waveform = ch.waveform := by
  have := clockSidChannel_regPart ch tw c r h
  simp only [regPart, Prod.mk.injEq] at this
  exact this.2.2.2.2.1

theorem clockAll_test (sid : sid_t) (n : Int) (r : sid_t) (k : Fin 3)
    (h : clockAll sid n = some r) (ht : (sid.channel k).waveform &&& 0x08 ≠ 0) :
    (r.channel k).waveform = (sid.channel k).waveform ∧ (r.channel k).accumulator = 0 := by
  have hc1 : ∀ (i : Fin 3) (ch : sidChannel_t) (tw : Option Nat) (c : Int) (x : sidChannel_t),
      clockSidChannel ch tw c = some x →
      (i = k → ch.waveform = (sid.channel k).waveform) →
      (i = k → x.waveform = (sid.channel k).waveform) := by
    intro i ch tw c x hx hq hi
    rw [clockSidChannel_waveform ch tw c x hx]
    exact hq hi
  have hc2 : ∀ (i : Fin 3) (ch : sidChannel_t) (tw : Option Nat) (c : Int) (x : sidChannel_t),
      clockSidChannel ch tw c = some x →
      (i = k → ch.waveform = (sid.channel k).waveform ∧ ch.accumulator = 0) →
      (i = k → x.waveform = (sid.channel k).waveform ∧ x.accumulator = 0) := by
    intro i ch tw c x hx hq hi
    refine ⟨?_, ?_⟩
    · rw [clockSidChannel_waveform ch tw c x hx]
      exact (hq hi).1
    · exact clockSidChannel_test ch tw c x hx (by rw [(hq hi).1]; exact ht)
  have hr2 : ∀ (i : Fin 3) (ch : sidChannel_t),
      (i = k → ch.waveform = (sid.channel k).waveform ∧ ch.accumulator = 0) →
      (i = k → ch.waveform = (sid.channel k).waveform ∧ (0 : Nat) = 0) :=
    fun i ch hq hi => ⟨(hq hi).1, rfl⟩
  have promote : ∀ (s a : sid_t), clockAt s k n = some a →
      (∀ j, j = k → (s.channel j).waveform = (sid.channel k).waveform) →
      ∀ j, j = k → (a.channel j).waveform = (sid.channel k).waveform ∧
        (a.channel j).accumulator = 0 := by
    intro s a ha hs j hj
    obtain ⟨ch, hch, rfl⟩ := clockAt_eq_some s k n a ha
    subst hj
    rw [channel_setChannel_same]
    refine ⟨?_, ?_⟩
    · rw [clockSidChannel_waveform _ _ _ _ hch]
      exact hs j rfl
    · exact clockSidChannel_test _ _ _ _ hch (by rw [hs j rfl]; exact ht)
  unfold clockAll at h
  simp only [Option.bind_eq_some] at h
  obtain ⟨a, ha, b, hb, c, hc, d, hd, e, he, hr⟩ := h
  have q0 : ∀ j, j = k → (sid.channel j).waveform = (sid.channel k).waveform :=
    fun j hj => by rw [hj]
  have qa := clockAt_inv (fun i ch => i = k → ch.waveform = (sid.channel k).waveform)
    hc1 _ _ _ _ ha q0
  have qb := clockAt_inv (fun i ch => i = k → ch.waveform = (sid.channel k).waveform)
    hc1 _ _ _ _ hb qa
  have hk : k = 0 ∨ k = 1 ∨ k = 2 := by
    fin_cases k
    · exact Or.inl rfl
    · exact Or.inr (Or.inl rfl)
    · exact Or.inr (Or.inr rfl)
  have qc : ∀ j, j = k → (c.channel j).waveform = (sid.channel k).waveform ∧
      (c.channel j).accumulator = 0 := by
    rcases hk with h0 | h1 | h2
    · have pa := promote sid a (h0 ▸ ha) q0
      have pb := clockAt_inv
        (fun i ch => i = k → ch.waveform = (sid.channel k).waveform ∧ ch.accumulator = 0)
        hc2 _ _ _ _ hb pa
      exact clockAt_inv
        (fun i ch => i = k → ch.waveform = (sid.channel k).waveform ∧ ch.accumulator = 0)
        hc2 _ _ _ _ hc pb
    · have pb := promote a b (h1 ▸ hb) qa
      exact clockAt_inv
        (fun i ch => i = k → ch.waveform = (sid.channel k).waveform ∧ ch.accumulator = 0)
        hc2 _ _ _ _ hc pb
    · exact promote b c (h2 ▸ hc) qb
  have qd := applySync_inv
    (fun i ch => i = k → ch.waveform = (sid.channel k).waveform ∧ ch.accumulator = 0)
    hr2 _ _ _ hd qc
  have qe := applySync_inv
    (fun i ch => i = k → ch.waveform = (sid.channel k).waveform ∧ ch.accumulator = 0)
    hr2 _ _ _ he qd
  exact applySync_inv
    (fun i ch => i = k → ch.waveform = (sid.channel k).waveform ∧ ch.accumulator = 0)
    hr2 _ _ _ hr qe k rfl

theorem bufferIter_test (p : mixParams) (s s1 : bufState) (k : Fin 3)
    (h : bufferIter p s = some s1) (ht : (s.sid.channel k).waveform &&& 0x08 ≠ 0) :
    (s1.sid.channel k).waveform = (s.sid.channel k).waveform ∧
      (s1.sid.channel k).accumulator = 0 := by
  obtain ⟨sid1, hsid1, _, hch, _⟩ := bufferIter_eq_some p s s1 h
  rw [hch k]
  exact clockAll_test _ _ _ k hsid1 ht

theorem bufferSamplesSid_test (curve : ℚ → ℚ) (sid : sid_t) (cpuCycles : Int)
    (regs : sidRegs_t) (out : Int → Int) (maxSamples : Int) (k : Fin 3) (r : bufState)
    (hc : 0 < cpuCycles) (hm : 0 < maxSamples)
    (ht : ((applyRegs sid regs).channel k).waveform &&& 0x08 ≠ 0)
    (h : bufferSamplesSid curve sid cpuCycles regs out maxSamples = some r) :
    (r.sid.channel k).accumulator = 0 := by
  unfold bufferSamplesSid at h
  rw [if_neg (by omega)] at h
  have hexit := bufferLoop_exit _ _ _ _ _ h
  have hinv := bufferLoop_inv _ _
    (fun s => (s.sid.channel k).waveform = ((applyRegs sid regs).channel k).waveform ∧
      ((s.cpuCycles = cpuCycles ∧ s.outIndex = 0) ∨ (s.sid.channel k).accumulator = 0))
    (fun s s1 _ _ hs hI => by
      have := bufferIter_test _ s s1 k hs (by rw [hI.1]; exact ht)
      exact ⟨this.1.trans hI.1, Or.inr this.2⟩) _ _ r h ⟨rfl, Or.inl ⟨rfl, rfl⟩⟩
  rcases hinv.2 with ⟨h1, h2⟩ | h0
  · exact absurd ⟨by omega, by omega⟩ hexit
  · exact h0

/-! ### The envelope does not read the frequency -/

theorem envelopeStep_frequency (ch : sidChannel_t) (f : Nat) :
    envelopeStep { ch with frequency := f } = { envelopeStep ch with frequency := f } := by
  obtain ⟨fr, ad, sr, pu, wf, ds, st, acc, ng, cnt, ec, vl, t, s⟩ := ch
  cases st <;> simp only [envelopeStep, expTarget] <;> split_ifs <;> rfl

theorem adsrIter_frequency (ch : sidChannel_t) (f : Nat) (c : Int) :
    adsrIter { ch with frequency := f } c =
      ({ (adsrIter ch c).1 with frequency := f }, (adsrIter ch c).2) := by
  have hr : adsrRate { ch with frequency := f } = adsrRate ch := rfl
  simp only [adsrIter, hr]
  split_ifs <;> first | rfl | (rw [← envelopeStep_frequency])

theorem adsrLoop_frequency (f : Nat) : ∀ (fuel : Nat) (ch : sidChannel_t) (c : Int),
    adsrLoop fuel { ch with frequency := f } c =
      (adsrLoop fuel ch c).map (fun y => { y with frequency := f }) := by
  intro fuel
  induction fuel with
  | zero =>
    intro ch c
    unfold adsrLoop
    split_ifs <;> rfl
  | succ n ih =>
    intro ch c
    unfold adsrLoop
    split_ifs
    · rw [adsrIter_frequency]
      exact ih _ _
    · rfl

theorem clockSidChannel_adsrPart (ch : sidChannel_t) (tw : Option Nat) (c : Int)
    (r : sidChannel_t) (h : clockSidChannel ch tw c = some r) :
    ∃ m, adsrLoop (c.toNat + 0x8000) (gateUpdate ch) c = some m ∧ adsrPart r = adsrPart m := by
  obtain ⟨m, hm, hr⟩ := clockSidChannel_eq_some ch tw c r h
  refine ⟨m, hm, ?_⟩
  have := clockAccumulator_envPart _ _ _ _ hr
  simp only [envPart, Prod.mk.injEq] at this
  simp only [adsrPart, Prod.mk.injEq]
  exact ⟨this.2.2.2.2.2.1, this.2.2.2.2.2.2.1, this.2.2.2.2.2.2.2.1, this.2.2.2.2.2.2.2.2.1⟩

/-! ### Attack from level 0 at rate index 0 -/

theorem adsrIter_attack_short (x : sidChannel_t) (c : Int) (hs : x.state = ATTACK)
    (had : x.ad >>> 4 = 0) (hcnt : x.adsrCounter < 9) (hc : 0 < c)
    (hlt : c < 9 - (x.adsrCounter : Int)) :
    adsrIter x c = ({ x with adsrCounter := x.adsrCounter + c.toNat }, 0) := by
  have hlt2 : c < ((9 : Nat) : Int) - x.adsrCounter := by push_cast; exact hlt
  have hk : (((x.adsrCounter : Int) + c) % 32768).toNat % 2 ^ 16 = x.adsrCounter + c.toNat := by
    omega
  have hne : ¬ (x.adsrCounter + c.toNat = 9) := by omega
  unfold adsrIter
  rw [adsrRate_attack_zero x hs had]
  simp only [if_pos hcnt, if_pos hlt2, hk, if_neg hne, sub_self]

theorem adsrIter_attack_full (x : sidChannel_t) (c : Int) (hs : x.state = ATTACK)
    (had : x.ad >>> 4 = 0) (hcnt : x.adsrCounter < 9)
    (hge : 9 - (x.adsrCounter : Int) ≤ c) :
    adsrIter x c =
      (envelopeStep { x with adsrCounter := 0 }, c - (9 - (x.adsrCounter : Int))) := by
  have hge2 : ¬ (c < 9 - (x.adsrCounter : Int)) := by omega
  have hk : (((x.adsrCounter : Int) + (9 - (x.adsrCounter : Int))) % 32768).toNat
      % 2 ^ 16 = 9 := by
    omega
  unfold adsrIter
  rw [adsrRate_attack_zero x hs had]
  simp only [if_pos hcnt, Nat.cast_ofNat, if_neg hge2, hk, if_true]

theorem envelopeStep_attack (x : sidChannel_t) (hs : x.state = ATTACK)
    (hv : x.volumeLevel < 0xff) :
    envelopeStep x =
      { x with adsrExpCounter := 0, volumeLevel := x.volumeLevel + 1,
               state := if x.volumeLevel + 1 = 0xff then DECAY else ATTACK } := by
  have hm : (x.volumeLevel + 1) % 256 = x.volumeLevel + 1 := by omega
  obtain ⟨fr, ad, sr, pu, wf, ds, st, acc, ng, cnt, ec, vl, t, s⟩ := x
  simp only at hs hv hm
  subst hs
  simp only [envelopeStep, hm]
  split_ifs <;> rfl

theorem attackOK_adsrIter (m : Int) (x : sidChannel_t) (c : Int) (h : attackOK m x)
    (hc : 0 < c) (hm : m + c ≤ 2295) :
    attackOK (m + c - (adsrIter x c).2) (adsrIter x c).1 ∧ 0 ≤ (adsrIter x c).2 ∧
      (adsrIter x c).2 < c := by
  obtain ⟨hg, had, hcnt, hsum, hst⟩ := h
  have hs : x.state = ATTACK := by
    rcases hst with ⟨_, hs⟩ | ⟨h1, _⟩
    · exact hs
    · omega
  by_cases hlt : c < 9 - (x.adsrCounter : Int)
  · rw [adsrIter_attack_short x c hs had hcnt hc hlt]
    refine ⟨⟨hg, had, ?_, ?_, Or.inl ⟨?_, hs⟩⟩, le_refl _, hc⟩
    · show x.adsrCounter + c.toNat < 9
      omega
    · show ((x.adsrCounter + c.toNat : Nat) : Int) + 9 * x.volumeLevel = m + c - 0
      omega
    · show m + c - 0 < 2295
      omega
  · have hv : x.volumeLevel < 0xff := by omega
    rw [adsrIter_attack_full x c hs had hcnt (by omega),
      envelopeStep_attack { x with adsrCounter := 0 } hs hv]
    refine ⟨⟨hg, had, by norm_num, ?_, ?_⟩, by show 0 ≤ c - (9 - (x.adsrCounter : Int)); omega,
      by show c - (9 - (x.adsrCounter : Int)) < c; omega⟩
    · show ((0 : Nat) : Int) + 9 * ((x.volumeLevel + 1 : Nat) : Int) =
        m + c - (c - (9 - (x.adsrCounter : Int)))
      omega
    · show (m + c - (c - (9 - (x.adsrCounter : Int))) < 2295 ∧
          (if x.volumeLevel + 1 = 0xff then DECAY else ATTACK) = ATTACK) ∨
        (m + c - (c - (9 - (x.adsrCounter : Int))) = 2295 ∧
          (if x.volumeLevel + 1 = 0xff then DECAY else ATTACK) = DECAY)
      by_cases hv2 : x.volumeLevel + 1 = 0xff
      · rw [if_pos hv2]
        exact Or.inr ⟨by omega, rfl⟩
      · rw [if_neg hv2]
        exact Or.inl ⟨by omega, rfl⟩

theorem attackOK_adsrLoop : ∀ (fuel : Nat) (m : Int) (x : sidChannel_t) (c : Int)
    (r : sidChannel_t), attackOK m x → 0 ≤ c → m + c ≤ 2295 →
    adsrLoop fuel x c = some r → attackOK (m + c) r := by
  intro fuel
  induction fuel with
  | zero =>
    intro m x c r h hc _ hr
    unfold adsrLoop at hr
    split_ifs at hr with hpos
    cases hr
    have : c = 0 := by omega
    rw [this, add_zero]
    exact h
  | succ n ih =>
    intro m x c r h hc hm hr
    unfold adsrLoop at hr
    split_ifs at hr with hpos
    · obtain ⟨h1, h2, h3⟩ := attackOK_adsrIter m x c h hpos hm
      have := ih _ _ _ r h1 h2 (by omega) hr
      rw [show m + c - (adsrIter x c).2 + (adsrIter x c).2 = m + c by ring] at this
      exact this
    · cases hr
      have : c = 0 := by omega
      rw [this, add_zero]
      exact h

theorem attackOK_clock (m : Int) (x : sidChannel_t) (tw : Option Nat) (c : Int)
    (r : sidChannel_t) (hg : attackOK m (gateUpdate x)) (hc : 0 ≤ c) (hm : m + c ≤ 2295)
    (h : clockSidChannel x tw c = some r) : attackOK (m + c) r := by
  obtain ⟨y, hy, hr⟩ := clockSidChannel_eq_some x tw c r h
  exact attackOK_of_envPart _ _ _ (clockAccumulator_envPart _ _ _ _ hr)
    (attackOK_adsrLoop _ m _ c y hg hc hm hy)

theorem attackOK_clockSeq (tw : Option Nat) : ∀ (cs : List Int) (m : Int) (x r : sidChannel_t),
    attackOK m x → (∀ c ∈ cs, 0 ≤ c) → m + cs.sum ≤ 2295 →
    clockSeq x tw cs = some r → attackOK (m + cs.sum) r := by
  intro cs
  induction cs with
  | nil =>
    intro m x r h _ _ hr
    simp only [clockSeq, Option.some.injEq] at hr
    rw [← hr, List.sum_nil, add_zero]
    exact h
  | cons c rest ih =>
    intro m x r h hpos hm hr
    simp only [clockSeq] at hr
    obtain ⟨y, hy, hrest⟩ := Option.bind_eq_some.mp hr
    rw [List.sum_cons] at hm ⊢
    have hc : 0 ≤ c := hpos c (List.mem_cons_self _ _)
    have hrest_pos : ∀ d ∈ rest, 0 ≤ d := fun d hd => hpos d (List.mem_cons_of_mem _ hd)
    have hsum : 0 ≤ rest.sum := List.sum_nonneg hrest_pos
    have h1 := attackOK_clock m x tw c y (attackOK_gateUpdate m x h) hc (by omega) hy
    have := ih (m + c) y r h1 hrest_pos (by omega) hrest
    rw [show m + (c + rest.sum) = m + c + rest.sum by ring]
    exact this

theorem clockSeq_total (w : Nat) : ∀ (cs : List Int) (x : sidChannel_t),
    x.accumulator < 2 ^ 24 → x.adsrCounter < 2 ^ 16 → ∃ r, clockSeq x (some w) cs = some r := by
  intro cs
  induction cs with
  | nil => exact fun x _ _ => ⟨x, rfl⟩
  | cons c rest ih =>
    intro x hacc hcnt
    obtain ⟨y, hy⟩ := clockSidChannel_total x w c hacc hcnt
    obtain ⟨r, hr⟩ := ih y (clockSidChannel_acc_lt _ _ _ _ hy hacc)
      (clockSidChannel_counter_lt _ _ _ _ hy hcnt)
    refine ⟨r, ?_⟩
    simp only [clockSeq, hy, Option.some_bind]
    exact hr

/-! ### The first crossing of accumulator bit 19 -/

theorem clockSidChannel_first_crossing (x : sidChannel_t) (w m : Nat) (c : Int)
    (hn : x.waveform &&& 0x80 ≠ 0) (ht : x.waveform &&& 0x08 = 0)
    (hf : x.frequency = 0x1000) (ha : x.accumulator = 0x1000 * m) (hm : m < 128)
    (hcnt : x.adsrCounter < 2 ^ 16) (hc : 0 < c) (hle : (m : Int) + c ≤ 383) :
    ∃ r, clockSidChannel x (some w) c = some r ∧
      (r.accumulator : Int) = 0x1000 * ((m : Int) + c) ∧
      r.noiseGenerator =
        if 128 ≤ (m : Int) + c then lfsrStep x.noiseGenerator else x.noiseGenerator := by
  obtain ⟨n, rfl⟩ : ∃ n : Nat, c = (n : Int) := ⟨c.toNat, (Int.toNat_of_nonneg (by omega)).symm⟩
  obtain ⟨y, hy⟩ := adsrLoop_total (gateUpdate x) (n : Int)
    (by rw [adsrCounter_gateUpdate]; exact hcnt)
  have h1 := oscPart_adsrLoop _ _ _ _ hy
  have h2 := oscPart_gateUpdate x
  simp only [oscPart, Prod.mk.injEq] at h1 h2
  obtain ⟨f1, _, _, _, w1, _, a1, n1, _⟩ := h1
  obtain ⟨f2, _, _, _, w2, _, a2, n2, _⟩ := h2
  obtain ⟨r, hr, hacc, hl⟩ := slowLoop_first_crossing y w m n (by rw [f1, f2]; exact hf)
    (by rw [a1, a2]; exact ha) hm (by rw [w1, w2]; exact hn) (by omega) (by omega)
  refine ⟨r, ?_, ?_, ?_⟩
  · unfold clockSidChannel
    rw [hy]
    simp only []
    unfold clockAccumulator
    rw [if_neg (by rw [w1, w2]; exact not_not.mpr ht), if_neg (by rw [f1, f2, hf]; norm_num)]
    simp only []
    rw [if_neg (fun hh => (by rw [w1, w2] at hh; exact hn hh.1)), Int.toNat_natCast]
    exact hr
  · rw [hacc]
    push_cast
    ring
  · rw [hl, n1, n2]
    by_cases h128 : 128 ≤ m + n
    · rw [if_pos h128, if_pos (by omega)]
    · rw [if_neg h128, if_neg (by omega)]

/-! ### The envelope floor -/

theorem adsrStates_inv (P : sidChannel_t → Prop)
    (hP : ∀ ch c, P ch → P (adsrIter ch c).1) :
    ∀ (fuel : Nat) (ch : sidChannel_t) (c : Int), P ch → ∀ x ∈ adsrStates fuel ch c, P x := by
  intro fuel
  induction fuel with
  | zero =>
    intro ch c hp x hx
    simp only [adsrStates, List.mem_singleton] at hx
    rw [hx]; exact hp
  | succ n ih =>
    intro ch c hp x hx
    unfold adsrStates at hx
    split_ifs at hx
    · rcases List.mem_cons.mp hx with rfl | hx
      · exact hp
      · exact ih _ _ (hP _ _ hp) x hx
    · simp only [List.mem_singleton] at hx
      rw [hx]; exact hp

theorem adsrStates_pairwise (P : sidChannel_t → Prop) (f : sidChannel_t → Nat)
    (hP : ∀ ch c, P ch → P (adsrIter ch c).1)
    (hf : ∀ ch c, P ch → f (adsrIter ch c).1 ≤ f ch) :
    ∀ (fuel : Nat) (ch : sidChannel_t) (c : Int), P ch →
      List.Pairwise (fun a b => f b ≤ f a) (adsrStates fuel ch c) := by
  intro fuel
  induction fuel with
  | zero =>
    intro ch c _
    simp only [adsrStates, List.pairwise_singleton]
  | succ n ih =>
    intro ch c hp
    unfold adsrStates
    split_ifs
    · refine List.pairwise_cons.mpr ⟨?_, ih _ _ (hP _ _ hp)⟩
      intro y hy
      exact (adsrStates_inv (fun y => P y ∧ f y ≤ f ch)
        (fun y d hy => ⟨hP y d hy.1, le_trans (hf y d hy.1) hy.2⟩) n _ _
        ⟨hP _ _ hp, hf _ _ hp⟩ y hy).2
    · exact List.pairwise_singleton _ _

theorem adsrStates_getLast : ∀ (fuel : Nat) (ch : sidChannel_t) (c : Int) (r : sidChannel_t),
    adsrLoop fuel ch c = some r → (adsrStates fuel ch c).getLast? = some r := by
  intro fuel
  induction fuel with
  | zero =>
    intro ch c r h
    unfold adsrLoop at h
    split_ifs at h
    cases h
    rfl
  | succ n ih =>
    intro ch c r h
    unfold adsrLoop at h
    unfold adsrStates
    split_ifs at h ⊢
    · have := ih _ _ r h
      rw [List.getLast?_cons, this]
      rfl
    · cases h
      rfl

theorem envelopeStep_decay (x : sidChannel_t) (hs : x.state = DECAY)
    (hv : x.volumeLevel < 256) :
    (envelopeStep x).state = DECAY ∧ (envelopeStep x).volumeLevel ≤ x.volumeLevel ∧
      (sustainLevels.getD (x.sr >>> 4) 0 ≤ x.volumeLevel →
        sustainLevels.getD (x.sr >>> 4) 0 ≤ (envelopeStep x).volumeLevel) := by
  obtain ⟨fr, ad, sr, pu, wf, ds, st, acc, ng, cnt, ec, vl, t, s⟩ := x
  simp only at hs hv
  subst hs
  simp only [envelopeStep]
  split_ifs with h1 h2
  · refine ⟨rfl, ?_, fun _ => ?_⟩
    · show (vl + 255) % 256 ≤ vl
      omega
    · show sustainLevels.getD (sr >>> 4) 0 ≤ (vl + 255) % 256
      have : sustainLevels.getD (sr >>> 4) 0 < vl := h2
      omega
  · exact ⟨rfl, le_refl _, fun h => h⟩
  · exact ⟨rfl, le_refl _, fun h => h⟩

theorem envelopeStep_release (x : sidChannel_t) (hs : x.state = RELEASE)
    (hv : x.volumeLevel < 256) :
    (envelopeStep x).volumeLevel ≤ x.volumeLevel := by
  obtain ⟨fr, ad, sr, pu, wf, ds, st, acc, ng, cnt, ec, vl, t, s⟩ := x
  simp only at hs hv
  subst hs
  simp only [envelopeStep]
  split_ifs with h1 h2
  · show (vl + 255) % 256 ≤ vl
    have : 0 < vl := h1
    omega
  · exact le_refl _
  · exact le_refl _

theorem sr_adsrIter (x : sidChannel_t) (c : Int) : (adsrIter x c).1.sr = x.sr := by
  have := oscPart_adsrIter x c
  simp only [oscPart, Prod.mk.injEq] at this
  exact this.2.2.1

theorem adsrIter_decay (x : sidChannel_t) (c : Int) (hs : x.state = DECAY)
    (hv : x.volumeLevel < 256) :
    (adsrIter x c).1.state = DECAY ∧ (adsrIter x c).1.volumeLevel ≤ x.volumeLevel ∧
      (sustainLevels.getD (x.sr >>> 4) 0 ≤ x.volumeLevel →
        sustainLevels.getD (x.sr >>> 4) 0 ≤ (adsrIter x c).1.volumeLevel) := by
  rcases adsrIter_fst_cases x c with ⟨k, hk⟩ | hk
  · rw [hk]; exact ⟨hs, le_refl _, fun h => h⟩
  · rw [hk]; exact envelopeStep_decay { x with adsrCounter := 0 } hs hv

theorem adsrIter_release (x : sidChannel_t) (c : Int) (hs : x.state = RELEASE)
    (hv : x.volumeLevel < 256) :
    (adsrIter x c).1.volumeLevel ≤ x.volumeLevel := by
  rcases adsrIter_fst_cases x c with ⟨k, hk⟩ | hk
  · rw [hk]
  · rw [hk]; exact envelopeStep_release { x with adsrCounter := 0 } hs hv

/-! ### The phase after a clock call -/

theorem clockSidChannel_phase (ch : sidChannel_t) (w : Nat) (cycles : Int)
    (hacc : ch.accumulator < 2 ^ 24) (hfreq : 0 < ch.frequency)
    (htest : ch.waveform &&& 0x08 = 0) (hc : 0 < cycles) (hc2 : cycles < 2 ^ 31)
    (hcnt : ch.adsrCounter < 2 ^ 16) :
    ∃ r, clockSidChannel ch (some w) cycles = some r ∧
      (r.accumulator : Int) = ((ch.accumulator : Int) + ch.frequency * cycles) % 2 ^ 24 := by
  obtain ⟨r, hr⟩ := clockSidChannel_total ch w cycles hacc hcnt
  refine ⟨r, hr, ?_⟩
  obtain ⟨m, hm, hmr⟩ := clockSidChannel_eq_some ch (some w) cycles r hr
  have h1 := oscPart_adsrLoop _ _ _ _ hm
  have h2 := oscPart_gateUpdate ch
  simp only [oscPart, Prod.mk.injEq] at h1 h2
  obtain ⟨f1, _, _, _, w1, _, a1, _⟩ := h1
  obtain ⟨f2, _, _, _, w2, _, a2, _⟩ := h2
  unfold clockAccumulator at hmr
  rw [if_neg (by rw [w1, w2]; exact not_not.mpr htest), if_neg (by rw [f1, f2]; omega)] at hmr
  simp only [] at hmr
  split_ifs at hmr
  · cases hmr
    show (((m.accumulator + (m.frequency * toUInt32 cycles) % 2 ^ 32) % 2 ^ 32 &&& 0xffffff
      : Nat) : Int) = _
    rw [fastPath_acc m.accumulator m.frequency cycles (by omega) (by omega), a1, a2, f1, f2]
  · rw [slowLoop_acc _ m w cycles r (by rw [a1, a2]; exact hacc) (by omega) (by omega) hmr,
      a1, a2, f1, f2]

/-! ### A stale `doSync` -/

theorem clockSidChannel_frame (ch : sidChannel_t) (tw : Option Nat) (c : Int)
    (r : sidChannel_t) (h : clockSidChannel ch tw c = some r)
    (hexit : ch.waveform &&& 0x08 ≠ 0 ∨ ch.frequency = 0 ∨
      (ch.waveform &&& 0x80 = 0 ∧ ∃ w, tw = some w ∧ w &&& 0x02 = 0)) :
    r.doSync = ch.doSync ∧ r.noiseGenerator = ch.noiseGenerator := by
  obtain ⟨m, hm, hmr⟩ := clockSidChannel_eq_some ch tw c r h
  have h1 := oscPart_adsrLoop _ _ _ _ hm
  have h2 := oscPart_gateUpdate ch
  simp only [oscPart, Prod.mk.injEq] at h1 h2
  obtain ⟨f1, _, _, _, w1, d1, _, n1, _⟩ := h1
  obtain ⟨f2, _, _, _, w2, d2, _, n2, _⟩ := h2
  have := clockAccumulator_frame m tw c r hmr (by rw [w1, w2, f1, f2]; exact hexit)
  rw [this.1, this.2, d1, d2, n1, n2]
  exact ⟨rfl, rfl⟩

theorem staleSync_clock (i j : Fin 3) (ch : sidChannel_t) (tw : Option Nat) (c : Int)
    (r : sidChannel_t) (h : clockSidChannel ch tw c = some r) (hq : staleSync i j ch) :
    staleSync i j r := by
  have hreg := clockSidChannel_regPart ch tw c r h
  simp only [regPart, Prod.mk.injEq] at hreg
  obtain ⟨e1, _, _, _, e5, e6, _⟩ := hreg
  refine ⟨fun hj => ?_, fun hj => by rw [e5]; exact hq.2 hj⟩
  obtain ⟨hd, hx, ht⟩ := hq.1 hj
  have := clockSidChannel_frame ch tw c r h
    (by rcases hx with hx | hx
        · exact Or.inl hx
        · exact Or.inr (Or.inl hx))
  exact ⟨by rw [this.1]; exact hd, by rw [e5, e1]; exact hx, by rw [e6]; exact ht⟩

theorem clockAll_stale (sid : sid_t) (n : Int) (r : sid_t) (i : Fin 3)
    (h : clockAll sid n = some r) (hall : ∀ j, staleSync i j (sid.channel j)) :
    (∀ j, staleSync i j (r.channel j)) ∧ (r.channel (i + 1)).accumulator = 0 := by
  unfold clockAll at h
  simp only [Option.bind_eq_some] at h
  obtain ⟨a, ha, b, hb, c, hc, d, hd, e, he, hr⟩ := h
  have hclock : ∀ (j : Fin 3) (ch : sidChannel_t) (tw : Option Nat) (k : Int) (x : sidChannel_t),
      clockSidChannel ch tw k = some x → staleSync i j ch → staleSync i j x :=
    fun j ch tw k x hx hq => staleSync_clock i j ch tw k x hx hq
  have qa := clockAt_inv (staleSync i) hclock _ _ _ _ ha hall
  have qb := clockAt_inv (staleSync i) hclock _ _ _ _ hb qa
  have qc := clockAt_inv (staleSync i) hclock _ _ _ _ hc qb
  have hreset1 : ∀ (j : Fin 3) (ch : sidChannel_t), staleSync i j ch →
      staleSync i j { ch with accumulator := 0 } := fun j ch hq => staleSync_reset i j ch hq
  have hreset2 : ∀ (j : Fin 3) (ch : sidChannel_t),
      (staleSync i j ch ∧ (j = i + 1 → ch.accumulator = 0)) →
      (staleSync i j { ch with accumulator := 0 } ∧ (j = i + 1 → (0 : Nat) = 0)) :=
    fun j ch hq => ⟨staleSync_reset i j ch hq.1, fun _ => rfl⟩
  have hk : i = 0 ∨ i = 1 ∨ i = 2 := by
    fin_cases i
    · exact Or.inl rfl
    · exact Or.inr (Or.inl rfl)
    · exact Or.inr (Or.inr rfl)
  have key : ∀ j, staleSync i j (r.channel j) ∧ (j = i + 1 → (r.channel j).accumulator = 0) := by
    rcases hk with h0 | h1 | h2
    · have pd := applySync_stale c i d (h0 ▸ hd) qc
      have pe := applySync_inv
        (fun j ch => staleSync i j ch ∧ (j = i + 1 → ch.accumulator = 0)) hreset2 _ _ _ he pd
      exact applySync_inv
        (fun j ch => staleSync i j ch ∧ (j = i + 1 → ch.accumulator = 0)) hreset2 _ _ _ hr pe
    · have qd := applySync_inv (staleSync i) hreset1 _ _ _ hd qc
      have pe := applySync_stale d i e (h1 ▸ he) qd
      exact applySync_inv
        (fun j ch => staleSync i j ch ∧ (j = i + 1 → ch.accumulator = 0)) hreset2 _ _ _ hr pe
    · have qd := applySync_inv (staleSync i) hreset1 _ _ _ hd qc
      have qe := applySync_inv (staleSync i) hreset1 _ _ _ he qd
      exact applySync_stale e i r (h2 ▸ hr) qe
  exact ⟨fun j => (key j).1, (key (i + 1)).2 rfl⟩

theorem bufferIter_stale (p : mixParams) (s s1 : bufState) (i : Fin 3)
    (h : bufferIter p s = some s1) (hall : ∀ j, staleSync i j (s.sid.channel j)) :
    (∀ j, staleSync i j (s1.sid.channel j)) ∧ (s1.sid.channel (i + 1)).accumulator = 0 := by
  obtain ⟨sid1, hsid1, _, hch, _⟩ := bufferIter_eq_some p s s1 h
  have := clockAll_stale _ _ _ i hsid1 hall
  exact ⟨fun j => by rw [hch j]; exact this.1 j, by rw [hch]; exact this.2⟩

theorem bufferSamplesSid_stale (curve : ℚ → ℚ) (sid : sid_t) (cpuCycles : Int)
    (regs : sidRegs_t) (out : Int → Int) (maxSamples : Int) (i : Fin 3) (r : bufState)
    (hc : 0 < cpuCycles) (hm : 0 < maxSamples)
    (hall : ∀ j, staleSync i j ((applyRegs sid regs).channel j))
    (h : bufferSamplesSid curve sid cpuCycles regs out maxSamples = some r) :
    (r.sid.channel i).doSync = true ∧ (r.sid.channel (i + 1)).accumulator = 0 := by
  unfold bufferSamplesSid at h
  rw [if_neg (by omega)] at h
  have hexit := bufferLoop_exit _ _ _ _ _ h
  have hinv := bufferLoop_inv _ _
    (fun s => (∀ j, staleSync i j (s.sid.channel j)) ∧
      ((s.cpuCycles = cpuCycles ∧ s.outIndex = 0) ∨ (s.sid.channel (i + 1)).accumulator = 0))
    (fun s s1 _ _ hs hI => by
      have := bufferIter_stale _ s s1 i hs hI.1
      exact ⟨this.1, Or.inr this.2⟩) _ _ r h ⟨hall, Or.inl ⟨rfl, rfl⟩⟩
  refine ⟨((hinv.1 i).1 rfl).1, ?_⟩
  rcases hinv.2 with ⟨h1, h2⟩ | h0
  · exact absurd ⟨by omega, by omega⟩ hexit
  · exact h0

/-! ### Splitting the cycles of the envelope loop -/

theorem adsrIter_def (x : sidChannel_t) (c : Int) :
    adsrIter x c =
      (if (((x.adsrCounter : Int) + (if c < adsrNeeded x then c else adsrNeeded x)) % 0x8000).toNat
            % 2 ^ 16 = adsrRate x then
          envelopeStep { x with adsrCounter := 0 }
        else
          { x with adsrCounter :=
              (((x.adsrCounter : Int) + (if c < adsrNeeded x then c else adsrNeeded x))
                % 0x8000).toNat % 2 ^ 16 },
        c - (if c < adsrNeeded x then c else adsrNeeded x)) := rfl

theorem adsrIter_below (x : sidChannel_t) (c : Int) (hcnt : x.adsrCounter < 0x8000)
    (hc : 0 < c) (hlt : c < adsrNeeded x) :
    adsrIter x c =
      ({ x with adsrCounter := (((x.adsrCounter : Int) + c) % 0x8000).toNat % 2 ^ 16 }, 0) := by
  have hr := adsrRate_le x
  have hne : ¬ ((((x.adsrCounter : Int) + c) % 0x8000).toNat % 2 ^ 16 = adsrRate x) := by
    unfold adsrNeeded at hlt
    split_ifs at hlt <;> omega
  rw [adsrIter_def, if_pos hlt, if_neg hne, sub_self]

theorem adsrIter_full (x : sidChannel_t) (c : Int) (hcnt : x.adsrCounter < 0x8000)
    (hge : adsrNeeded x ≤ c) :
    adsrIter x c = (envelopeStep { x with adsrCounter := 0 }, c - adsrNeeded x) := by
  have hr := adsrRate_le x
  have heq : (((x.adsrCounter : Int) + adsrNeeded x) % 0x8000).toNat % 2 ^ 16 = adsrRate x := by
    unfold adsrNeeded
    split_ifs <;> omega
  have hnl : ¬ (c < adsrNeeded x) := by omega
  rw [adsrIter_def, if_neg hnl, if_pos heq]

theorem adsrIter_compose (x : sidChannel_t) (a b : Int) (hcnt : x.adsrCounter < 0x8000)
    (ha : 0 < a) (hlt : a < adsrNeeded x) (hb : 0 < b) :
    adsrIter { x with adsrCounter := (((x.adsrCounter : Int) + a) % 0x8000).toNat % 2 ^ 16 } b
      = adsrIter x (a + b) := by
  have hn := adsrNeeded_below x a hcnt ha hlt
  have hcnt2 : (((x.adsrCounter : Int) + a) % 0x8000).toNat % 2 ^ 16 < 0x8000 := by omega
  by_cases hcase : b < adsrNeeded x - a
  · rw [adsrIter_below _ b hcnt2 hb (by rw [hn]; exact hcase),
      adsrIter_below x (a + b) hcnt (by omega) (by omega)]
    have hk : (((((((x.adsrCounter : Int) + a) % 0x8000).toNat % 2 ^ 16 : Nat) : Int) + b) % 0x8000).toNat % 2 ^ 16
        = (((x.adsrCounter : Int) + (a + b)) % 0x8000).toNat % 2 ^ 16 := by
      omega
    exact congrArg (fun k => (({ x with adsrCounter := k } : sidChannel_t), (0 : Int))) hk
  · rw [adsrIter_full _ b hcnt2 (by rw [hn]; omega), adsrIter_full x (a + b) hcnt (by omega), hn]
    refine Prod.ext rfl ?_
    show b - (adsrNeeded x - a) = a + b - adsrNeeded x
    ring

theorem adsrLoop_mono : ∀ (f : Nat) (x : sidChannel_t) (c : Int) (r : sidChannel_t),
    adsrLoop f x c = some r → ∀ g, f ≤ g → adsrLoop g x c = some r := by
  intro f
  induction f with
  | zero =>
    intro x c r h g _
    unfold adsrLoop at h
    split_ifs at h with hpos
    cases h
    cases g <;> (unfold adsrLoop; rw [if_neg hpos])
  | succ n ih =>
    intro x c r h g hg
    obtain ⟨g, rfl⟩ : ∃ k, g = k + 1 := ⟨g - 1, by omega⟩
    unfold adsrLoop at h ⊢
    split_ifs at h ⊢ with hpos
    · exact ih _ _ r h g (by omega)
    · exact h

theorem adsrLoop_det (f g : Nat) (x : sidChannel_t) (c : Int) (r s : sidChannel_t)
    (h1 : adsrLoop f x c = some r) (h2 : adsrLoop g x c = some s) : r = s := by
  have a := adsrLoop_mono f x c r h1 (max f g) (le_max_left _ _)
  have b := adsrLoop_mono g x c s h2 (max f g) (le_max_right _ _)
  rw [a] at b
  exact Option.some.inj b

theorem adsrLoop_zero_cycles (f : Nat) (x : sidChannel_t) (c : Int) (hc : c ≤ 0) :
    adsrLoop f x c = some x := by
  cases f <;> (unfold adsrLoop; rw [if_neg (by omega)])

theorem adsrLoop_split : ∀ (n : Nat) (x : sidChannel_t) (a b : Int),
    x.adsrCounter < 0x8000 → 0 ≤ a → 0 ≤ b → a + b ≤ n →
    ∃ y r, adsrLoop n x a = some y ∧ adsrLoop n y b = some r ∧
      adsrLoop n x (a + b) = some r ∧ y.adsrCounter < 0x8000 := by
  intro n
  induction n with
  | zero =>
    intro x a b hcnt ha hb hab
    simp only [Nat.cast_zero] at hab
    exact ⟨x, x, adsrLoop_zero_cycles _ _ _ (by omega), adsrLoop_zero_cycles _ _ _ (by omega),
      adsrLoop_zero_cycles _ _ _ (by omega), hcnt⟩
  | succ n ih =>
    intro x a b hcnt ha hb hab
    push_cast at hab
    by_cases ha0 : a = 0
    · subst ha0
      obtain ⟨r, hr⟩ := adsrLoop_total_aux (n + 1) x b hcnt (by push_cast; omega)
      refine ⟨x, r, adsrLoop_zero_cycles _ _ _ (le_refl _), hr, ?_, hcnt⟩
      rw [zero_add]
      exact hr
    · have hapos : 0 < a := by omega
      have hnd := adsrNeeded_pos x hcnt
      by_cases hfull : adsrNeeded x ≤ a
      · have hcnt1 : (envelopeStep { x with adsrCounter := 0 }).adsrCounter < 0x8000 := by
          rw [adsrCounter_envelopeStep]
          norm_num
        obtain ⟨y, r, hy, hr, hyr, hyc⟩ := ih (envelopeStep { x with adsrCounter := 0 })
          (a - adsrNeeded x) b hcnt1 (by omega) hb (by omega)
        refine ⟨y, r, ?_, adsrLoop_mono _ _ _ _ hr _ (Nat.le_succ n), ?_, hyc⟩
        · unfold adsrLoop
          rw [if_pos hapos, adsrIter_full x a hcnt hfull]
          exact hy
        · unfold adsrLoop
          rw [if_pos (by omega), adsrIter_full x (a + b) hcnt (by omega)]
          rw [show a + b - adsrNeeded x = a - adsrNeeded x + b by ring]
          exact hyr
      · have hlt : a < adsrNeeded x := by omega
        have hcnt2 : (((x.adsrCounter : Int) + a) % 0x8000).toNat % 2 ^ 16 < 0x8000 := by omega
        have hy : adsrLoop (n + 1) x a = some
            { x with adsrCounter := (((x.adsrCounter : Int) + a) % 0x8000).toNat % 2 ^ 16 } := by
          unfold adsrLoop
          rw [if_pos hapos, adsrIter_below x a hcnt hapos hlt]
          exact adsrLoop_zero_cycles _ _ _ (le_refl _)
        obtain ⟨r, hr⟩ := adsrLoop_total_aux (n + 1)
          { x with adsrCounter := (((x.adsrCounter : Int) + a) % 0x8000).toNat % 2 ^ 16 } b
          hcnt2 (by push_cast; omega)
        refine ⟨_, r, hy, hr, ?_, hcnt2⟩
        by_cases hb0 : b = 0
        · subst hb0
          rw [adsrLoop_zero_cycles _ _ _ (le_refl _)] at hr
          rw [add_zero, hy]
          exact hr
        · have hbpos : 0 < b := by omega
          unfold adsrLoop at hr ⊢
          rw [if_pos hbpos, adsrIter_compose x a b hcnt hapos hlt hbpos] at hr
          rw [if_pos (by omega)]
          exact hr

theorem envelopeStep_osc (ch : sidChannel_t) (A G : Nat) (D : Bool) :
    envelopeStep { ch with accumulator := A, noiseGenerator := G, doSync := D } =
      { envelopeStep ch with accumulator := A, noiseGenerator := G, doSync := D } := by
  obtain ⟨fr, ad, sr, pu, wf, ds, st, acc, ng, cnt, ec, vl, t, s⟩ := ch
  cases st <;> simp only [envelopeStep, expTarget] <;> split_ifs <;> rfl

theorem adsrIter_osc (ch : sidChannel_t) (A G : Nat) (D : Bool) (c : Int) :
    adsrIter { ch with accumulator := A, noiseGenerator := G, doSync := D } c =
      ({ (adsrIter ch c).1 with accumulator := A, noiseGenerator := G, doSync := D },
        (adsrIter ch c).2) := by
  have hr : adsrRate { ch with accumulator := A, noiseGenerator := G, doSync := D }
      = adsrRate ch := rfl
  simp only [adsrIter, hr]
  split_ifs <;> first | rfl | (rw [← envelopeStep_osc])

theorem adsrLoop_osc (A G : Nat) (D : Bool) : ∀ (fuel : Nat) (ch : sidChannel_t) (c : Int),
    adsrLoop fuel { ch with accumulator := A, noiseGenerator := G, doSync := D } c =
      (adsrLoop fuel ch c).map
        (fun y => { y with accumulator := A, noiseGenerator := G, doSync := D }) := by
  intro fuel
  induction fuel with
  | zero =>
    intro ch c
    unfold adsrLoop
    split_ifs <;> rfl
  | succ n ih =>
    intro ch c
    unfold adsrLoop
    split_ifs
    · rw [adsrIter_osc]
      exact ih _ _
    · rfl

theorem gateUpdate_adsrIter (x : sidChannel_t) (c : Int) (h : gateUpdate x = x) :
    gateUpdate (adsrIter x c).1 = (adsrIter x c).1 := by
  have hw : (adsrIter x c).1.waveform = x.waveform := by
    have := oscPart_adsrIter x c
    simp only [oscPart, Prod.mk.injEq] at this
    exact this.2.2.2.2.1
  by_cases hg : x.waveform &&& 0x01 ≠ 0
  · have hs : x.state ≠ RELEASE := by
      rw [← h]
      exact gateUpdate_state_of_set x hg
    exact gateUpdate_of_set _ (by rw [hw]; exact hg) (adsrIter_state_ne_release x c hs)
  · have hg2 : x.waveform &&& 0x01 = 0 := not_not.mp hg
    have hs : x.state = RELEASE := by
      rw [← h, gateUpdate_of_clear x hg2]
    have hs2 := adsrIter_state_release x c hs
    rw [gateUpdate_of_clear _ (by rw [hw]; exact hg2)]
    generalize (adsrIter x c).1 = y at hs2
    obtain ⟨fr, ad, sr, pu, wf, ds, st, acc, ng, cnt, ec, vl, t, s⟩ := y
    simp only at hs2
    subst hs2
    rfl

theorem gateUpdate_adsrLoop (fuel : Nat) (x : sidChannel_t) (c : Int) (r : sidChannel_t)
    (h : adsrLoop fuel x c = some r) (hx : gateUpdate x = x) : gateUpdate r = r :=
  adsrLoop_inv (fun y => gateUpdate y = y) (fun y d hy => gateUpdate_adsrIter y d hy)
    fuel x c r h hx

theorem clockSidChannel_counter15 (ch : sidChannel_t) (tw : Option Nat) (c : Int)
    (r : sidChannel_t) (h : clockSidChannel ch tw c = some r)
    (hc : ch.adsrCounter < 0x8000) : r.adsrCounter < 0x8000 :=
  clockSidChannel_state (fun x => x.adsrCounter < 0x8000)
    (fun x c _ => adsrIter_counter_lt x c)
    (fun a b hab hb => by
      simp only [envPart, Prod.mk.injEq] at hab
      rw [hab.2.2.2.2.2.2.1]
      exact hb) ch tw c r h
    (by show (gateUpdate ch).adsrCounter < 0x8000; rw [adsrCounter_gateUpdate]; exact hc)

theorem clockSidChannel_split (ch : sidChannel_t) (tw1 tw2 tw3 : Option Nat) (a b : Int)
    (r1 r2 r : sidChannel_t) (hcnt : ch.adsrCounter < 0x8000) (ha : 0 ≤ a) (hb : 0 ≤ b)
    (h1 : clockSidChannel ch tw1 a = some r1) (h2 : clockSidChannel r1 tw2 b = some r2)
    (h3 : clockSidChannel ch tw3 (a + b) = some r) : adsrPart r = adsrPart r2 := by
  obtain ⟨m1, hm1, e1⟩ := clockSidChannel_eq_some ch tw1 a r1 h1
  have henv1 := clockAccumulator_envPart _ _ _ _ e1
  obtain ⟨m2, hm2, hp2⟩ := clockSidChannel_adsrPart r1 tw2 b r2 h2
  obtain ⟨m, hm, hp⟩ := clockSidChannel_adsrPart ch tw3 (a + b) r h3
  have hgm1 : gateUpdate m1 = m1 := gateUpdate_adsrLoop _ _ _ _ hm1 (gateUpdate_gateUpdate ch)
  obtain ⟨A, G, D, hr1⟩ : ∃ A G D, r1 =
      { m1 with accumulator := A, noiseGenerator := G, doSync := D } :=
    ⟨_, _, _, eq_of_envPart r1 m1 henv1⟩
  rw [hr1, gateUpdate_osc, hgm1, adsrLoop_osc] at hm2
  obtain ⟨m2', hm2', hf⟩ := Option.map_eq_some'.mp hm2
  have hpm2 : adsrPart m2 = adsrPart m2' := by rw [← hf]; rfl
  obtain ⟨y, r', hy, hr', hyr, _⟩ := adsrLoop_split ((a + b).toNat + 0x8000) (gateUpdate ch) a b
    (by rw [adsrCounter_gateUpdate]; exact hcnt) ha hb
    (by have := Int.self_le_toNat (a + b); push_cast; omega)
  have e_y : y = m1 := adsrLoop_det _ _ _ _ _ _ hy hm1
  rw [e_y] at hr'
  have e_r : r' = m2' := adsrLoop_det _ _ _ _ _ _ hr' hm2'
  have e_m : r' = m := adsrLoop_det _ _ _ _ _ _ hyr hm
  rw [hp, hp2, hpm2, ← e_m, e_r]

theorem clockRepeat_total (w : Nat) : ∀ (n : Nat) (ch : sidChannel_t),
    ch.accumulator < 2 ^ 24 → ch.adsrCounter < 2 ^ 16 →
    ∃ r, clockRepeat n ch (some w) = some r := by
  intro n
  induction n with
  | zero => exact fun ch _ _ => ⟨ch, rfl⟩
  | succ n ih =>
    intro ch hacc hcnt
    obtain ⟨y, hy⟩ := clockSidChannel_total ch w 1 hacc hcnt
    obtain ⟨r, hr⟩ := ih y (clockSidChannel_acc_lt _ _ _ _ hy hacc)
      (clockSidChannel_counter_lt _ _ _ _ hy hcnt)
    refine ⟨r, ?_⟩
    simp only [clockRepeat, hy, Option.some_bind]
    exact hr

theorem clockRepeat_adsrPart (w : Nat) : ∀ (n : Nat) (ch r r2 : sidChannel_t),
    ch.adsrCounter < 0x8000 → ch.accumulator < 2 ^ 24 →
    clockRepeat (n + 1) ch (some w) = some r →
    clockSidChannel ch (some w) ((n + 1 : Nat) : Int) = some r2 → adsrPart r = adsrPart r2 := by
  intro n
  induction n with
  | zero =>
    intro ch r r2 _ _ h h2
    simp only [clockRepeat] at h
    obtain ⟨r1, hr1, hin⟩ := Option.bind_eq_some.mp h
    cases hin
    have h2' : clockSidChannel ch (some w) 1 = some r2 := h2
    rw [hr1] at h2'
    cases h2'
    rfl
  | succ n ih =>
    intro ch r r2 hcnt hacc h h2
    simp only [clockRepeat] at h
    obtain ⟨r1, hr1, hR⟩ := Option.bind_eq_some.mp h
    have hcnt1 := clockSidChannel_counter15 _ _ _ _ hr1 hcnt
    have hacc1 := clockSidChannel_acc_lt _ _ _ _ hr1 hacc
    obtain ⟨r3, hr3⟩ := clockSidChannel_total r1 w ((n + 1 : Nat) : Int) hacc1 (by omega)
    have hih := ih r1 r r3 hcnt1 hacc1 (by simpa only [clockRepeat] using hR) hr3
    have hcast : ((n + 1 + 1 : Nat) : Int) = 1 + ((n + 1 : Nat) : Int) := by
      push_cast
      ring
    rw [hcast] at h2
    have := clockSidChannel_split ch (some w) (some w) (some w) 1 ((n + 1 : Nat) : Int)
      r1 r3 r2 hcnt (by norm_num) (by omega) hr1 hr3 h2
    rw [hih, this]

end Lemmas

/-! ## Properties of the specification -/

/-! ### C1 -/

/-- C1, as stated, fails for a negative capacity: with `maxSamples = -1` the call returns
0, which is not `≤ maxSamples`. -/
theorem C1_counterexample :
    ∃ r, @bufferSamplesSid zeroPast (fun _ => 0) (sidInit blankSid) 1000 zeroRegs (fun _ => 0) (-1) = some r ∧
      r.outIndex = 0 ∧ ¬ (0 ≤ r.outIndex ∧ r.outIndex ≤ -1) :=
  ⟨_, rfl, rfl, by decide⟩

section

variable [PastTable]

/-- C1 (amended): for every chip state, register snapshot, `cpuCycles` and `maxSamples`,
the count `n` returned by `bufferSamplesSid` satisfies `0 ≤ n ≤ max(maxSamples, 0)`
(so `n ≤ maxSamples` whenever `maxSamples ≥ 0`), the call stores to the indices
`0, 1, ..., n-1` once each in increasing order and leaves every other buffer cell
unchanged; and on every well-formed chip the call does return. -/
theorem C1_count_bounded (curve : ℚ → ℚ) (sid : sid_t) (cpuCycles : Int) (regs : sidRegs_t)
    (out : Int → Int) (maxSamples : Int) :
    (∀ r, bufferSamplesSid curve sid cpuCycles regs out maxSamples = some r →
      0 ≤ r.outIndex ∧ r.outIndex ≤ max maxSamples 0 ∧
      r.written = indicesUpTo r.outIndex ∧
      ∀ j, (j < 0 ∨ r.outIndex ≤ j) → r.out j = out j) ∧
    (sidOK sid → ∃ r, bufferSamplesSid curve sid cpuCycles regs out maxSamples = some r) := by
  constructor
  · intro r hr
    unfold bufferSamplesSid at hr
    split_ifs at hr with hg
    · cases hr
      exact ⟨le_refl _, le_max_right _ _, rfl, fun _ _ => rfl⟩
    · have hm : 0 < maxSamples := by omega
      have hinv := bufferLoop_inv (regParams curve regs) maxSamples
        (fun s => 0 ≤ s.outIndex ∧ s.outIndex ≤ maxSamples ∧ s.written = indicesUpTo s.outIndex ∧
          ∀ j, (j < 0 ∨ s.outIndex ≤ j) → s.out j = out j)
        (fun s s1 _ hidx h hI => bufferIter_bookkeeping _ maxSamples out s s1 hidx h hI)
        _ _ r hr ⟨le_refl _, le_of_lt hm, rfl, fun _ _ => rfl⟩
      exact ⟨hinv.1, le_trans hinv.2.1 (le_max_left _ _), hinv.2.2.1, hinv.2.2.2⟩
  · intro hok
    obtain ⟨r, hr, _⟩ := bufferSamplesSid_total curve sid cpuCycles regs out maxSamples hok
    exact ⟨r, hr⟩

end

/-- Witness for C1: the freshly initialised chip, 1000 cycles, capacity 100. -/
theorem C1_count_bounded_witness :
    sidOK (sidInit blankSid) ∧
    ∃ r, @bufferSamplesSid zeroPast (fun _ => 0) (sidInit blankSid) 1000 zeroRegs (fun _ => 0) 100 = some r ∧
      0 ≤ r.outIndex ∧ r.outIndex ≤ max 100 0 ∧
      r.written = indicesUpTo r.outIndex ∧
      ∀ j, (j < 0 ∨ r.outIndex ≤ j) → r.out j = (fun _ => 0) j := by
  refine ⟨sidOK_sidInit blankSid, ?_⟩
  obtain ⟨r, hr⟩ :=
    (@C1_count_bounded zeroPast (fun _ => 0) (sidInit blankSid) 1000 zeroRegs (fun _ => 0) 100).2
      (sidOK_sidInit blankSid)
  exact ⟨r, hr,
    (@C1_count_bounded zeroPast (fun _ => 0) (sidInit blankSid) 1000 zeroRegs (fun _ => 0) 100).1 r hr⟩

/-! ### C2 -/

section

variable [PastTable]

/-- C2: if `cpuCycles ≤ 0` or `maxSamples ≤ 0`, `bufferSamplesSid` returns 0 and leaves
the whole chip state and the output buffer unchanged (and stores nothing). -/
theorem C2_nonpositive_noop (curve : ℚ → ℚ) (sid : sid_t) (cpuCycles : Int)
    (regs : sidRegs_t) (out : Int → Int) (maxSamples : Int)
    (h : cpuCycles ≤ 0 ∨ maxSamples ≤ 0) :
    ∃ r, bufferSamplesSid curve sid cpuCycles regs out maxSamples = some r ∧
      r.outIndex = 0 ∧ r.sid = sid ∧ r.out = out ∧ r.written = [] := by
  unfold bufferSamplesSid
  rw [if_pos h]
  exact ⟨_, rfl, rfl, rfl, rfl, rfl⟩

end

/-- Witness for C2: zero cycles on the freshly initialised chip. -/
theorem C2_nonpositive_noop_witness :
    ((0 : Int) ≤ 0 ∨ (100 : Int) ≤ 0) ∧
    ∃ r, @bufferSamplesSid zeroPast (fun _ => 0) (sidInit blankSid) 0 zeroRegs (fun _ => 0) 100 = some r ∧
      r.outIndex = 0 ∧ r.sid = sidInit blankSid ∧ r.out = (fun _ => 0) ∧ r.written = [] :=
  ⟨Or.inl (le_refl _),
   @C2_nonpositive_noop zeroPast (fun _ => 0) (sidInit blankSid) 0 zeroRegs (fun _ => 0) 100
     (Or.inl (le_refl _))⟩

/-! ### C3 -/

section

variable [PastTable]

/-- C3: from the state produced by `sidInit`, one call with an all-zero register snapshot,
`cpuCycles = 1000` and `maxSamples = 100` returns 44 or 45 and every sample written is 0;
and for all positive `cpuCycles` and `maxSamples` every emitted sample is 0. -/
theorem C3_silent (curve : ℚ → ℚ) (sid : sid_t) (out : Int → Int) :
    (∃ r, bufferSamplesSid curve (sidInit sid) 1000 zeroRegs out 100 = some r ∧
      (r.outIndex = 44 ∨ r.outIndex = 45) ∧ ∀ j, 0 ≤ j → j < r.outIndex → r.out j = 0) ∧
    (∀ cpuCycles maxSamples : Int, 0 < cpuCycles → 0 < maxSamples →
      ∃ r, bufferSamplesSid curve (sidInit sid) cpuCycles zeroRegs out maxSamples = some r ∧
        ∀ j, 0 ≤ j → j < r.outIndex → r.out j = 0) := by
  refine ⟨?_, fun c m hc hm => silent_samples_zero curve sid out c m hc hm⟩
  obtain ⟨r, hr, hzero⟩ := silent_samples_zero curve sid out 1000 100 (by norm_num) (by norm_num)
  obtain ⟨r', hr', hloop⟩ := bufferSamplesSid_pos curve (sidInit sid) 1000 zeroRegs out
    100 (sidOK_sidInit sid) (by norm_num) (by norm_num)
  rw [hr] at hr'
  cases hr'
  refine ⟨r, hr, Or.inl ?_, hzero⟩
  have hexit := bufferLoop_exit _ _ _ _ _ hloop
  have hbook := bufferLoop_inv (regParams curve zeroRegs) 100
    (fun s => 0 ≤ s.outIndex ∧ s.outIndex ≤ 100 ∧ s.written = indicesUpTo s.outIndex ∧
      ∀ j, (j < 0 ∨ s.outIndex ≤ j) → s.out j = out j)
    (fun s s1 _ hidx h hI => bufferIter_bookkeeping _ 100 out s s1 hidx h hI)
    _ _ r hloop ⟨le_refl _, by norm_num, rfl, fun _ _ => rfl⟩
  have hpace := bufferLoop_pace (regParams curve zeroRegs) 100 (156 / 7) 1000 (by norm_num)
    _ _ r hloop
    ⟨cyclesPerSample_sidInit sid, le_refl _, by norm_num [applyRegs, sidInit],
     by norm_num, by norm_num [applyRegs, sidInit]⟩
  obtain ⟨_, ha0, ha1, hcpu, hK⟩ := hpace
  obtain ⟨hn0, hn1, _, _⟩ := hbook
  have hcpuQ : (0 : ℚ) ≤ (r.cpuCycles : ℚ) := by exact_mod_cast hcpu
  have hn0Q : (0 : ℚ) ≤ (r.outIndex : ℚ) := by exact_mod_cast hn0
  by_cases hpos : 0 < r.cpuCycles
  · have hn : r.outIndex = 100 := by
      have : ¬ r.outIndex < 100 := fun h => hexit ⟨hpos, h⟩
      omega
    rw [hn] at hK
    push_cast at hK
    linarith
  · have hz : r.cpuCycles = 0 := by omega
    rw [hz] at hK
    push_cast at hK
    have e1 : ((7000 - 156 * r.outIndex : Int) : ℚ) = 7 * r.sid.cycleAccumulator := by
      push_cast; linarith
    have l1 : (0 : ℚ) ≤ ((7000 - 156 * r.outIndex : Int) : ℚ) := by rw [e1]; linarith
    have l2 : ((7000 - 156 * r.outIndex : Int) : ℚ) < ((156 : Int) : ℚ) := by
      rw [e1]; push_cast; linarith
    have l1' : (0 : Int) ≤ 7000 - 156 * r.outIndex := by exact_mod_cast l1
    have l2' : 7000 - 156 * r.outIndex < (156 : Int) := by exact_mod_cast l2
    omega

end

/-- Witness for C3: the general part at 23 cycles and capacity 1. -/
theorem C3_silent_witness :
    (0 : Int) < 23 ∧ (0 : Int) < 1 ∧
    ∃ r, @bufferSamplesSid zeroPast (fun _ => 0) (sidInit blankSid) 23 zeroRegs (fun _ => 7) 1 = some r ∧
      ∀ j, 0 ≤ j → j < r.outIndex → r.out j = 0 :=
  ⟨by norm_num, by norm_num,
   (@C3_silent zeroPast (fun _ => 0) blankSid (fun _ => 7)).2 23 1 (by norm_num) (by norm_num)⟩

/-! ### C4 -/

section

variable [PastTable]

/-- C4: with `cyclesPerSample = 156/7` and `0 ≤ cycleAccumulator < cyclesPerSample`,
every outer-loop step taken with cycles left consumes at least 1 cycle, emits at most one
sample and re-establishes `0 ≤ cycleAccumulator < cyclesPerSample` (so the bounds hold
after every emission), and the same bounds hold when `bufferSamplesSid` returns; on a
well-formed chip the step and the call do return. -/
theorem C4_pacing (curve : ℚ → ℚ) (sid : sid_t) (regs : sidRegs_t) (out : Int → Int)
    (hcps : sid.cyclesPerSample = 156 / 7)
    (h0 : 0 ≤ sid.cycleAccumulator) (h1 : sid.cycleAccumulator < 156 / 7) :
    (∀ (p : mixParams) (cpuCycles outIndex : Int) (written : List Int) (s1 : bufState),
      0 < cpuCycles →
      bufferIter p { sid := sid, out := out, outIndex := outIndex,
                     cpuCycles := cpuCycles, written := written } = some s1 →
      s1.cpuCycles + 1 ≤ cpuCycles ∧
        (s1.outIndex = outIndex ∨ s1.outIndex = outIndex + 1) ∧
        s1.sid.cyclesPerSample = 156 / 7 ∧
        0 ≤ s1.sid.cycleAccumulator ∧ s1.sid.cycleAccumulator < 156 / 7) ∧
    (∀ (cpuCycles maxSamples : Int) (r : bufState),
      bufferSamplesSid curve sid cpuCycles regs out maxSamples = some r →
      r.sid.cyclesPerSample = 156 / 7 ∧
        0 ≤ r.sid.cycleAccumulator ∧ r.sid.cycleAccumulator < 156 / 7) ∧
    (sidOK sid →
      (∀ (p : mixParams) (cpuCycles outIndex : Int) (written : List Int),
        ∃ s1, bufferIter p { sid := sid, out := out, outIndex := outIndex,
                             cpuCycles := cpuCycles, written := written } = some s1) ∧
      (∀ cpuCycles maxSamples : Int,
        ∃ r, bufferSamplesSid curve sid cpuCycles regs out maxSamples = some r)) := by
  refine ⟨?_, ?_, ?_⟩
  · intro p cpuCycles outIndex written s1 hc hs1
    obtain ⟨a, _, b, c, d, e, _⟩ := bufferIter_pace p _ s1 hs1 hc
      (by simp only [hcps]; norm_num) h0 (by simp only [hcps]; exact h1)
    exact ⟨a, b, by rw [c]; exact hcps, d, by rw [← hcps, ← c]; exact e⟩
  · intro cpuCycles maxSamples r hr
    unfold bufferSamplesSid at hr
    split_ifs at hr with hg
    · cases hr
      exact ⟨hcps, h0, h1⟩
    · have hpace := bufferLoop_pace (regParams curve regs) maxSamples (156 / 7)
        (sid.cycleAccumulator + (cpuCycles : ℚ)) (by norm_num) _ _ r hr
        ⟨hcps, h0, h1, by simp only []; omega, by simp [applyRegs]⟩
      exact ⟨hpace.1, hpace.2.1, hpace.2.2.1⟩
  · intro hok
    refine ⟨fun p cpuCycles outIndex written =>
      bufferIter_total p ⟨sid, out, outIndex, cpuCycles, written⟩ hok, ?_⟩
    intro cpuCycles maxSamples
    obtain ⟨r, hr, _⟩ := bufferSamplesSid_total curve sid cpuCycles regs out maxSamples hok
    exact ⟨r, hr⟩

end

/-- Witness for C4: the freshly initialised chip, 1000 cycles, capacity 100. -/
theorem C4_pacing_witness :
    (sidInit blankSid).cyclesPerSample = 156 / 7 ∧
    0 ≤ (sidInit blankSid).cycleAccumulator ∧ (sidInit blankSid).cycleAccumulator < 156 / 7 ∧
    sidOK (sidInit blankSid) ∧
    ∃ r, @bufferSamplesSid zeroPast (fun _ => 0) (sidInit blankSid) 1000 zeroRegs (fun _ => 0) 100 = some r ∧
      r.sid.cyclesPerSample = 156 / 7 ∧
      0 ≤ r.sid.cycleAccumulator ∧ r.sid.cycleAccumulator < 156 / 7 := by
  have key := @C4_pacing zeroPast (fun _ => 0) (sidInit blankSid) zeroRegs (fun _ => 0)
    (cyclesPerSample_sidInit blankSid) (le_refl _) (by norm_num [sidInit])
  refine ⟨cyclesPerSample_sidInit blankSid, le_refl _, by norm_num [sidInit],
    sidOK_sidInit blankSid, ?_⟩
  obtain ⟨r, hr⟩ := (key.2.2 (sidOK_sidInit blankSid)).2 1000 100
  exact ⟨r, hr, key.2.1 1000 100 r hr⟩

/-! ### C5 -/

section

variable [PastTable]

/-- C5: `clockSidChannel` keeps `accumulator < 2^24` on every path; if all three voices
have `accumulator < 2^24` before a `bufferSamplesSid` call they have it after the call,
for every register snapshot and all counts; a call on a well-formed chip returns; hence
the bound holds after every sequence of calls that starts from the state produced by
`sidInit`. -/
theorem C5_accumulator_bound (curve : ℚ → ℚ) (out : Int → Int) :
    (∀ (ch : sidChannel_t) (tw : Option Nat) (cycles : Int) (r : sidChannel_t),
      ch.accumulator < 2 ^ 24 → clockSidChannel ch tw cycles = some r →
      r.accumulator < 2 ^ 24) ∧
    (∀ (sid : sid_t) (regs : sidRegs_t) (cpuCycles maxSamples : Int) (r : bufState),
      sid.ch0.accumulator < 2 ^ 24 → sid.ch1.accumulator < 2 ^ 24 →
      sid.ch2.accumulator < 2 ^ 24 →
      bufferSamplesSid curve sid cpuCycles regs out maxSamples = some r →
      r.sid.ch0.accumulator < 2 ^ 24 ∧ r.sid.ch1.accumulator < 2 ^ 24 ∧
        r.sid.ch2.accumulator < 2 ^ 24) ∧
    (∀ (sid : sid_t) (regs : sidRegs_t) (cpuCycles maxSamples : Int), sidOK sid →
      ∃ r, bufferSamplesSid curve sid cpuCycles regs out maxSamples = some r) ∧
    (∀ (sid : sid_t) (calls : List (Int × sidRegs_t × Int)),
      ∃ s, runCalls curve out (sidInit sid) calls = some s ∧
        s.ch0.accumulator < 2 ^ 24 ∧ s.ch1.accumulator < 2 ^ 24 ∧
        s.ch2.accumulator < 2 ^ 24) := by
  refine ⟨fun ch tw cycles r hacc h => clockSidChannel_acc_lt ch tw cycles r h hacc, ?_, ?_, ?_⟩
  · intro sid regs cpuCycles maxSamples r a0 a1 a2 hr
    have hall := bufferSamplesSid_inv (fun _ ch => ch.accumulator < 2 ^ 24)
      (fun _ ch tw c r h hq => clockSidChannel_acc_lt ch tw c r h hq)
      (fun _ _ _ => by norm_num)
      (fun sid regs h i => by have := h i; fin_cases i <;> exact this)
      curve sid cpuCycles regs out maxSamples r hr
      (fun i => by fin_cases i <;> assumption)
    exact ⟨hall 0, hall 1, hall 2⟩
  · intro sid regs cpuCycles maxSamples hok
    obtain ⟨r, hr, _⟩ := bufferSamplesSid_total curve sid cpuCycles regs out maxSamples hok
    exact ⟨r, hr⟩
  · intro sid calls
    obtain ⟨s, hs, hoks⟩ := runCalls_total curve out calls (sidInit sid) (sidOK_sidInit sid)
    exact ⟨s, hs, (hoks 0).1, (hoks 1).1, (hoks 2).1⟩

end

/-- Witness for C5: one call of 1000 cycles on the freshly initialised chip. -/
theorem C5_accumulator_bound_witness :
    (sidInit blankSid).ch0.accumulator < 2 ^ 24 ∧ (sidInit blankSid).ch1.accumulator < 2 ^ 24 ∧
    (sidInit blankSid).ch2.accumulator < 2 ^ 24 ∧ sidOK (sidInit blankSid) ∧
    ∃ r, @bufferSamplesSid zeroPast (fun _ => 0) (sidInit blankSid) 1000 zeroRegs (fun _ => 0) 100 = some r ∧
      r.sid.ch0.accumulator < 2 ^ 24 ∧ r.sid.ch1.accumulator < 2 ^ 24 ∧
      r.sid.ch2.accumulator < 2 ^ 24 := by
  have key := @C5_accumulator_bound zeroPast (fun _ => 0) (fun _ => 0)
  have a0 : (sidInit blankSid).ch0.accumulator < 2 ^ 24 := by norm_num [sidInit, sidChannelInit]
  have a1 : (sidInit blankSid).ch1.accumulator < 2 ^ 24 := by norm_num [sidInit, sidChannelInit]
  have a2 : (sidInit blankSid).ch2.accumulator < 2 ^ 24 := by norm_num [sidInit, sidChannelInit]
  refine ⟨a0, a1, a2, sidOK_sidInit blankSid, ?_⟩
  obtain ⟨r, hr⟩ := key.2.2.1 (sidInit blankSid) zeroRegs 1000 100 (sidOK_sidInit blankSid)
  exact ⟨r, hr, key.2.1 (sidInit blankSid) zeroRegs 1000 100 r a0 a1 a2 hr⟩

/-! ### C6 -/

section

variable [PastTable]

/-- C6: one LFSR step maps a non-zero 23-bit value to a non-zero 23-bit value; for every
voice with `0 < noise_lfsr < 2^23`, every register image and every cycle count, the voice
after `clockSidChannel` has `0 < noise_lfsr < 2^23` (and the call returns when the
accumulator is a 24-bit value and the ADSR counter fits `uint16_t`); and after every
sequence of `bufferSamplesSid` calls on the chip produced by `sidInit` the three LFSRs are
non-zero 23-bit values. -/
theorem C6_lfsr_nonzero (curve : ℚ → ℚ) (out : Int → Int) :
    (∀ l : Nat, 0 < l → l < 2 ^ 23 → 0 < lfsrStep l ∧ lfsrStep l < 2 ^ 23) ∧
    (∀ (ch : sidChannel_t) (tw : Option Nat) (cycles : Int) (r : sidChannel_t),
      0 < ch.noiseGenerator → ch.noiseGenerator < 2 ^ 23 →
      clockSidChannel ch tw cycles = some r →
      0 < r.noiseGenerator ∧ r.noiseGenerator < 2 ^ 23) ∧
    (∀ (ch : sidChannel_t) (tw : Nat) (cycles : Int),
      ch.accumulator < 2 ^ 24 → ch.adsrCounter < 2 ^ 16 →
      ∃ r, clockSidChannel ch (some tw) cycles = some r) ∧
    (∀ (sid : sid_t) (calls : List (Int × sidRegs_t × Int)),
      ∃ s, runCalls curve out (sidInit sid) calls = some s ∧
        ∀ i : Fin 3, 0 < (s.channel i).noiseGenerator ∧ (s.channel i).noiseGenerator < 2 ^ 23) := by
  refine ⟨fun l h0 h1 => ⟨lfsrStep_pos l h0 h1, lfsrStep_lt l⟩, ?_, ?_, ?_⟩
  · intro ch tw cycles r h0 h1 hr
    exact lfsrOK_clock 0 ch tw cycles r hr ⟨h0, h1⟩
  · intro ch tw cycles hacc hcnt
    exact clockSidChannel_total ch tw cycles hacc hcnt
  · intro sid calls
    obtain ⟨s, hs, _⟩ := runCalls_total curve out calls (sidInit sid) (sidOK_sidInit sid)
    exact ⟨s, hs, runCalls_inv lfsrOK lfsrOK_clock lfsrOK_reset lfsrOK_applyRegs curve out calls
      (sidInit sid) s hs (lfsrOK_sidInit sid)⟩

end

/-- Witness for C6: a noise voice with the seed of `sidChannelInit`, clocked 23 cycles. -/
theorem C6_lfsr_nonzero_witness :
    ∃ r, @clockSidChannel zeroPast { sidChannelInit blankChannel with waveform := 0x80, frequency := 0xffff }
        (some 0) 23 = some r ∧ 0 < r.noiseGenerator ∧ r.noiseGenerator < 2 ^ 23 := by
  have key := @C6_lfsr_nonzero zeroPast (fun _ => 0) (fun _ => 0)
  obtain ⟨r, hr⟩ := key.2.2.1
    { sidChannelInit blankChannel with waveform := 0x80, frequency := 0xffff } 0 23
    (by norm_num [sidChannelInit]) (by norm_num [sidChannelInit])
  exact ⟨r, hr, key.2.1 _ (some 0) 23 r (by norm_num [sidChannelInit])
    (by norm_num [sidChannelInit]) hr⟩

/-! ### C7 -/

/-- C7 fails on the code.  The noise voice reached from `sidInit` after 23 cycles at
`freq0 = 0xFFFF` is clocked 22 cycles: bit 19 of the accumulator goes 0->1 twice in the
per-cycle sequence and 22 calls `clock(1)` step the LFSR twice, but `clock(22)` steps it
once.  Likewise one 45-cycle `bufferSamplesSid` call from `sidInit` steps the LFSR twice
while bit 19 goes 0->1 three times. -/
theorem C7_noise_crossing_missed :
    (@bufferSamplesSid zeroPast (fun _ => 0) (sidInit blankSid) 23 noiseRegs (fun _ => 0) 100).map
      (fun r => r.sid.ch0) = some noiseVoice ∧
    (@clockSidChannel zeroPast noiseVoice (some 0) 22).map (fun r => r.noiseGenerator) =
      some (lfsrStep 0x7ffff0) ∧
    bit19Crossings 0x16ffe9 0xffff 22 = 2 ∧
    (@clockRepeat zeroPast 22 noiseVoice (some 0)).map (fun r => r.noiseGenerator) =
      some (lfsrStep (lfsrStep 0x7ffff0)) ∧
    lfsrStep (lfsrStep 0x7ffff0) ≠ lfsrStep 0x7ffff0 ∧
    (@bufferSamplesSid zeroPast (fun _ => 0) (sidInit blankSid) 45 noiseRegs (fun _ => 0) 100).map
      (fun r => r.sid.ch0.noiseGenerator) = some (lfsrStep (lfsrStep 0x7ffff8)) ∧
    bit19Crossings 0 0xffff 45 = 3 ∧
    lfsrStep (lfsrStep (lfsrStep 0x7ffff8)) ≠ lfsrStep (lfsrStep 0x7ffff8) := by
  refine ⟨by decide!, by decide!, by decide!, by decide!, by decide!, by decide!, by decide!,
    by decide!⟩

/-! ### C8 -/

/-- C8 fails on the code.  From `sidInit` with `freq0 = 0xFFFF`, `freq1 = 1` and the sync
bit set on voice 1, run 112 cycles, then take one more outer step (22 cycles).  In that
step bit 23 of voice 0's accumulator goes from 0 to 1, voice 1 (its sync target) has the
sync bit set, yet `doSync` is false after the step and voice 1's accumulator is 134, not 0. -/
theorem C8_sync_missed :
    ((@runCalls zeroPast (fun _ => 0) (fun _ => 0) (sidInit blankSid) [(112, syncRegs, 100)]).bind
      (fun s => (@bufferIter zeroPast (regParams (fun _ => 0) syncRegs)
          { sid := s, out := fun _ => 0, outIndex := 0, cpuCycles := 22, written := [] }).map
        (fun r => (s.ch0.accumulator &&& 0x800000, r.sid.ch0.accumulator &&& 0x800000,
          r.sid.ch1.waveform &&& 0x02, r.sid.ch0.doSync, r.sid.ch1.accumulator, r.cpuCycles)))) =
      some (0, 0x800000, 0x02, false, 134, 0) ∧
    (@bufferSamplesSid zeroPast (fun _ => 0) (sidInit blankSid) 134 syncRegs (fun _ => 0) 100).map
      (fun r => (r.sid.ch0.accumulator, r.sid.ch1.accumulator)) = some (134 * 0xffff, 134) := by
  refine ⟨by decide!, by decide!⟩

/-! ### C9 -/

/-- C9, as stated, fails: with only LFSR bit 14 set the noise output is `0x2000`
(bit 13), so output bit 11 is 0 although LFSR bit 14 is 1. -/
theorem C9_counterexample :
    noiseSidChannel { blankChannel with noiseGenerator := 0x4000 } = 0x2000 ∧
    (noiseSidChannel { blankChannel with noiseGenerator := 0x4000 }).testBit 11 ≠
      (0x4000 : Nat).testBit 14 := by
  decide

/-- C9 (amended): for every LFSR value the noise output has output bit 15 = LFSR bit 20,
bit 14 = LFSR bit 18, bit 13 = LFSR bit 14, bit 12 = LFSR bit 11, bit 11 = LFSR bit 9,
bit 10 = LFSR bit 5, bit 9 = LFSR bit 2, bit 8 = LFSR bit 0, and all other output bits
are 0. -/
theorem C9_noise_bits (ch : sidChannel_t) :
    (noiseSidChannel ch).testBit 15 = ch.noiseGenerator.testBit 20 ∧
    (noiseSidChannel ch).testBit 14 = ch.noiseGenerator.testBit 18 ∧
    (noiseSidChannel ch).testBit 13 = ch.noiseGenerator.testBit 14 ∧
    (noiseSidChannel ch).testBit 12 = ch.noiseGenerator.testBit 11 ∧
    (noiseSidChannel ch).testBit 11 = ch.noiseGenerator.testBit 9 ∧
    (noiseSidChannel ch).testBit 10 = ch.noiseGenerator.testBit 5 ∧
    (noiseSidChannel ch).testBit 9 = ch.noiseGenerator.testBit 2 ∧
    (noiseSidChannel ch).testBit 8 = ch.noiseGenerator.testBit 0 ∧
    ∀ j, (j < 8 ∨ 15 < j) → (noiseSidChannel ch).testBit j = false := by
  have hbits : (noiseSidChannel ch).testBit 15 = ch.noiseGenerator.testBit 20 ∧
      (noiseSidChannel ch).testBit 14 = ch.noiseGenerator.testBit 18 ∧
      (noiseSidChannel ch).testBit 13 = ch.noiseGenerator.testBit 14 ∧
      (noiseSidChannel ch).testBit 12 = ch.noiseGenerator.testBit 11 ∧
      (noiseSidChannel ch).testBit 11 = ch.noiseGenerator.testBit 9 ∧
      (noiseSidChannel ch).testBit 10 = ch.noiseGenerator.testBit 5 ∧
      (noiseSidChannel ch).testBit 9 = ch.noiseGenerator.testBit 2 ∧
      (noiseSidChannel ch).testBit 8 = ch.noiseGenerator.testBit 0 := by
    rw [noiseSidChannel_eq]
    unfold noiseBits
    generalize ch.noiseGenerator.testBit 20 = b20
    generalize ch.noiseGenerator.testBit 18 = b18
    generalize ch.noiseGenerator.testBit 14 = b14
    generalize ch.noiseGenerator.testBit 11 = b11
    generalize ch.noiseGenerator.testBit 9 = b9
    generalize ch.noiseGenerator.testBit 5 = b5
    generalize ch.noiseGenerator.testBit 2 = b2
    generalize ch.noiseGenerator.testBit 0 = b0
    revert b20 b18 b14 b11 b9 b5 b2 b0
    decide
  obtain ⟨a, b, c, d, e, f, g, h⟩ := hbits
  refine ⟨a, b, c, d, e, f, g, h, ?_⟩
  intro j hj
  rcases hj with hj | hj
  · rw [noiseSidChannel_eq, Nat.testBit_mul_pow_two]
    simp only [ge_iff_le, Bool.and_eq_false_imp, decide_eq_true_eq]
    intro h8
    omega
  · apply Nat.testBit_lt_two_pow
    have h1 := noiseSidChannel_le ch
    have h2 : 2 ^ 16 ≤ 2 ^ j := Nat.pow_le_pow_right (by norm_num) (by omega)
    omega

/-! ### C10 -/

/-- C10: for every voice with `accumulator < 2^24` (and `volume_level` within `uint8_t`),
`waveOut` is computed and is `≤ 0xFFFF`, so `centered = waveOut - 0x8000` lies in
`[-32768, 32767]`, and the value returned by `getOutputSidChannel`, which is
`(centered * (volume_level / 255)) / 32768` when `volume_level ≠ 0`, lies in `[-1, 1]`;
and whenever `volume_level = 0` the result is exactly 0, whatever the other fields are. -/
theorem C10_output_range :
    (∀ (ch : sidChannel_t) (a : Nat), ch.accumulator < 2 ^ 24 → ch.volumeLevel ≤ 255 →
      ∃ w v, waveOutSidChannel ch (some a) = some w ∧ w ≤ 0xffff ∧
        -32768 ≤ centered w ∧ centered w ≤ 32767 ∧
        getOutputSidChannel ch (some a) = some v ∧ -1 ≤ v ∧ v ≤ 1 ∧
        (ch.volumeLevel ≠ 0 → v = ((centered w : ℚ) * ((ch.volumeLevel : ℚ) / 255)) / 32768)) ∧
    (∀ (ch : sidChannel_t) (src : Option Nat), ch.volumeLevel = 0 →
      getOutputSidChannel ch src = some 0) := by
  refine ⟨?_, getOutputSidChannel_zero⟩
  intro ch a hacc hvol
  obtain ⟨w, hw⟩ := waveOutSidChannel_total ch a
  have hle := waveOutSidChannel_le ch (some a) w hacc hw
  obtain ⟨hc0, hc1⟩ := centered_range w hle
  by_cases hv : ch.volumeLevel = 0
  · exact ⟨w, 0, hw, hle, hc0, hc1, getOutputSidChannel_zero ch _ hv, by norm_num, by norm_num,
      fun h => absurd hv h⟩
  · obtain ⟨hr0, hr1⟩ := scaled_range (centered w) ch.volumeLevel hc0 hc1 hvol
    refine ⟨w, _, hw, hle, hc0, hc1, ?_, hr0, hr1, fun _ => rfl⟩
    unfold getOutputSidChannel
    rw [if_neg hv, hw]

/-- Witness for C10: a sawtooth voice at full level with the accumulator at its maximum. -/
theorem C10_output_range_witness :
    ∃ w v, waveOutSidChannel
        { blankChannel with waveform := 0x20, accumulator := 0xffffff, volumeLevel := 0xff }
        (some 0) = some w ∧ w ≤ 0xffff ∧ -32768 ≤ centered w ∧ centered w ≤ 32767 ∧
      getOutputSidChannel
        { blankChannel with waveform := 0x20, accumulator := 0xffffff, volumeLevel := 0xff }
        (some 0) = some v ∧ -1 ≤ v ∧ v ≤ 1 ∧
      ((0xff : Nat) ≠ 0 → v = ((centered w : ℚ) * (((0xff : Nat) : ℚ) / 255)) / 32768) :=
  C10_output_range.1
    { blankChannel with waveform := 0x20, accumulator := 0xffffff, volumeLevel := 0xff } 0
    (by norm_num [blankChannel]) (by norm_num [blankChannel])

/-! ### C11 -/

/-- C11 as stated fails: a voice in DECAY with the gate bit set, `ad = 0`, level 0 and ADSR
counter 0 (the state a decay to sustain level 0 ends in) is not restarted by the set gate;
after 2295 cycles it is as before, at level 0 and in DECAY, not at level `0xFF`. -/
theorem C11_counterexample :
    @clockSidChannel zeroPast { blankChannel with waveform := 0x01, state := DECAY } (some 0) 2295
      = some { blankChannel with waveform := 0x01, state := DECAY } ∧
    ({ blankChannel with waveform := 0x01, state := DECAY } : sidChannel_t).volumeLevel = 0 := by
  decide!

section

variable [PastTable]

/-- C11 (amended): for a voice with the gate bit set, `ad >> 4 = 0`, level 0 and ADSR
counter 0 that is in ATTACK, or in RELEASE and clocked at least once (a freshly initialised
voice with the gate bit written), after `clockSidChannel` calls with non-negative cycle
counts of total `n`: if `n < 2295` the level is `n / 9`, below `0xFF`, and the state is
ATTACK; if `n = 2295 = 9 * 255` the level is `0xFF` and the state is DECAY, however the
cycles are split across the calls.  The calls return on a voice with a 24-bit accumulator. -/
theorem C11_attack_timing (ch : sidChannel_t) (tw : Option Nat) (cs : List Int)
    (hgate : ch.waveform &&& 0x01 ≠ 0) (had : ch.ad >>> 4 = 0) (hv : ch.volumeLevel = 0)
    (hcnt : ch.adsrCounter = 0)
    (hs : ch.state = ATTACK ∨ (ch.state = RELEASE ∧ cs ≠ []))
    (hpos : ∀ c ∈ cs, 0 ≤ c) :
    (∀ r, clockSeq ch tw cs = some r →
      (cs.sum < 2295 →
        (r.volumeLevel : Int) = cs.sum / 9 ∧ r.volumeLevel < 0xff ∧ r.state = ATTACK) ∧
      (cs.sum = 2295 → r.volumeLevel = 0xff ∧ r.state = DECAY)) ∧
    (ch.accumulator < 2 ^ 24 → ∀ w, ∃ r, clockSeq ch (some w) cs = some r) := by
  refine ⟨?_, fun hacc w => clockSeq_total w cs ch hacc (by omega)⟩
  intro r hr
  have hsum : 0 ≤ cs.sum := List.sum_nonneg hpos
  have key : cs.sum ≤ 2295 → attackOK cs.sum r := by
    intro hle
    rcases hs with hs | ⟨hs, hne⟩
    · have h0 : attackOK 0 ch :=
        ⟨hgate, had, by omega, by rw [hcnt, hv]; rfl, Or.inl ⟨by norm_num, hs⟩⟩
      have := attackOK_clockSeq tw cs 0 ch r h0 hpos (by omega) hr
      rw [zero_add] at this
      exact this
    · cases cs with
      | nil => exact absurd rfl hne
      | cons c rest =>
        simp only [clockSeq] at hr
        obtain ⟨y, hy, hrest⟩ := Option.bind_eq_some.mp hr
        rw [List.sum_cons] at hle hsum ⊢
        have hc : 0 ≤ c := hpos c (List.mem_cons_self _ _)
        have hrest_pos : ∀ d ∈ rest, 0 ≤ d := fun d hd => hpos d (List.mem_cons_of_mem _ hd)
        have hrs : 0 ≤ rest.sum := List.sum_nonneg hrest_pos
        have hg0 : attackOK 0 (gateUpdate ch) := by
          rw [gateUpdate_of_set_release ch hgate hs]
          exact ⟨hgate, had, by show ch.adsrCounter < 9; omega,
            by show (ch.adsrCounter : Int) + 9 * ch.volumeLevel = 0; rw [hcnt, hv]; rfl,
            Or.inl ⟨by norm_num, rfl⟩⟩
        have h1 := attackOK_clock 0 ch tw c y hg0 hc (by omega) hy
        have := attackOK_clockSeq tw rest (0 + c) y r h1 hrest_pos (by omega) hrest
        rw [zero_add] at this
        exact this
  refine ⟨fun hlt => ?_, fun heq => ?_⟩
  · obtain ⟨_, _, h3, h4, h5⟩ := key (by omega)
    refine ⟨by omega, by omega, ?_⟩
    rcases h5 with ⟨_, h⟩ | ⟨h, _⟩
    · exact h
    · omega
  · obtain ⟨_, _, h3, h4, h5⟩ := key (by omega)
    refine ⟨by omega, ?_⟩
    rcases h5 with ⟨h, _⟩ | ⟨_, h⟩
    · omega
    · exact h

end

/-- Witness for C11: a freshly initialised voice with the gate bit written, clocked for
1000 and then 1295 cycles, is at level `0xFF` in DECAY. -/
theorem C11_attack_timing_witness :
    ∃ r, @clockSeq zeroPast { sidChannelInit blankChannel with waveform := 0x01 } (some 0)
        [1000, 1295] = some r ∧ r.volumeLevel = 0xff ∧ r.state = DECAY := by
  have h := @C11_attack_timing zeroPast { sidChannelInit blankChannel with waveform := 0x01 }
    (some 0) [1000, 1295] (by decide) (by decide) (by decide) (by decide) (by decide) (by decide)
  obtain ⟨r, hr⟩ := h.2 (by decide) 0
  exact ⟨r, hr, (h.1 r hr).2 (by decide)⟩

/-! ### C12 -/

/-- C12 as stated fails: a voice in RELEASE at level `0xFE` with the gate bit set, attack
rate index 0 (9 cycles) and decay rate index 1 (32 cycles), clocked for 41 cycles, makes one
ATTACK step and then one DECAY step at the decay rate; it ends in DECAY at level `0xFE`, so
it was not stepped as ATTACK for the whole call and its level did not rise. -/
theorem C12_counterexample :
    @clockSidChannel zeroPast
        { blankChannel with waveform := 0x01, ad := 0x01, state := RELEASE, volumeLevel := 0xfe }
        (some 0) 41 =
      some { blankChannel with waveform := 0x01, ad := 0x01, state := DECAY, volumeLevel := 0xfe } ∧
    (@adsrTrace zeroPast (41 + 0x8000)
        (gateUpdate
          { blankChannel with waveform := 0x01, ad := 0x01, state := RELEASE, volumeLevel := 0xfe })
        41).map (fun x => (x.state, x.volumeLevel, adsrRate x)) =
      [(ATTACK, 0xfe, 9), (DECAY, 0xff, 32)] := by
  decide!

section

variable [PastTable]

/-- C12 (amended): if the gate bit (0x01) of the waveform register is set then, whatever
the state of the voice and the cycle count, the state after `clockSidChannel` is ATTACK or
DECAY, as it is at the entry of every iteration of the envelope loop.  A voice that was in
RELEASE enters the loop in ATTACK, with the attack rate `adsrRateTable[ad >> 4]`, and the
call is the call on the same voice in ATTACK (which turns to DECAY inside the call once the
level reaches `0xFF`); every ATTACK step adds 1 to the level modulo 256.  A voice already
in ATTACK or DECAY is not restarted.  The call returns on a well-formed voice. -/
theorem C12_gate_set (ch : sidChannel_t) (tw : Option Nat) (cycles : Int)
    (hgate : ch.waveform &&& 0x01 ≠ 0) :
    (∀ r, clockSidChannel ch tw cycles = some r → r.state = ATTACK ∨ r.state = DECAY) ∧
    (∀ x ∈ adsrTrace (cycles.toNat + 0x8000) (gateUpdate ch) cycles,
      x.state = ATTACK ∨ x.state = DECAY) ∧
    (ch.state = RELEASE →
      gateUpdate ch = { ch with state := ATTACK } ∧
      adsrRate (gateUpdate ch) = adsrRateTable.getD (ch.ad >>> 4) 0 ∧
      clockSidChannel ch tw cycles = clockSidChannel { ch with state := ATTACK } tw cycles ∧
      (0 < cycles →
        (adsrTrace (cycles.toNat + 0x8000) (gateUpdate ch) cycles).head? =
          some { ch with state := ATTACK })) ∧
    (∀ x : sidChannel_t, x.state = ATTACK →
      (envelopeStep x).volumeLevel = (x.volumeLevel + 1) % 256) ∧
    (ch.state ≠ RELEASE → gateUpdate ch = ch) ∧
    (ch.accumulator < 2 ^ 24 → ch.adsrCounter < 2 ^ 16 →
      ∀ w, ∃ r, clockSidChannel ch (some w) cycles = some r) := by
  have hne : ∀ x : sidChannel_t, x.state ≠ RELEASE → x.state = ATTACK ∨ x.state = DECAY := by
    intro x hx
    cases h : x.state
    · exact Or.inl rfl
    · exact Or.inr rfl
    · exact absurd h hx
  refine ⟨?_, ?_, ?_, ?_, fun hs => gateUpdate_of_set ch hgate hs,
    fun hacc hcnt w => clockSidChannel_total ch w cycles hacc hcnt⟩
  · intro r hr
    exact hne r (clockSidChannel_state (fun x => x.state ≠ RELEASE)
      (fun x c hx => adsrIter_state_ne_release x c hx)
      (fun a b hab hb => by
        simp only [envPart, Prod.mk.injEq] at hab
        rw [hab.2.2.2.2.2.1]
        exact hb) ch tw cycles r hr (gateUpdate_state_of_set ch hgate))
  · intro x hx
    exact hne x (adsrTrace_inv (fun x => x.state ≠ RELEASE)
      (fun x c hx => adsrIter_state_ne_release x c hx) _ _ _
      (gateUpdate_state_of_set ch hgate) x hx)
  · intro hs
    have hg := gateUpdate_of_set_release ch hgate hs
    refine ⟨hg, ?_, ?_, ?_⟩
    · rw [hg]; rfl
    · apply clockSidChannel_gate_congr
      rw [hg]
      exact (gateUpdate_of_set { ch with state := ATTACK } hgate (fun hh => by cases hh)).symm
    · intro hc
      rw [hg]
      exact adsrTrace_head _ _ _ hc
  · intro x hx
    unfold envelopeStep
    rw [hx]
    simp only []
    split_ifs <;> rfl

end

/-- Witness for C12: a voice in RELEASE whose gate bit is set, clocked for 100 cycles. -/
theorem C12_gate_set_witness :
    (∀ r, @clockSidChannel zeroPast
        { blankChannel with waveform := 0x01, state := RELEASE } (some 0) 100 = some r →
        r.state = ATTACK ∨ r.state = DECAY) ∧
    (∃ r, @clockSidChannel zeroPast
        { blankChannel with waveform := 0x01, state := RELEASE } (some 0) 100 = some r) :=
  ⟨(@C12_gate_set zeroPast { blankChannel with waveform := 0x01, state := RELEASE } (some 0) 100
      (by decide)).1,
   (@C12_gate_set zeroPast { blankChannel with waveform := 0x01, state := RELEASE } (some 0) 100
      (by decide)).2.2.2.2.2 (by decide) (by decide) 0⟩

/-! ### C13 -/

section

variable [PastTable]

/-- C13: if the gate bit (0x01) of the waveform register is clear then, whatever the state
of the voice and the cycle count, the state after `clockSidChannel` is RELEASE, and every
iteration of the envelope loop of that call runs in state RELEASE with the release rate
`adsrRateTable[sr & 0x0F]`; the call returns on a well-formed voice. -/
theorem C13_gate_clear (ch : sidChannel_t) (tw : Option Nat) (cycles : Int)
    (hgate : ch.waveform &&& 0x01 = 0) :
    (∀ r, clockSidChannel ch tw cycles = some r → r.state = RELEASE) ∧
    (∀ x ∈ adsrTrace (cycles.toNat + 0x8000) (gateUpdate ch) cycles,
      x.state = RELEASE ∧ adsrRate x = adsrRateTable.getD (ch.sr &&& 0x0f) 0) ∧
    (ch.accumulator < 2 ^ 24 → ch.adsrCounter < 2 ^ 16 →
      ∀ w, ∃ r, clockSidChannel ch (some w) cycles = some r) := by
  have hg : (gateUpdate ch).state = RELEASE ∧ (gateUpdate ch).sr = ch.sr := by
    rw [gateUpdate_of_clear ch hgate]
    exact ⟨rfl, rfl⟩
  have hstep : ∀ (x : sidChannel_t) (c : Int), (x.state = RELEASE ∧ x.sr = ch.sr) →
      ((adsrIter x c).1.state = RELEASE ∧ (adsrIter x c).1.sr = ch.sr) := by
    intro x c hx
    refine ⟨adsrIter_state_release x c hx.1, ?_⟩
    have := oscPart_adsrIter x c
    simp only [oscPart, Prod.mk.injEq] at this
    rw [this.2.2.1]
    exact hx.2
  refine ⟨?_, ?_, fun hacc hcnt w => clockSidChannel_total ch w cycles hacc hcnt⟩
  · intro r hr
    have := clockSidChannel_state (fun x => x.state = RELEASE ∧ x.sr = ch.sr) hstep
      (fun a b hab hb => by
        simp only [envPart, Prod.mk.injEq] at hab
        rw [hab.2.2.2.2.2.1, hab.2.2.1]
        exact hb) ch tw cycles r hr hg
    exact this.1
  · intro x hx
    have := adsrTrace_inv (fun x => x.state = RELEASE ∧ x.sr = ch.sr) hstep _ _ _ hg x hx
    refine ⟨this.1, ?_⟩
    unfold adsrRate
    rw [this.1, this.2]

end

/-- Witness for C13: a voice in ATTACK at level 100 whose gate bit is cleared. -/
theorem C13_gate_clear_witness :
    (∀ r, @clockSidChannel zeroPast
        { blankChannel with waveform := 0x10, sr := 0x05, volumeLevel := 100 } (some 0) 500
        = some r → r.state = RELEASE) ∧
    (∃ r, @clockSidChannel zeroPast
        { blankChannel with waveform := 0x10, sr := 0x05, volumeLevel := 100 } (some 0) 500
        = some r) :=
  ⟨(@C13_gate_clear zeroPast
      { blankChannel with waveform := 0x10, sr := 0x05, volumeLevel := 100 } (some 0) 500
      (by decide)).1,
   (@C13_gate_clear zeroPast
      { blankChannel with waveform := 0x10, sr := 0x05, volumeLevel := 100 } (some 0) 500
      (by decide)).2.2 (by decide) (by decide) 0⟩

/-! ### C14 -/

section

variable [PastTable]

/-- C14: if the test bit (0x08) of the waveform register is set then, whatever the state
of the voice, the cycle count and the frequency, noise and sync bits, `clockSidChannel`
returns and leaves the accumulator 0; hence a voice whose register snapshot has the test
bit set has accumulator 0 after every `bufferSamplesSid` call with positive counts, and
such a call returns on a well-formed chip. -/
theorem C14_test_bit :
    (∀ (ch : sidChannel_t) (tw : Option Nat) (cycles : Int), ch.waveform &&& 0x08 ≠ 0 →
      (∀ r, clockSidChannel ch tw cycles = some r → r.accumulator = 0) ∧
      (ch.adsrCounter < 2 ^ 16 → ∃ r, clockSidChannel ch tw cycles = some r)) ∧
    (∀ (curve : ℚ → ℚ) (sid : sid_t) (cpuCycles : Int) (regs : sidRegs_t) (out : Int → Int)
      (maxSamples : Int) (i : Fin 3), 0 < cpuCycles → 0 < maxSamples →
      (regs.waveform i % 2 ^ 8).toNat &&& 0x08 ≠ 0 →
      (∀ r, bufferSamplesSid curve sid cpuCycles regs out maxSamples = some r →
        (r.sid.channel i).accumulator = 0) ∧
      (sidOK sid → ∃ r, bufferSamplesSid curve sid cpuCycles regs out maxSamples = some r)) := by
  refine ⟨fun ch tw cycles ht => ⟨fun r hr => clockSidChannel_test ch tw cycles r hr ht,
    fun hc => clockSidChannel_test_total ch tw cycles ht hc⟩, ?_⟩
  intro curve sid cpuCycles regs out maxSamples i hc hm ht
  refine ⟨fun r hr => bufferSamplesSid_test curve sid cpuCycles regs out maxSamples i r hc hm
    (by rw [applyRegs_waveform]; exact ht) hr, fun hok => ?_⟩
  obtain ⟨r, hr, _⟩ := bufferSamplesSid_pos curve sid cpuCycles regs out maxSamples hok hc hm
  exact ⟨r, hr⟩

end

/-- Witness for C14: a noise voice at full frequency with the test bit set, and a call of
`bufferSamplesSid` on the initialised chip with `waveform1 = 0x88`, `freq1 = 0xFFFF`. -/
theorem C14_test_bit_witness :
    (∃ r, @clockSidChannel zeroPast { noiseVoice with waveform := 0x88 } (some 0x02) 1000
        = some r ∧ r.accumulator = 0) ∧
    (∃ r, @bufferSamplesSid zeroPast (fun _ => 0) (sidInit blankSid) 1000
        { zeroRegs with waveform1 := -120, freq1 := -1 } (fun _ => 0) 100 = some r ∧
      (r.sid.channel 1).accumulator = 0) := by
  have h := @C14_test_bit zeroPast
  have h1 := h.1 { noiseVoice with waveform := 0x88 } (some 0x02) 1000 (by decide)
  have h2 := h.2 (fun _ => 0) (sidInit blankSid) 1000
    { zeroRegs with waveform1 := -120, freq1 := -1 } (fun _ => 0) 100 1 (by decide) (by decide)
    (by decide)
  obtain ⟨r1, hr1⟩ := h1.2 (by decide)
  obtain ⟨r2, hr2⟩ := h2.2 (sidOK_sidInit blankSid)
  exact ⟨⟨r1, hr1, h1.1 r1 hr1⟩, ⟨r2, hr2, h2.1 r2 hr2⟩⟩

/-! ### C15 -/

section

variable [PastTable]

/-- C15: for a voice with `frequency = 0` and the test bit clear, `clockSidChannel` leaves
the accumulator and the noise LFSR unchanged, the envelope fields (state, ADSR counter,
exponential counter, volume level) after the call are those after the same call on the
voice with any other frequency, and the call returns (without reading the sync target). -/
theorem C15_zero_frequency (ch : sidChannel_t) (tw : Option Nat) (cycles : Int)
    (hf : ch.frequency = 0) (ht : ch.waveform &&& 0x08 = 0) :
    (∀ r, clockSidChannel ch tw cycles = some r →
      r.accumulator = ch.accumulator ∧ r.noiseGenerator = ch.noiseGenerator) ∧
    (∀ (f : Nat) (tw2 : Option Nat) (r r2 : sidChannel_t),
      clockSidChannel ch tw cycles = some r →
      clockSidChannel { ch with frequency := f } tw2 cycles = some r2 →
      adsrPart r2 = adsrPart r) ∧
    (ch.adsrCounter < 2 ^ 16 → ∃ r, clockSidChannel ch tw cycles = some r) := by
  have hstop : ∀ m, adsrLoop (cycles.toNat + 0x8000) (gateUpdate ch) cycles = some m →
      clockAccumulator m tw cycles = some m ∧ m.accumulator = ch.accumulator ∧
        m.noiseGenerator = ch.noiseGenerator := by
    intro m hm
    have h1 := oscPart_adsrLoop _ _ _ _ hm
    have h2 := oscPart_gateUpdate ch
    simp only [oscPart, Prod.mk.injEq] at h1 h2
    refine ⟨?_, by rw [h1.2.2.2.2.2.2.1, h2.2.2.2.2.2.2.1],
      by rw [h1.2.2.2.2.2.2.2.1, h2.2.2.2.2.2.2.2.1]⟩
    unfold clockAccumulator
    rw [if_neg (by rw [h1.2.2.2.2.1, h2.2.2.2.2.1]; exact not_not.mpr ht),
      if_pos (by rw [h1.1, h2.1]; exact hf)]
  refine ⟨?_, ?_, ?_⟩
  · intro r hr
    obtain ⟨m, hm, hmr⟩ := clockSidChannel_eq_some ch tw cycles r hr
    obtain ⟨h1, h2, h3⟩ := hstop m hm
    rw [h1] at hmr
    cases hmr
    exact ⟨h2, h3⟩
  · intro f tw2 r r2 hr hr2
    obtain ⟨m, hm, hrm⟩ := clockSidChannel_adsrPart ch tw cycles r hr
    obtain ⟨m2, hm2, hrm2⟩ := clockSidChannel_adsrPart _ tw2 cycles r2 hr2
    rw [gateUpdate_frequency, adsrLoop_frequency, hm] at hm2
    cases hm2
    rw [hrm, hrm2]
    rfl
  · intro hc
    obtain ⟨m, hm⟩ := adsrLoop_total (gateUpdate ch) cycles
      (by rw [adsrCounter_gateUpdate]; exact hc)
    refine ⟨m, ?_⟩
    unfold clockSidChannel
    rw [hm]
    exact (hstop m hm).1

end

/-- Witness for C15: a gated voice with frequency 0, against the same voice with frequency
`0x1234`, both clocked for 1000 cycles. -/
theorem C15_zero_frequency_witness :
    ∃ r, @clockSidChannel zeroPast
        { blankChannel with waveform := 0x11, accumulator := 0x123456, noiseGenerator := 0x7ffff8 }
        none 1000 = some r ∧
      r.accumulator = 0x123456 ∧ r.noiseGenerator = 0x7ffff8 ∧
      ∀ r2, @clockSidChannel zeroPast
        { blankChannel with waveform := 0x11, accumulator := 0x123456, noiseGenerator := 0x7ffff8,
                            frequency := 0x1234 }
        (some 0) 1000 = some r2 → adsrPart r2 = adsrPart r := by
  have h := @C15_zero_frequency zeroPast
    { blankChannel with waveform := 0x11, accumulator := 0x123456, noiseGenerator := 0x7ffff8 }
    none 1000 (by decide) (by decide)
  obtain ⟨r, hr⟩ := h.2.2 (by decide)
  exact ⟨r, hr, (h.1 r hr).1, (h.1 r hr).2, fun r2 hr2 => h.2.1 0x1234 (some 0) r r2 hr hr2⟩

/-! ### C16 -/

section

variable [PastTable]

/-- C16: after `sidInit`, voice `i`'s sync target is voice `(i+1) mod 3` and its sync
source is voice `(i+2) mod 3`; a `bufferSamplesSid` call leaves the two pointers of every
voice as they were; hence the wiring holds after every sequence of calls from `sidInit`. -/
theorem C16_wiring (curve : ℚ → ℚ) (out : Int → Int) :
    (∀ (sid : sid_t) (i : Fin 3), ((sidInit sid).channel i).syncTarget = some (i + 1) ∧
      ((sidInit sid).channel i).syncSource = some (i + 2)) ∧
    (∀ (sid : sid_t) (regs : sidRegs_t) (cpuCycles maxSamples : Int) (r : bufState),
      bufferSamplesSid curve sid cpuCycles regs out maxSamples = some r →
      ∀ i : Fin 3, (r.sid.channel i).syncTarget = (sid.channel i).syncTarget ∧
        (r.sid.channel i).syncSource = (sid.channel i).syncSource) ∧
    (∀ (sid : sid_t) (calls : List (Int × sidRegs_t × Int)),
      ∃ s, runCalls curve out (sidInit sid) calls = some s ∧
        ∀ i : Fin 3, (s.channel i).syncTarget = some (i + 1) ∧
          (s.channel i).syncSource = some (i + 2)) := by
  refine ⟨fun sid i => ⟨(sidOK_sidInit sid i).2.2.1, (sidOK_sidInit sid i).2.2.2⟩, ?_, ?_⟩
  · intro sid regs cpuCycles maxSamples r hr
    exact bufferSamplesSid_inv
      (fun i ch => ch.syncTarget = (sid.channel i).syncTarget ∧
        ch.syncSource = (sid.channel i).syncSource)
      (fun i ch tw c r h hq => by
        have hreg := clockSidChannel_regPart ch tw c r h
        simp only [regPart, Prod.mk.injEq] at hreg
        exact ⟨by rw [hreg.2.2.2.2.2.1]; exact hq.1, by rw [hreg.2.2.2.2.2.2]; exact hq.2⟩)
      (fun _ _ hq => hq)
      (fun sid regs h i => by have := h i; fin_cases i <;> exact this)
      curve sid cpuCycles regs out maxSamples r hr (fun _ => ⟨rfl, rfl⟩)
  · intro sid calls
    obtain ⟨s, hs, hok⟩ := runCalls_total curve out calls (sidInit sid) (sidOK_sidInit sid)
    exact ⟨s, hs, fun i => ⟨(hok i).2.2.1, (hok i).2.2.2⟩⟩

end

/-- Witness for C16: one 1000-cycle call on the freshly initialised chip. -/
theorem C16_wiring_witness :
    ∃ r, @bufferSamplesSid zeroPast (fun _ => 0) (sidInit blankSid) 1000 zeroRegs (fun _ => 0) 100
        = some r ∧
      ∀ i : Fin 3, (r.sid.channel i).syncTarget = some (i + 1) ∧
        (r.sid.channel i).syncSource = some (i + 2) := by
  have key := @C16_wiring zeroPast (fun _ => 0) (fun _ => 0)
  obtain ⟨r, hr, _⟩ := @bufferSamplesSid_total zeroPast (fun _ => 0) (sidInit blankSid) 1000
    zeroRegs (fun _ => 0) 100 (sidOK_sidInit blankSid)
  refine ⟨r, hr, fun i => ?_⟩
  have h1 := key.2.1 (sidInit blankSid) zeroRegs 1000 100 r hr i
  have h2 := key.1 blankSid i
  exact ⟨h1.1.trans h2.1, h1.2.trans h2.2⟩

/-! ### C17 -/

section

variable [PastTable]

/-- C17: `sidInit` produces the same chip state from every prior chip state: every voice
has its register image, counters, accumulator, volume level and `do_sync` zero, state
`RELEASE` and LFSR `0x7FFFF8`, and the cycle accumulator and the filter state are zero;
hence `sidInit` is idempotent, also with arbitrary `bufferSamplesSid` calls in between. -/
theorem C17_init_idempotent (curve : ℚ → ℚ) (out : Int → Int) :
    (∀ s1 s2 : sid_t, sidInit s1 = sidInit s2) ∧
    (∀ (s : sid_t) (i : Fin 3),
      ((sidInit s).channel i).frequency = 0 ∧ ((sidInit s).channel i).ad = 0 ∧
      ((sidInit s).channel i).sr = 0 ∧ ((sidInit s).channel i).pulse = 0 ∧
      ((sidInit s).channel i).waveform = 0 ∧ ((sidInit s).channel i).doSync = false ∧
      ((sidInit s).channel i).state = RELEASE ∧ ((sidInit s).channel i).accumulator = 0 ∧
      ((sidInit s).channel i).noiseGenerator = 0x7ffff8 ∧
      ((sidInit s).channel i).adsrCounter = 0 ∧ ((sidInit s).channel i).adsrExpCounter = 0 ∧
      ((sidInit s).channel i).volumeLevel = 0) ∧
    (∀ s : sid_t, (sidInit s).cycleAccumulator = 0 ∧ (sidInit s).filter.low = 0 ∧
      (sidInit s).filter.band = 0) ∧
    (∀ s : sid_t, sidInit (sidInit s) = sidInit s) ∧
    (∀ (s s1 : sid_t) (calls : List (Int × sidRegs_t × Int)),
      runCalls curve out (sidInit s) calls = some s1 → sidInit s1 = sidInit s) := by
  refine ⟨fun _ _ => rfl, ?_, fun _ => ⟨rfl, rfl, rfl⟩, fun _ => rfl, fun _ _ _ _ => rfl⟩
  intro s i
  fin_cases i <;> exact ⟨rfl, rfl, rfl, rfl, rfl, rfl, rfl, rfl, rfl, rfl, rfl, rfl⟩

end

/-- Witness for C17: re-initialising after a 1000-cycle call gives the initial state. -/
theorem C17_init_idempotent_witness :
    ∃ s1, @runCalls zeroPast (fun _ => 0) (fun _ => 0) (sidInit blankSid) [(1000, zeroRegs, 100)]
        = some s1 ∧ sidInit s1 = sidInit blankSid := by
  obtain ⟨s1, hs1, _⟩ := @runCalls_total zeroPast (fun _ => 0) (fun _ => 0)
    [(1000, zeroRegs, 100)] (sidInit blankSid) (sidOK_sidInit blankSid)
  exact ⟨s1, hs1,
    (@C17_init_idempotent zeroPast (fun _ => 0) (fun _ => 0)).2.2.2.2 blankSid s1 _ hs1⟩

/-! ### C18 -/

/-- C18 fails on the code: `expTargetTable` has 89 entries, so for the levels 89..92,
which pass the guard `volumeLevel < 0x5d`, the lookup is past the end of the table.  A
RELEASE step at level 92 takes the byte at offset 3 past the table as its target, and
its result depends on that byte: with 0 there the level drops to 91, with 2 it stays,
also through a 9-cycle `clockSidChannel` call (release rate index 0). -/
theorem C18_lookup_out_of_bounds :
    expTargetTable.length = 89 ∧
    (∀ v : Nat, 89 ≤ v → v < 0x5d → expTargetTable[v]? = none) ∧
    (∀ (m : PastTable) (ch : sidChannel_t), 89 ≤ ch.volumeLevel → ch.volumeLevel < 0x5d →
      @expTarget m ch = m.byte (ch.volumeLevel - 89) % 256) ∧
    (@envelopeStep { byte := fun _ => 0 }
        { blankChannel with state := RELEASE, volumeLevel := 92 }).volumeLevel = 91 ∧
    (@envelopeStep { byte := fun _ => 2 }
        { blankChannel with state := RELEASE, volumeLevel := 92 }).volumeLevel = 92 ∧
    (@envelopeStep zeroPast
        { blankChannel with state := RELEASE, volumeLevel := 93 }).volumeLevel = 92 ∧
    (@clockSidChannel { byte := fun _ => 0 }
        { blankChannel with state := RELEASE, volumeLevel := 92 } (some 0) 9).map
      (fun r => r.volumeLevel) = some 91 ∧
    (@clockSidChannel { byte := fun _ => 2 }
        { blankChannel with state := RELEASE, volumeLevel := 92 } (some 0) 9).map
      (fun r => r.volumeLevel) = some 92 := by
  refine ⟨rfl, ?_, ?_, by decide, by decide, by decide, by decide!, by decide!⟩
  · intro v h1 h2
    apply List.getElem?_eq_none
    show expTargetTable.length ≤ v
    rw [show expTargetTable.length = 89 from rfl]
    exact h1
  · intro m ch h1 h2
    have hnone : expTargetTable[ch.volumeLevel]? = none := by
      apply List.getElem?_eq_none
      rw [show expTargetTable.length = 89 from rfl]
      exact h1
    unfold expTarget
    rw [if_pos h2, hnone]
    rfl

/-! ### C19 -/

/-- C19 fails on the code: the table holds 4 only at the 26 levels 26..51 and 2 at the
levels 52..88 (so levels 52 and 53 give 2, not 4), and it has no entry for the levels
89..92.  The other parts of the claim hold: 1 at level 0, 30 at 1..5, 16 at 6..13,
8 at 14..25, and target 1 for every level `≥ 0x5D`.  A RELEASE step at level 52 with the
exponential counter at 1 already lowers the level, which a target of 4 would not. -/
theorem C19_table_contents :
    expTargetTable[52]? = some 2 ∧ expTargetTable[53]? = some 2 ∧
    expTargetTable.count 4 = 26 ∧ expTargetTable[92]? = none ∧
    expTargetTable[0]? = some 1 ∧
    (∀ v : Nat, 1 ≤ v → v ≤ 5 → expTargetTable[v]? = some 30) ∧
    (∀ v : Nat, 6 ≤ v → v ≤ 13 → expTargetTable[v]? = some 16) ∧
    (∀ v : Nat, 14 ≤ v → v ≤ 25 → expTargetTable[v]? = some 8) ∧
    (∀ v : Nat, 26 ≤ v → v ≤ 51 → expTargetTable[v]? = some 4) ∧
    (∀ v : Nat, 52 ≤ v → v ≤ 88 → expTargetTable[v]? = some 2) ∧
    (∀ (m : PastTable) (ch : sidChannel_t), 0x5d ≤ ch.volumeLevel → @expTarget m ch = 1) ∧
    (@envelopeStep zeroPast
        { blankChannel with state := RELEASE, volumeLevel := 52, adsrExpCounter := 1 }).volumeLevel
      = 51 := by
  refine ⟨by decide, by decide, by decide, by decide, by decide, ?_, ?_, ?_, ?_, ?_, ?_,
    by decide⟩
  · intro v h1 h2; interval_cases v <;> rfl
  · intro v h1 h2; interval_cases v <;> rfl
  · intro v h1 h2; interval_cases v <;> rfl
  · intro v h1 h2; interval_cases v <;> rfl
  · intro v h1 h2; interval_cases v <;> rfl
  · intro m ch h
    unfold expTarget
    rw [if_neg (by omega)]

/-! ### C20 -/

section

variable [PastTable]

/-- C20: on the fast path (noise bit clear, sync bit of the sync target clear, test bit
clear, `frequency > 0`), for every accumulator `< 2^24`, every 16-bit frequency and every
`cycles` in `1..2^31-1`, `clockSidChannel` returns and the new accumulator equals
`(accumulator + frequency * cycles) mod 2^24` computed over the integers, although the
product is formed modulo `2^32`. -/
theorem C20_fast_path (ch : sidChannel_t) (w : Nat) (cycles : Int)
    (hnoise : ch.waveform &&& 0x80 = 0) (hsync : w &&& 0x02 = 0)
    (htest : ch.waveform &&& 0x08 = 0) (hfreq : 0 < ch.frequency)
    (_hf16 : ch.frequency < 2 ^ 16) (hacc : ch.accumulator < 2 ^ 24)
    (hcnt : ch.adsrCounter < 2 ^ 16) (hc1 : 1 ≤ cycles) (hc2 : cycles ≤ 2 ^ 31 - 1) :
    ∃ r, clockSidChannel ch (some w) cycles = some r ∧
      (r.accumulator : Int) = ((ch.accumulator : Int) + ch.frequency * cycles) % 2 ^ 24 := by
  obtain ⟨r, hr⟩ := clockSidChannel_total ch w cycles hacc hcnt
  refine ⟨r, hr, ?_⟩
  obtain ⟨m, hm, hmr⟩ := clockSidChannel_eq_some ch (some w) cycles r hr
  have h1 := oscPart_adsrLoop _ _ _ _ hm
  have h2 := oscPart_gateUpdate ch
  simp only [oscPart, Prod.mk.injEq] at h1 h2
  obtain ⟨f1, _, _, _, w1, _, a1, _⟩ := h1
  obtain ⟨f2, _, _, _, w2, _, a2, _⟩ := h2
  rw [clockAccumulator_fast m w cycles (by rw [w1, w2]; exact htest)
    (by rw [f1, f2]; omega) (by rw [w1, w2]; exact hnoise) hsync] at hmr
  cases hmr
  show (((m.accumulator + (m.frequency * toUInt32 cycles) % 2 ^ 32) % 2 ^ 32 &&& 0xffffff
    : Nat) : Int) = _
  rw [fastPath_acc m.accumulator m.frequency cycles (by omega) (by omega), a1, a2, f1, f2]

end

/-- Witness for C20: frequency `0xFFFF`, `2^31 - 1` cycles, where the product wraps. -/
theorem C20_fast_path_witness :
    ∃ r, @clockSidChannel zeroPast
        { blankChannel with frequency := 0xffff, accumulator := 0xffffff } (some 0) (2 ^ 31 - 1)
        = some r ∧
      (r.accumulator : Int) = (((0xffffff : Nat) : Int) + ((0xffff : Nat) : Int) * (2 ^ 31 - 1))
        % 2 ^ 24 :=
  @C20_fast_path zeroPast { blankChannel with frequency := 0xffff, accumulator := 0xffffff } 0
    (2 ^ 31 - 1) (by decide) (by decide) (by decide) (by decide) (by decide) (by decide)
    (by decide) (by decide) (by decide)

/-! ### C21 -/

section

variable [PastTable]

/-- C21: one LFSR step maps every value `l` to `((l << 1) | fb) & 0x7FFFFF` with `fb = 1`
iff bit 22 of `l` differs from bit 17 (`lfsrRef`); a noise voice with frequency `0x1000`
whose accumulator is `0x1000 * m` below the first crossing (`m < 128`) is, after a
`clockSidChannel` call of `c` cycles that stays below the second crossing, at accumulator
`0x1000 * (m + c)` with the LFSR stepped once if the call reached cycle 128 and untouched
otherwise; and `0x7FFFF8` steps to `0x7FFFF0`. -/
theorem C21_lfsr_step :
    (∀ l : Nat, lfsrStep l = lfsrRef l) ∧
    (∀ (x : sidChannel_t) (w m : Nat) (c : Int),
      x.waveform &&& 0x80 ≠ 0 → x.waveform &&& 0x08 = 0 → x.frequency = 0x1000 →
      x.accumulator = 0x1000 * m → m < 128 → x.adsrCounter < 2 ^ 16 → 0 < c →
      (m : Int) + c ≤ 383 →
      ∃ r, clockSidChannel x (some w) c = some r ∧
        (r.accumulator : Int) = 0x1000 * ((m : Int) + c) ∧
        r.noiseGenerator =
          if 128 ≤ (m : Int) + c then lfsrStep x.noiseGenerator else x.noiseGenerator) ∧
    lfsrStep 0x7ffff8 = 0x7ffff0 :=
  ⟨lfsrStep_eq_lfsrRef,
   fun x w m c hn ht hf ha hm hcnt hc hle =>
     clockSidChannel_first_crossing x w m c hn ht hf ha hm hcnt hc hle,
   by decide⟩

end

/-- Witness for C21: the freshly initialised voice with waveform `0x80` and frequency
`0x1000`, clocked for 128 cycles, has LFSR `0x7FFFF0` and accumulator `0x80000`. -/
theorem C21_lfsr_step_witness :
    ∃ r, @clockSidChannel zeroPast
        { sidChannelInit blankChannel with waveform := 0x80, frequency := 0x1000 } (some 0) 128
        = some r ∧ r.accumulator = 0x80000 ∧ r.noiseGenerator = 0x7ffff0 := by
  obtain ⟨r, hr, ha, hl⟩ := (@C21_lfsr_step zeroPast).2.1
    { sidChannelInit blankChannel with waveform := 0x80, frequency := 0x1000 } 0 0 128
    (by decide) (by decide) rfl rfl (by decide) (by decide) (by decide) (by decide)
  refine ⟨r, hr, ?_, ?_⟩
  · have : (r.accumulator : Int) = 0x80000 := by rw [ha]; rfl
    exact_mod_cast this
  · rw [hl, if_pos (by decide)]
    decide

/-! ### C22 -/

/-- C22: for every accumulator `< 2^24`, with `p` the 16-bit pulse value (`pulseRef`) and
`comboRef p b = min(((p & b & (b >> 1)) & (b << 1)) << 1, 0xFFFF)`, the value `waveOut` is
`comboRef p triangle` for waveform `0x50`, `comboRef p (A >> 8)` for `0x60` and
`comboRef p (triangle & (A >> 8))` for `0x70`; it is 0 whenever the pulse is low and never
exceeds `0xFFFF`. -/
theorem C22_combined_waveforms (ch : sidChannel_t) (src : Option Nat)
    (hacc : ch.accumulator < 2 ^ 24) :
    (ch.waveform &&& 0xf0 = 0x50 →
      waveOutSidChannel ch src =
        (triangleSidChannel ch src).map (fun tri => comboRef (pulseRef ch) tri)) ∧
    (ch.waveform &&& 0xf0 = 0x60 →
      waveOutSidChannel ch src = some (comboRef (pulseRef ch) (ch.accumulator >>> 8))) ∧
    (ch.waveform &&& 0xf0 = 0x70 →
      waveOutSidChannel ch src =
        (triangleSidChannel ch src).map
          (fun tri => comboRef (pulseRef ch) (tri &&& (ch.accumulator >>> 8)))) ∧
    (∀ w, (ch.waveform &&& 0xf0 = 0x50 ∨ ch.waveform &&& 0xf0 = 0x60 ∨
        ch.waveform &&& 0xf0 = 0x70) → waveOutSidChannel ch src = some w →
      w ≤ 0xffff ∧ (pulseRef ch = 0 → w = 0)) ∧
    (ch.waveform &&& 0x04 = 0 → ∃ tri, triangleSidChannel ch src = some tri) := by
  have hsaw : ch.accumulator >>> 8 ≤ 0xffff := by
    rw [Nat.shiftRight_eq_div_pow]; omega
  have h50 : ch.waveform &&& 0xf0 = 0x50 →
      waveOutSidChannel ch src =
        (triangleSidChannel ch src).map (fun tri => comboRef (pulseRef ch) tri) := by
    intro hsel
    unfold waveOutSidChannel
    simp only [hsel, if_true, Nat.reduceEqDiff, if_false]
    cases htri : triangleSidChannel ch src with
    | none => rfl
    | some tri =>
      simp only [Option.map_some']
      exact congrArg some (combine_eq_comboRef (pulseRef ch) tri (pulseRef_le ch)
        (triangleSidChannel_le ch src tri htri))
  have h60 : ch.waveform &&& 0xf0 = 0x60 →
      waveOutSidChannel ch src = some (comboRef (pulseRef ch) (ch.accumulator >>> 8)) := by
    intro hsel
    unfold waveOutSidChannel
    simp only [hsel, if_true, Nat.reduceEqDiff, if_false]
    exact congrArg some (combine_eq_comboRef (pulseRef ch) _ (pulseRef_le ch) hsaw)
  have h70 : ch.waveform &&& 0xf0 = 0x70 →
      waveOutSidChannel ch src =
        (triangleSidChannel ch src).map
          (fun tri => comboRef (pulseRef ch) (tri &&& (ch.accumulator >>> 8))) := by
    intro hsel
    unfold waveOutSidChannel
    simp only [hsel, if_true, Nat.reduceEqDiff, if_false]
    cases htri : triangleSidChannel ch src with
    | none => rfl
    | some tri =>
      simp only [Option.map_some']
      exact congrArg some (combine_eq_comboRef (pulseRef ch) _ (pulseRef_le ch)
        (le_trans Nat.and_le_right hsaw))
  refine ⟨h50, h60, h70, ?_, ?_⟩
  · intro w hsel hw
    have hform : ∃ b, w = comboRef (pulseRef ch) b := by
      rcases hsel with h | h | h
      · rw [h50 h] at hw
        obtain ⟨tri, _, ht⟩ := Option.map_eq_some'.mp hw
        exact ⟨_, ht.symm⟩
      · rw [h60 h] at hw
        cases hw
        exact ⟨_, rfl⟩
      · rw [h70 h] at hw
        obtain ⟨tri, _, ht⟩ := Option.map_eq_some'.mp hw
        exact ⟨_, ht.symm⟩
    obtain ⟨b, rfl⟩ := hform
    exact ⟨comboRef_le _ _, fun hp => by rw [hp]; exact comboRef_zero b⟩
  · intro hring
    unfold triangleSidChannel
    simp only []
    rw [if_neg (not_not.mpr hring)]
    exact ⟨_, rfl⟩

/-- Witness for C22: waveform `0x50` at accumulator `0x7FFF80` with pulse width 0: the
triangle is `0xFFFF`, the pulse is high, and `waveOut` is `0xFFFC`. -/
theorem C22_combined_waveforms_witness :
    waveOutSidChannel { blankChannel with waveform := 0x50, accumulator := 0x7fff80 } none
      = some 0xfffc ∧
    waveOutSidChannel { blankChannel with waveform := 0x50, accumulator := 0x7fff80 } none
      = (triangleSidChannel { blankChannel with waveform := 0x50, accumulator := 0x7fff80 }
          none).map (fun tri =>
            comboRef (pulseRef { blankChannel with waveform := 0x50, accumulator := 0x7fff80 })
              tri) :=
  ⟨by decide, (C22_combined_waveforms
    { blankChannel with waveform := 0x50, accumulator := 0x7fff80 } none (by decide)).1
    (by decide)⟩

/-! ### C23 -/

section

variable [PastTable]

/-- C23: for a voice with `uint8_t` level and `sr`, along the states that the envelope loop
of one `clockSidChannel` call passes through (`adsrStates`, whose last element is the state
at the exit of the loop): if the call starts in DECAY with the gate bit set, the level never
increases, the state stays DECAY, and a level that started at or above
`sustainLevels[sr >> 4] = (sr >> 4) * 17` never drops below it; if the gate bit is clear,
the state is RELEASE, the level never increases (so it never wraps below 0) and a level 0
stays 0.  The same holds for the voice after the call, and the call returns on a
well-formed voice. -/
theorem C23_envelope_floor (ch : sidChannel_t) (tw : Option Nat) (cycles : Int)
    (hv : ch.volumeLevel < 256) (hsr : ch.sr < 256) :
    (ch.waveform &&& 0x01 ≠ 0 → ch.state = DECAY →
      List.Pairwise (fun a b => b.volumeLevel ≤ a.volumeLevel)
        (adsrStates (cycles.toNat + 0x8000) (gateUpdate ch) cycles) ∧
      (∀ x ∈ adsrStates (cycles.toNat + 0x8000) (gateUpdate ch) cycles,
        x.state = DECAY ∧ x.volumeLevel ≤ ch.volumeLevel ∧
        (17 * (ch.sr >>> 4) ≤ ch.volumeLevel → 17 * (ch.sr >>> 4) ≤ x.volumeLevel)) ∧
      (∀ r, clockSidChannel ch tw cycles = some r →
        r.state = DECAY ∧ r.volumeLevel ≤ ch.volumeLevel ∧
        (17 * (ch.sr >>> 4) ≤ ch.volumeLevel → 17 * (ch.sr >>> 4) ≤ r.volumeLevel))) ∧
    (ch.waveform &&& 0x01 = 0 →
      List.Pairwise (fun a b => b.volumeLevel ≤ a.volumeLevel)
        (adsrStates (cycles.toNat + 0x8000) (gateUpdate ch) cycles) ∧
      (∀ x ∈ adsrStates (cycles.toNat + 0x8000) (gateUpdate ch) cycles,
        x.state = RELEASE ∧ x.volumeLevel ≤ ch.volumeLevel ∧
        (ch.volumeLevel = 0 → x.volumeLevel = 0)) ∧
      (∀ r, clockSidChannel ch tw cycles = some r →
        r.state = RELEASE ∧ r.volumeLevel ≤ ch.volumeLevel ∧
        (ch.volumeLevel = 0 → r.volumeLevel = 0))) ∧
    sustainLevels.getD (ch.sr >>> 4) 0 = 17 * (ch.sr >>> 4) ∧
    (∀ m, adsrLoop (cycles.toNat + 0x8000) (gateUpdate ch) cycles = some m →
      (adsrStates (cycles.toNat + 0x8000) (gateUpdate ch) cycles).getLast? = some m) ∧
    (ch.accumulator < 2 ^ 24 → ch.adsrCounter < 2 ^ 16 →
      ∀ w, ∃ r, clockSidChannel ch (some w) cycles = some r) := by
  have hS := sustainLevels_eq ch.sr hsr
  refine ⟨?_, ?_, hS, fun m hm => adsrStates_getLast _ _ _ m hm,
    fun hacc hcnt w => clockSidChannel_total ch w cycles hacc hcnt⟩
  · intro hgate hs
    have hg : gateUpdate ch = ch := gateUpdate_of_set ch hgate (by rw [hs]; exact fun h => by cases h)
    rw [hg]
    have hstep : ∀ (x : sidChannel_t) (c : Int),
        (x.state = DECAY ∧ x.volumeLevel < 256 ∧ x.sr = ch.sr ∧
          x.volumeLevel ≤ ch.volumeLevel ∧
          (17 * (ch.sr >>> 4) ≤ ch.volumeLevel → 17 * (ch.sr >>> 4) ≤ x.volumeLevel)) →
        ((adsrIter x c).1.state = DECAY ∧ (adsrIter x c).1.volumeLevel < 256 ∧
          (adsrIter x c).1.sr = ch.sr ∧ (adsrIter x c).1.volumeLevel ≤ ch.volumeLevel ∧
          (17 * (ch.sr >>> 4) ≤ ch.volumeLevel →
            17 * (ch.sr >>> 4) ≤ (adsrIter x c).1.volumeLevel)) := by
      intro x c ⟨h1, h2, h3, h4, h5⟩
      obtain ⟨k1, k2, k3⟩ := adsrIter_decay x c h1 h2
      rw [h3, hS] at k3
      exact ⟨k1, by omega, by rw [sr_adsrIter]; exact h3, by omega, fun h => k3 (h5 h)⟩
    have h0 : ch.state = DECAY ∧ ch.volumeLevel < 256 ∧ ch.sr = ch.sr ∧
        ch.volumeLevel ≤ ch.volumeLevel ∧
        (17 * (ch.sr >>> 4) ≤ ch.volumeLevel → 17 * (ch.sr >>> 4) ≤ ch.volumeLevel) :=
      ⟨hs, hv, rfl, le_refl _, fun h => h⟩
    refine ⟨?_, ?_, ?_⟩
    · exact adsrStates_pairwise
        (fun x => x.state = DECAY ∧ x.volumeLevel < 256) (fun x => x.volumeLevel)
        (fun x c hx => ⟨(adsrIter_decay x c hx.1 hx.2).1,
          lt_of_le_of_lt (adsrIter_decay x c hx.1 hx.2).2.1 hx.2⟩)
        (fun x c hx => (adsrIter_decay x c hx.1 hx.2).2.1) _ _ _ ⟨hs, hv⟩
    · intro x hx
      have := adsrStates_inv _ hstep _ _ _ h0 x hx
      exact ⟨this.1, this.2.2.2.1, this.2.2.2.2⟩
    · intro r hr
      have := clockSidChannel_state _ hstep
        (fun a b hab hb => by
          simp only [envPart, Prod.mk.injEq] at hab
          obtain ⟨_, _, e3, _, _, e6, _, _, e9, _⟩ := hab
          rw [e3, e6, e9]
          exact hb) ch tw cycles r hr (by rw [hg]; exact h0)
      exact ⟨this.1, this.2.2.2.1, this.2.2.2.2⟩
  · intro hgate
    have hg : gateUpdate ch = { ch with state := RELEASE } := gateUpdate_of_clear ch hgate
    have hstep : ∀ (x : sidChannel_t) (c : Int),
        (x.state = RELEASE ∧ x.volumeLevel ≤ ch.volumeLevel) →
        ((adsrIter x c).1.state = RELEASE ∧ (adsrIter x c).1.volumeLevel ≤ ch.volumeLevel) := by
      intro x c ⟨h1, h2⟩
      exact ⟨adsrIter_state_release x c h1,
        le_trans (adsrIter_release x c h1 (by omega)) h2⟩
    have h0 : (gateUpdate ch).state = RELEASE ∧ (gateUpdate ch).volumeLevel ≤ ch.volumeLevel := by
      rw [hg]
      exact ⟨rfl, le_refl _⟩
    refine ⟨?_, ?_, ?_⟩
    · exact adsrStates_pairwise
        (fun x => x.state = RELEASE ∧ x.volumeLevel < 256) (fun x => x.volumeLevel)
        (fun x c hx => ⟨adsrIter_state_release x c hx.1,
          lt_of_le_of_lt (adsrIter_release x c hx.1 hx.2) hx.2⟩)
        (fun x c hx => adsrIter_release x c hx.1 hx.2) _ _ _
        (by rw [hg]; exact ⟨rfl, hv⟩)
    · intro x hx
      have := adsrStates_inv _ hstep _ _ _ h0 x hx
      exact ⟨this.1, this.2, fun h => by omega⟩
    · intro r hr
      have := clockSidChannel_state _ hstep
        (fun a b hab hb => by
          simp only [envPart, Prod.mk.injEq] at hab
          obtain ⟨_, _, _, _, _, e6, _, _, e9, _⟩ := hab
          rw [e6, e9]
          exact hb) ch tw cycles r hr h0
      exact ⟨this.1, this.2, fun h => by omega⟩

end

/-- Witness for C23: a voice in DECAY at level `0x80` with sustain nibble 7 (`0x77`) and the
gate bit set, clocked for 100000 cycles, ends in DECAY between `0x77` and `0x80`. -/
theorem C23_envelope_floor_witness :
    ∃ r, @clockSidChannel zeroPast
        { blankChannel with waveform := 0x01, sr := 0x70, state := DECAY, volumeLevel := 0x80 }
        (some 0) 100000 = some r ∧
      r.state = DECAY ∧ r.volumeLevel ≤ 0x80 ∧ 0x77 ≤ r.volumeLevel := by
  have h := @C23_envelope_floor zeroPast
    { blankChannel with waveform := 0x01, sr := 0x70, state := DECAY, volumeLevel := 0x80 }
    (some 0) 100000 (by decide) (by decide)
  obtain ⟨r, hr⟩ := h.2.2.2.2 (by decide) (by decide) 0
  have h1 := (h.1 (by decide) rfl).2.2 r hr
  exact ⟨r, hr, h1.1, h1.2.1, h1.2.2 (by decide)⟩

/-! ### C24 -/

/-- C24 fails on the code: `regs->cutoff` is an `int8_t` converted to `float` without a cast
to `uint8_t`, so the ratio is `cutoff / 255` with the signed value.  For the register byte
`0x80` the ratio is `-128/255`, not `128/255`; for every byte `b >= 0x80` the ratio is
`(b - 256) / 255 < 0`, and no byte gives a ratio above `127/255`.  For `b < 0x80` the ratio
is `b / 255`, as claimed. -/
theorem C24_cutoff_signed :
    (regParams id { zeroRegs with cutoff := toInt8 0x80 }).cutoff = (-128 : ℚ) / 255 - 1 / 2 ∧
    (∀ (curve : ℚ → ℚ) (regs : sidRegs_t),
      (regParams curve regs).cutoff = curve ((regs.cutoff : ℚ) / 255 - 1 / 2)) ∧
    (∀ b : Nat, 0x80 ≤ b → b < 256 →
      ((toInt8 b : Int) : ℚ) / 255 = ((b : ℚ) - 256) / 255 ∧ ((toInt8 b : Int) : ℚ) / 255 < 0) ∧
    (∀ b : Nat, b < 256 → ((toInt8 b : Int) : ℚ) / 255 ≤ 127 / 255) ∧
    (∀ b : Nat, b < 0x80 → ((toInt8 b : Int) : ℚ) / 255 = (b : ℚ) / 255) := by
  have hhi : ∀ b : Nat, 0x80 ≤ b → b < 256 → toInt8 b = (b : Int) - 256 := by
    intro b h1 h2
    unfold toInt8
    rw [Nat.mod_eq_of_lt (by omega), if_neg (by omega)]
    norm_num
  have hlo : ∀ b : Nat, b < 0x80 → toInt8 b = (b : Int) := by
    intro b h
    unfold toInt8
    rw [Nat.mod_eq_of_lt (by omega), if_pos (by omega)]
  refine ⟨?_, fun _ _ => rfl, ?_, ?_, ?_⟩
  · have h : toInt8 0x80 = -128 := by decide
    show id ((((toInt8 0x80 : Int)) : ℚ) / 255 - 1 / 2) = _
    rw [h]
    norm_num
  · intro b h1 h2
    rw [hhi b h1 h2]
    push_cast
    refine ⟨rfl, ?_⟩
    have : (b : ℚ) < 256 := by exact_mod_cast h2
    apply div_neg_of_neg_of_pos <;> linarith
  · intro b h
    have hle : toInt8 b ≤ 127 := by
      by_cases hb : b < 0x80
      · rw [hlo b hb]; omega
      · rw [hhi b (by omega) h]; omega
    have : ((toInt8 b : Int) : ℚ) ≤ 127 := by exact_mod_cast hle
    exact div_le_div_of_nonneg_right this (by norm_num)
  · intro b h
    rw [hlo b h]
    push_cast
    rfl

/-! ### C25 -/

/-- C25: over exact arithmetic, for every constant input `x`, every cutoff, every resonance
and every selector, the filter state `(low = x, band = 0)` is a fixed point of
`sidFilterStep`; at that state the low-pass tap (selector `0x10`) outputs exactly `x`, the
band-pass tap (`0x20`) outputs 0 and the high-pass tap (`0x40`) outputs 0. -/
theorem C25_lowpass_dc_gain (x cutoff resonance : ℚ) (filterSel : Nat) :
    (sidFilterStep x cutoff resonance filterSel { low := x, band := 0 }).1
      = { low := x, band := 0 } ∧
    (sidFilterStep x cutoff resonance 0x10 { low := x, band := 0 }).2 = x ∧
    (sidFilterStep x cutoff resonance 0x20 { low := x, band := 0 }).2 = 0 ∧
    (sidFilterStep x cutoff resonance 0x40 { low := x, band := 0 }).2 = 0 ∧
    (sidFilterStep x cutoff resonance filterSel { low := x, band := 0 }).2
      = if filterSel &&& 0x10 ≠ 0 then x else 0 := by
  have hs : saturate 0 = 0 := by simp [saturate]
  have key : ∀ sel : Nat, (sidFilterStep x cutoff resonance sel { low := x, band := 0 }).2
      = if sel &&& 0x10 ≠ 0 then x else 0 := by
    intro sel
    simp only [sidFilterStep, mul_zero, sub_zero, hs, add_zero, sub_self, zero_add]
    split_ifs <;> simp
  refine ⟨?_, ?_, ?_, ?_, key filterSel⟩
  · simp [sidFilterStep, hs]
  · rw [key, if_pos (by decide)]
  · rw [key, if_neg (by decide)]
  · rw [key, if_neg (by decide)]

/-! ### C26 -/

section

variable [PastTable]

/-- C26: an ATTACK envelope step maps the level `v` to `(v + 1) mod 256`, clears the
exponential counter, and moves to DECAY exactly when the new level is `0xFF`; so a voice
in ATTACK at level `0xFF` goes to level 0 and stays in ATTACK. -/
theorem C26_attack_wrap (x : sidChannel_t) (hs : x.state = ATTACK) :
    (envelopeStep x).volumeLevel = (x.volumeLevel + 1) % 256 ∧
    (envelopeStep x).adsrExpCounter = 0 ∧
    (envelopeStep x).state = (if (x.volumeLevel + 1) % 256 = 0xff then DECAY else ATTACK) ∧
    (x.volumeLevel = 0xff →
      (envelopeStep x).volumeLevel = 0 ∧ (envelopeStep x).state = ATTACK) := by
  have key : (envelopeStep x).volumeLevel = (x.volumeLevel + 1) % 256 ∧
      (envelopeStep x).adsrExpCounter = 0 ∧
      (envelopeStep x).state = (if (x.volumeLevel + 1) % 256 = 0xff then DECAY else ATTACK) := by
    obtain ⟨fr, ad, sr, pu, wf, ds, st, acc, ng, cnt, ec, vl, t, s⟩ := x
    simp only at hs
    subst hs
    simp only [envelopeStep]
    split_ifs <;> exact ⟨rfl, rfl, rfl⟩
  refine ⟨key.1, key.2.1, key.2.2, fun hv => ?_⟩
  rw [key.1, key.2.2, hv]
  exact ⟨rfl, rfl⟩

end

/-- Witness for C26: the step at level `0xFF`, and the scenario that reaches it: a fresh
voice with `sr = 0xF0` gated for 2295 cycles is at level `0xFF` in DECAY; one cycle with the
gate bit cleared puts it in RELEASE at `0xFF`; eight cycles with the gate bit set again
complete an attack step, after which it is in ATTACK at level 0. -/
theorem C26_attack_wrap_witness :
    ((@envelopeStep zeroPast { blankChannel with volumeLevel := 0xff }).volumeLevel = 0 ∧
      (@envelopeStep zeroPast { blankChannel with volumeLevel := 0xff }).state = ATTACK) ∧
    (@clockSidChannel zeroPast { sidChannelInit blankChannel with waveform := 0x01, sr := 0xf0 }
        (some 0) 2295).map (fun r => (r.state, r.volumeLevel)) = some (DECAY, 0xff) ∧
    ((@clockSidChannel zeroPast { sidChannelInit blankChannel with waveform := 0x01, sr := 0xf0 }
        (some 0) 2295).bind (fun r1 =>
      @clockSidChannel zeroPast { r1 with waveform := 0x00 } (some 0) 1)).map
        (fun r => (r.state, r.volumeLevel)) = some (RELEASE, 0xff) ∧
    ((@clockSidChannel zeroPast { sidChannelInit blankChannel with waveform := 0x01, sr := 0xf0 }
        (some 0) 2295).bind (fun r1 =>
      (@clockSidChannel zeroPast { r1 with waveform := 0x00 } (some 0) 1).bind (fun r2 =>
        @clockSidChannel zeroPast { r2 with waveform := 0x01 } (some 0) 8))).map
        (fun r => (r.state, r.volumeLevel)) = some (ATTACK, 0) :=
  ⟨(@C26_attack_wrap zeroPast { blankChannel with volumeLevel := 0xff } rfl).2.2.2 rfl,
    by decide!, by decide!, by decide!⟩

/-! ### C27 -/

section

variable [PastTable]

/-- C27: for every voice with accumulator `< 2^24`, `frequency > 0` and the test bit clear,
and every `cycles` in `1..2^31-1`: the slow path's loop returns, each of its sub-steps
advances at least 1 cycle and the sub-steps sum to `cycles`, and it leaves
`accumulator = (accumulator + frequency * cycles) mod 2^24`, which is also the value of the
fast path's expression; hence `clockSidChannel` leaves that accumulator whatever the noise
and sync bits are. -/
theorem C27_phase_agreement (ch : sidChannel_t) (w : Nat) (cycles : Int)
    (hacc : ch.accumulator < 2 ^ 24) (hfreq : 0 < ch.frequency)
    (htest : ch.waveform &&& 0x08 = 0) (hc : 0 < cycles) (hc2 : cycles < 2 ^ 31) :
    (∃ r, slowLoop cycles.toNat ch w cycles = some r ∧
      (r.accumulator : Int) = ((ch.accumulator : Int) + ch.frequency * cycles) % 2 ^ 24) ∧
    ((∀ s ∈ slowSteps cycles.toNat ch w cycles, 1 ≤ s) ∧
      (slowSteps cycles.toNat ch w cycles).sum = cycles) ∧
    ((((ch.accumulator + (ch.frequency * toUInt32 cycles) % 2 ^ 32) % 2 ^ 32 &&& 0xffffff
      : Nat) : Int) = ((ch.accumulator : Int) + ch.frequency * cycles) % 2 ^ 24) ∧
    (ch.adsrCounter < 2 ^ 16 →
      ∃ r, clockSidChannel ch (some w) cycles = some r ∧
        (r.accumulator : Int) = ((ch.accumulator : Int) + ch.frequency * cycles) % 2 ^ 24) := by
  refine ⟨?_, ?_, ?_, fun hcnt => clockSidChannel_phase ch w cycles hacc hfreq htest hc hc2 hcnt⟩
  · obtain ⟨r, hr⟩ := slowLoop_total cycles.toNat ch w cycles hacc (Int.self_le_toNat cycles)
    exact ⟨r, hr, slowLoop_acc _ ch w cycles r hacc (by omega) (by omega) hr⟩
  · exact slowSteps_sum cycles.toNat ch w cycles hacc (by omega) (Int.self_le_toNat cycles)
  · exact fastPath_acc ch.accumulator ch.frequency cycles (by omega) (by omega)

end

/-- Witness for C27: the noise voice at frequency `0xFFFF`, sync bit of the target set,
clocked for 1000 cycles. -/
theorem C27_phase_agreement_witness :
    ∃ r, @clockSidChannel zeroPast noiseVoice (some 0x02) 1000 = some r ∧
      (r.accumulator : Int) = (((0x16ffe9 : Nat) : Int) + ((0xffff : Nat) : Int) * 1000) % 2 ^ 24 :=
  (@C27_phase_agreement zeroPast noiseVoice 0x02 1000 (by decide) (by decide) (by decide)
    (by decide) (by decide)).2.2.2 (by decide)

/-! ### C28 -/

section

variable [PastTable]

/-- C28: for every voice with `adsr_counter < 2^15`: the ADSR loop returns for every cycle
count; for all `a, b > 0` the envelope fields (state, ADSR counter, exponential counter,
level) after `clockSidChannel(a + b)` are those after `clockSidChannel(a)` followed by
`clockSidChannel(b)`, the registers being left alone; hence for `n > 0` the fields after
`clockSidChannel(n)` are those after `n` successive `clockSidChannel(1)` calls; and
`adsr_counter < 2^15` holds after every call.  All these calls return on a voice with a
24-bit accumulator. -/
theorem C28_adsr_batching (ch : sidChannel_t) (hcnt : ch.adsrCounter < 2 ^ 15) :
    (∀ c : Int, ∃ m, adsrLoop (c.toNat + 0x8000) (gateUpdate ch) c = some m) ∧
    (∀ (a b : Int) (tw1 tw2 tw3 : Option Nat) (r1 r2 r : sidChannel_t), 0 < a → 0 < b →
      clockSidChannel ch tw1 a = some r1 → clockSidChannel r1 tw2 b = some r2 →
      clockSidChannel ch tw3 (a + b) = some r → adsrPart r = adsrPart r2) ∧
    (∀ (n w : Nat) (r r2 : sidChannel_t), 0 < n → ch.accumulator < 2 ^ 24 →
      clockRepeat n ch (some w) = some r → clockSidChannel ch (some w) (n : Int) = some r2 →
      adsrPart r = adsrPart r2) ∧
    (∀ (tw : Option Nat) (c : Int) (r : sidChannel_t),
      clockSidChannel ch tw c = some r → r.adsrCounter < 2 ^ 15) ∧
    (ch.accumulator < 2 ^ 24 → ∀ (a b : Int) (w : Nat), ∃ r1 r2 r,
      clockSidChannel ch (some w) a = some r1 ∧ clockSidChannel r1 (some w) b = some r2 ∧
      clockSidChannel ch (some w) (a + b) = some r) ∧
    (ch.accumulator < 2 ^ 24 → ∀ (n w : Nat), ∃ r, clockRepeat n ch (some w) = some r) := by
  have hcnt16 : ch.adsrCounter < 2 ^ 16 := by omega
  refine ⟨fun c => adsrLoop_total (gateUpdate ch) c
      (by rw [adsrCounter_gateUpdate]; exact hcnt16), ?_, ?_, ?_, ?_, ?_⟩
  · intro a b tw1 tw2 tw3 r1 r2 r ha hb h1 h2 h3
    exact clockSidChannel_split ch tw1 tw2 tw3 a b r1 r2 r hcnt (by omega) (by omega) h1 h2 h3
  · intro n w r r2 hn hacc h h2
    obtain ⟨k, rfl⟩ : ∃ k, n = k + 1 := ⟨n - 1, by omega⟩
    exact clockRepeat_adsrPart w k ch r r2 hcnt hacc h h2
  · intro tw c r h
    exact clockSidChannel_counter15 ch tw c r h hcnt
  · intro hacc a b w
    obtain ⟨r1, h1⟩ := clockSidChannel_total ch w a hacc hcnt16
    obtain ⟨r2, h2⟩ := clockSidChannel_total r1 w b (clockSidChannel_acc_lt _ _ _ _ h1 hacc)
      (clockSidChannel_counter_lt _ _ _ _ h1 hcnt16)
    obtain ⟨r, h3⟩ := clockSidChannel_total ch w (a + b) hacc hcnt16
    exact ⟨r1, r2, r, h1, h2, h3⟩
  · intro hacc n w
    exact clockRepeat_total w n ch hacc hcnt16

end

/-- Witness for C28: a gated voice in ATTACK with ADSR counter 5, clocked for 7 and then
5 cycles, against one call of 12 cycles. -/
theorem C28_adsr_batching_witness :
    ∃ r1 r2 r,
      @clockSidChannel zeroPast { blankChannel with waveform := 0x01, adsrCounter := 5 }
        (some 0) 7 = some r1 ∧
      @clockSidChannel zeroPast r1 (some 0) 5 = some r2 ∧
      @clockSidChannel zeroPast { blankChannel with waveform := 0x01, adsrCounter := 5 }
        (some 0) (7 + 5) = some r ∧
      adsrPart r = adsrPart r2 := by
  have h := @C28_adsr_batching zeroPast { blankChannel with waveform := 0x01, adsrCounter := 5 }
    (by decide)
  obtain ⟨r1, r2, r, h1, h2, h3⟩ := h.2.2.2.2.1 (by decide) 7 5 0
  exact ⟨r1, r2, r, h1, h2, h3,
    h.2.1 7 5 (some 0) (some 0) (some 0) r1 r2 r (by decide) (by decide) h1 h2 h3⟩

/-! ### C29 -/

section

variable [PastTable]

/-- C29: a `clockSidChannel` call that leaves through the test-bit branch, the
`frequency = 0` branch or the fast path leaves `doSync` and the noise LFSR as they were;
the sync loop of `bufferSamplesSid` writes no `doSync`.  Hence, when voice `i` has `doSync`
set, is wired to voice `i + 1`, has its test bit set or frequency 0, and the sync bit of
voice `i + 1` is set, every outer step, and every `bufferSamplesSid` call with positive
counts, leaves `doSync` of voice `i` set and the accumulator of voice `i + 1` at 0. -/
theorem C29_stale_sync :
    (∀ (ch : sidChannel_t) (tw : Option Nat) (c : Int) (r : sidChannel_t),
      clockSidChannel ch tw c = some r →
      (ch.waveform &&& 0x08 ≠ 0 ∨ ch.frequency = 0 ∨
        (ch.waveform &&& 0x80 = 0 ∧ ∃ w, tw = some w ∧ w &&& 0x02 = 0)) →
      r.doSync = ch.doSync ∧ r.noiseGenerator = ch.noiseGenerator) ∧
    (∀ (sid : sid_t) (i : Fin 3) (a : sid_t), applySync sid i = some a →
      ∀ j, (a.channel j).doSync = (sid.channel j).doSync) ∧
    (∀ (p : mixParams) (s s1 : bufState) (i : Fin 3), bufferIter p s = some s1 →
      (s.sid.channel i).doSync = true → (s.sid.channel i).syncTarget = some (i + 1) →
      ((s.sid.channel i).waveform &&& 0x08 ≠ 0 ∨ (s.sid.channel i).frequency = 0) →
      (s.sid.channel (i + 1)).waveform &&& 0x02 ≠ 0 →
      (s1.sid.channel i).doSync = true ∧ (s1.sid.channel (i + 1)).accumulator = 0) ∧
    (∀ (curve : ℚ → ℚ) (sid : sid_t) (cpuCycles : Int) (regs : sidRegs_t) (out : Int → Int)
      (maxSamples : Int) (i : Fin 3), 0 < cpuCycles → 0 < maxSamples →
      (sid.channel i).doSync = true → (sid.channel i).syncTarget = some (i + 1) →
      ((regs.waveform i % 2 ^ 8).toNat &&& 0x08 ≠ 0 ∨ (regs.freq i % 2 ^ 16).toNat = 0) →
      (regs.waveform (i + 1) % 2 ^ 8).toNat &&& 0x02 ≠ 0 →
      (∀ r, bufferSamplesSid curve sid cpuCycles regs out maxSamples = some r →
        (r.sid.channel i).doSync = true ∧ (r.sid.channel (i + 1)).accumulator = 0) ∧
      (sidOK sid → ∃ r, bufferSamplesSid curve sid cpuCycles regs out maxSamples = some r)) := by
  refine ⟨fun ch tw c r h hexit => clockSidChannel_frame ch tw c r h hexit,
    fun sid i a h j => applySync_doSync sid i a h j, ?_, ?_⟩
  · intro p s s1 i h hd ht hx hw
    have hall : ∀ j, staleSync i j (s.sid.channel j) := fun j =>
      ⟨fun hj => by rw [hj]; exact ⟨hd, hx, ht⟩, fun hj => by rw [hj]; exact hw⟩
    have := bufferIter_stale p s s1 i h hall
    exact ⟨((this.1 i).1 rfl).1, this.2⟩
  · intro curve sid cpuCycles regs out maxSamples i hc hm hd ht hx hw
    have hall : ∀ j, staleSync i j ((applyRegs sid regs).channel j) := fun j =>
      ⟨fun hj => by
          rw [hj, applyRegs_waveform, applyRegs_frequency, (applyRegs_doSync sid regs i).1,
            (applyRegs_doSync sid regs i).2]
          exact ⟨hd, hx, ht⟩,
        fun hj => by rw [hj, applyRegs_waveform]; exact hw⟩
    refine ⟨fun r hr => bufferSamplesSid_stale curve sid cpuCycles regs out maxSamples i r
      hc hm hall hr, fun hok => ?_⟩
    obtain ⟨r, hr, _⟩ := bufferSamplesSid_pos curve sid cpuCycles regs out maxSamples hok hc hm
    exact ⟨r, hr⟩

end

/-- Witness for C29: on the initialised chip with `doSync` of voice 0 left set, a call with
`freq0 = 0`, `freq1 = 0x1000` and the sync bit of voice 1 set leaves voice 1 at
accumulator 0 although its frequency is not 0. -/
theorem C29_stale_sync_witness :
    ∃ r, @bufferSamplesSid zeroPast (fun _ => 0) staleSid 1000
        { zeroRegs with freq1 := 0x1000, waveform1 := 0x02 } (fun _ => 0) 100 = some r ∧
      (r.sid.channel 0).doSync = true ∧ (r.sid.channel 1).accumulator = 0 := by
  have h := (@C29_stale_sync zeroPast).2.2.2 (fun _ => 0) staleSid 1000
    { zeroRegs with freq1 := 0x1000, waveform1 := 0x02 } (fun _ => 0) 100 0
    (by decide) (by decide) rfl rfl (Or.inr (by decide)) (by decide)
  obtain ⟨r, hr⟩ := h.2 (by decide)
  exact ⟨r, hr, h.1 r hr⟩

end SimpleSid
